import Mathlib

/-!
# file-vault: namespace tree, content blocks and bindings

A shallow embedding of `backend/internal/services.go` and `models.go`.

* Go strings are Lean `String`s; path processing works on the character list.
* `int` and `int64` fields are `Int`, identifiers (`uint`) are `Nat`.  The quota
  test of `ProcessFileUpload` is evaluated in `int64`, wraparound included
  (`wrapInt64`).  The sums written back to the store are mathematical integers,
  which is what `int64` gives as long as the values stay below 2^63.
* The gorm handle `fs.DB` is a value of type `DB`: one list of rows per table, in
  insertion (primary-key) order, plus the next value of each identifier sequence.
  `Create` appends a row under a fresh identifier, `First` is `List.find?`,
  `Save` rewrites the row with the same primary key (or creates the row when the
  key is zero) and `Delete` drops the row with that primary key.  `Create` puts
  the column default in place of a zero value (`QuotaMax`, `RefCount`).  Calls are
  sequential.
* The store enforces its foreign keys.  The services run into one of them:
  `DeleteFile` deletes the block while the binding that references it is still
  stored, so the store refuses that delete and the services drop the error
  (`DB.deleteDataBlock`).  The other writes of the services are modelled without
  the check: issued for a stored account on a state the services produced, they
  do not violate a foreign key.
* `filepath.Join` and `filepath.Clean` follow the Go standard library on Unix.
* SHA-256 and MIME sniffing come from the Go standard library; they are the two
  fields of `Env`.
* A handler run is `NewFileSystem(db, userID)` followed by one operation with
  that `userID` (`Op.run`).
* `float64` values are the rationals they denote; every conversion and operation
  of `GetDeduplicationStats` rounds to the nearest binary64 value, ties to even
  (`float64`).  The exponent range is not modelled: with `int64` totals the results
  lie between 2^-63 and 2^70.  The `fmt.Sprintf` that formats the ratio is a
  parameter.
-/

set_option autoImplicit false

namespace FileVault

/-! ## Records (`models.go`) -/

/-- Row of table `users`; only the accounting columns are used by the services. -/
structure User where
  ID : Nat
  QuotaUsed : Int
  QuotaMax : Int
  StorageSaved : Int
  deriving DecidableEq, Repr

/-- Row of table `data_blocks`. -/
structure DataBlock where
  ID : Nat
  Hash : String
  Data : List Nat
  Size : Int
  RefCount : Int
  deriving DecidableEq, Repr

/-- Row of table `trie_nodes`. -/
structure TrieNode where
  ID : Nat
  Name : String
  Path : String
  ParentID : Option Nat
  OwnerID : Nat
  NodeType : String
  IsPublic : Bool
  deriving DecidableEq, Repr

/-- Row of table `file_nodes`. -/
structure FileNode where
  ID : Nat
  TrieNodeID : Nat
  OriginalName : String
  Hash : String
  Size : Int
  MimeType : String
  ActualMimeType : String
  DataBlockID : Nat
  RefCount : Int
  Downloads : Int
  Tags : String
  IsDeduped : Bool
  deriving DecidableEq, Repr

/-- Row of table `dir_nodes`. -/
structure DirNode where
  ID : Nat
  TrieNodeID : Nat
  deriving DecidableEq, Repr

/-- Row of table `sym_link_nodes`. -/
structure SymLinkNode where
  ID : Nat
  TrieNodeID : Nat
  TargetPath : String
  deriving DecidableEq, Repr

/-- The Go zero value of `User` (what a failed `First` leaves in the variable). -/
def User.zero : User := { ID := 0, QuotaUsed := 0, QuotaMax := 0, StorageSaved := 0 }

/-- The Go zero value of `DataBlock`. -/
def DataBlock.zero : DataBlock := { ID := 0, Hash := "", Data := [], Size := 0, RefCount := 0 }

/-! ## The record store -/

/-- Contents of the database: the tables and their identifier sequences. -/
structure DB where
  users : List User
  dataBlocks : List DataBlock
  trieNodes : List TrieNode
  fileNodes : List FileNode
  dirNodes : List DirNode
  symLinkNodes : List SymLinkNode
  nextUserID : Nat
  nextDataBlockID : Nat
  nextTrieNodeID : Nat
  nextFileNodeID : Nat
  nextDirNodeID : Nat
  nextSymLinkNodeID : Nat
  deriving DecidableEq, Repr

/-- The errors the services return (`errors.New` messages and gorm's not-found). -/
inductive Error where
  /-- Message "invalid path: reserved characters not allowed". -/
  | invalidPathReserved
  /-- Message "file already exists". -/
  | fileAlreadyExists
  /-- Message "cannot create file inside another file". -/
  | fileInsideFile
  /-- Message "invalid path". -/
  | invalidPath
  /-- The error gorm.ErrRecordNotFound. -/
  | recordNotFound
  /-- Message "quota exceeded". -/
  | quotaExceeded
  /-- Message "invalid file path". -/
  | invalidFilePath
  /-- Message "source file not found". -/
  | sourceNotFound
  /-- Message "source is not a file". -/
  | sourceNotAFile
  deriving DecidableEq, Repr

namespace DB

/-- `db.Create(&user)`; a zero `QuotaMax` becomes the column default 10485760. -/
def createUser (db : DB) (u : User) : User × DB :=
  let u1 := { u with ID := db.nextUserID,
                     QuotaMax := if u.QuotaMax = 0 then 10485760 else u.QuotaMax }
  (u1, { db with users := db.users ++ [u1], nextUserID := db.nextUserID + 1 })

/-- `db.Create(&dataBlock)`; a zero `RefCount` becomes the column default 1. -/
def createDataBlock (db : DB) (b : DataBlock) : DataBlock × DB :=
  let b1 := { b with ID := db.nextDataBlockID,
                     RefCount := if b.RefCount = 0 then 1 else b.RefCount }
  (b1, { db with dataBlocks := db.dataBlocks ++ [b1], nextDataBlockID := db.nextDataBlockID + 1 })

/-- `db.Create(&trieNode)`. -/
def createTrieNode (db : DB) (n : TrieNode) : TrieNode × DB :=
  let n1 := { n with ID := db.nextTrieNodeID }
  (n1, { db with trieNodes := db.trieNodes ++ [n1], nextTrieNodeID := db.nextTrieNodeID + 1 })

/-- `db.Create(&fileNode)`; a zero `RefCount` becomes the column default 1. -/
def createFileNode (db : DB) (f : FileNode) : FileNode × DB :=
  let f1 := { f with ID := db.nextFileNodeID,
                     RefCount := if f.RefCount = 0 then 1 else f.RefCount }
  (f1, { db with fileNodes := db.fileNodes ++ [f1], nextFileNodeID := db.nextFileNodeID + 1 })

/-- `db.Create(&dirNode)`. -/
def createDirNode (db : DB) (d : DirNode) : DirNode × DB :=
  let d1 := { d with ID := db.nextDirNodeID }
  (d1, { db with dirNodes := db.dirNodes ++ [d1], nextDirNodeID := db.nextDirNodeID + 1 })

/-- `db.Create(&symLinkNode)`. -/
def createSymLinkNode (db : DB) (s : SymLinkNode) : SymLinkNode × DB :=
  let s1 := { s with ID := db.nextSymLinkNodeID }
  (s1, { db with symLinkNodes := db.symLinkNodes ++ [s1],
                 nextSymLinkNodeID := db.nextSymLinkNodeID + 1 })

/-- `db.Save(&user)`. -/
def saveUser (db : DB) (u : User) : DB :=
  if u.ID = 0 then (db.createUser u).2
  else { db with users := db.users.map (fun x => if x.ID = u.ID then u else x) }

/-- `db.Save(&dataBlock)`. -/
def saveDataBlock (db : DB) (b : DataBlock) : DB :=
  if b.ID = 0 then (db.createDataBlock b).2
  else { db with dataBlocks := db.dataBlocks.map (fun x => if x.ID = b.ID then b else x) }

/-- `db.Save(&trieNode)`. -/
def saveTrieNode (db : DB) (n : TrieNode) : DB :=
  if n.ID = 0 then (db.createTrieNode n).2
  else { db with trieNodes := db.trieNodes.map (fun x => if x.ID = n.ID then n else x) }

/-- `db.Save(&fileNode)`. -/
def saveFileNode (db : DB) (f : FileNode) : DB :=
  if f.ID = 0 then (db.createFileNode f).2
  else { db with fileNodes := db.fileNodes.map (fun x => if x.ID = f.ID then f else x) }

/-- `db.Delete(&dataBlock)`; without a primary key gorm refuses to delete, and the
store refuses to delete a block that a row of `file_nodes` references (foreign key
on `data_block_id`).  The services ignore the error. -/
def deleteDataBlock (db : DB) (b : DataBlock) : DB :=
  if b.ID = 0 then db
  else if db.fileNodes.any (fun f => f.DataBlockID = b.ID) then db
  else { db with dataBlocks := db.dataBlocks.filter (fun x => x.ID ≠ b.ID) }

/-- `db.Delete(&fileNode)`. -/
def deleteFileNode (db : DB) (f : FileNode) : DB :=
  if f.ID = 0 then db
  else { db with fileNodes := db.fileNodes.filter (fun x => x.ID ≠ f.ID) }

/-- `db.Delete(trieNode)`. -/
def deleteTrieNode (db : DB) (n : TrieNode) : DB :=
  if n.ID = 0 then db
  else { db with trieNodes := db.trieNodes.filter (fun x => x.ID ≠ n.ID) }

end DB

/-! ## Go string and path helpers -/

/-- `strings.Split(s, "/")` on the character list. -/
def splitSlash : List Char → List (List Char)
  | [] => [[]]
  | c :: cs =>
    if c = '/' then [] :: splitSlash cs
    else
      match splitSlash cs with
      | [] => [[c]]
      | seg :: rest => (c :: seg) :: rest

/-- `strings.Split(s, "/")`. -/
def stringsSplit (s : String) : List String :=
  (splitSlash s.data).map String.mk

/-- `strings.Join(elems, "/")` on character lists. -/
def joinSlash : List (List Char) → List Char
  | [] => []
  | [seg] => seg
  | seg :: rest => seg ++ '/' :: joinSlash rest

/-- `strings.TrimPrefix(s, "/")`. -/
def trimPrefixSlash (s : String) : String :=
  match s.data with
  | [] => s
  | c :: cs => if c = '/' then String.mk cs else s

/-- The element loop of Go's `path/filepath.Clean` (Unix): `acc` is the stack of
kept elements, innermost first. -/
def cleanSegs (rooted : Bool) : List (List Char) → List (List Char) → List (List Char)
  | acc, [] => acc.reverse
  | acc, seg :: rest =>
    if seg = [] ∨ seg = ['.'] then cleanSegs rooted acc rest
    else if seg = ['.', '.'] then
      match acc with
      | top :: acc1 =>
        if top = ['.', '.'] then cleanSegs rooted (seg :: acc) rest
        else cleanSegs rooted acc1 rest
      | [] => if rooted then cleanSegs rooted [] rest else cleanSegs rooted [seg] rest
    else cleanSegs rooted (seg :: acc) rest

/-- Go's `filepath.Clean` on Unix. -/
def filepathClean (p : String) : String :=
  if p = "" then "."
  else
    let rooted : Bool := p.data.head? = some '/'
    let body := joinSlash (cleanSegs rooted [] (splitSlash p.data))
    if rooted then String.mk ('/' :: body)
    else if body = [] then "." else String.mk body

/-- Go's `filepath.Join(a, b)` on Unix: empty leading elements are skipped and
the joined path is cleaned. -/
def filepathJoin (a b : String) : String :=
  if a = "" then (if b = "" then "" else filepathClean b)
  else filepathClean (a ++ "/" ++ b)

/-! ## The services (`services.go`) -/

/-- The Go standard-library functions the services call on the payload. -/
structure Env where
  /-- `calculateHash`: hex SHA-256 of the payload. -/
  calculateHash : List Nat → String
  /-- `http.DetectContentType`. -/
  detectContentType : List Nat → String

/-- What `ProcessFileUpload` reads from the `*multipart.FileHeader`. -/
structure FileHeader where
  Filename : String
  Data : List Nat
  ContentType : String
  deriving DecidableEq, Repr

/-- The Go struct `FileSystem`. -/
structure FileSystem where
  DB : DB
  Root : TrieNode
  deriving DecidableEq, Repr

/-- `NewFileSystem`: load the user's root node, creating it (and its `DirNode`)
on first use. -/
def NewFileSystem (db : DB) (userID : Nat) : FileSystem :=
  match db.trieNodes.find? (fun n => n.Name = "root" ∧ n.OwnerID = userID ∧ n.Path = "/") with
  | some root => { DB := db, Root := root }
  | none =>
    let (root, db1) := db.createTrieNode
      { ID := 0, Name := "root", Path := "/", ParentID := none, OwnerID := userID,
        NodeType := "directory", IsPublic := false }
    let (_, db2) := db1.createDirNode { ID := 0, TrieNodeID := root.ID }
    { DB := db2, Root := root }

/-- `SplitPath`; `none` is Go's `nil` (invalid path). -/
def SplitPath (filePath : String) : Option (List String) :=
  if filePath = "/" then some []
  else
    let path := trimPrefixSlash filePath
    if path = "" then some []
    else
      let parts := stringsSplit path
      if parts.any (fun part => part = "." ∨ part = ".." ∨ part = " " ∨ part = "") then none
      else some parts

/-- The `for i, part := range pathParts` loop of `Insert`; the arguments after
the remaining parts are the loop variables `fs.DB`, `currentNode`, `currentPath`. -/
def insertLoop (isFile : Bool) (userID : Nat) :
    List String → DB → TrieNode → String → Except Error TrieNode × DB
  | [], db, currentNode, _ => (.ok currentNode, db)
  | part :: rest, db, currentNode, currentPath0 =>
    let currentPath := filepathJoin currentPath0 part
    let isLastPart : Bool := rest.isEmpty
    match db.trieNodes.find? (fun n =>
        n.Name = part ∧ n.ParentID = some currentNode.ID ∧ n.OwnerID = userID) with
    | some existingNode =>
      if isLastPart ∧ isFile ∧ existingNode.NodeType = "file" then
        (.error .fileAlreadyExists, db)
      else if ¬ isLastPart ∧ existingNode.NodeType = "file" then
        (.error .fileInsideFile, db)
      else insertLoop isFile userID rest db existingNode currentPath
    | none =>
      let nodeType : String := if isLastPart ∧ isFile then "file" else "directory"
      let (newNode, db1) := db.createTrieNode
        { ID := 0, Name := part, Path := "/" ++ trimPrefixSlash currentPath,
          ParentID := some currentNode.ID, OwnerID := userID, NodeType := nodeType,
          IsPublic := false }
      let db2 := if nodeType = "file" then db1
                 else (db1.createDirNode { ID := 0, TrieNodeID := newNode.ID }).2
      insertLoop isFile userID rest db2 newNode currentPath

/-- `Insert`. -/
def Insert (fs : FileSystem) (filePath : String) (isFile : Bool) (userID : Nat) :
    Except Error TrieNode × FileSystem :=
  match SplitPath filePath with
  | none => (.error .invalidPathReserved, fs)
  | some pathParts =>
    let r := insertLoop isFile userID pathParts fs.DB fs.Root ""
    (r.1, { fs with DB := r.2 })

/-- `Search`. -/
def Search (fs : FileSystem) (filePath : String) (userID : Nat) : Except Error TrieNode :=
  if filePath = "/" then .ok fs.Root
  else
    match SplitPath filePath with
    | none => .error .invalidPath
    | some _ =>
      match fs.DB.trieNodes.find? (fun n => n.Path = filePath ∧ n.OwnerID = userID) with
      | some node => .ok node
      | none => .error .recordNotFound

/-- The `int64` result of an integer operation whose exact result is `x`. -/
def wrapInt64 (x : Int) : Int := (x + 2 ^ 63) % 2 ^ 64 - 2 ^ 63

/-- `ProcessFileUpload`. -/
def ProcessFileUpload (env : Env) (fs : FileSystem) (userID : Nat) (fileHeader : FileHeader)
    (dirPath : String) : Except Error FileNode × FileSystem :=
  let data := fileHeader.Data
  match fs.DB.users.find? (fun u => u.ID = userID) with
  | none => (.error .recordNotFound, fs)
  | some user =>
    if wrapInt64 (user.QuotaUsed + (data.length : Int)) > user.QuotaMax then
      (.error .quotaExceeded, fs)
    else
      let actualMime := env.detectContentType data
      let hash := env.calculateHash data
      let fullPath := filepathJoin dirPath fileHeader.Filename
      match Insert fs fullPath true userID with
      | (.error e, fs1) => (.error e, fs1)
      | (.ok trieNode, fs1) =>
        let (existingBlock, isDeduped, user1, db2) :=
          match fs1.DB.dataBlocks.find? (fun b => b.Hash = hash) with
          | some found =>
            let blk := { found with RefCount := found.RefCount + 1 }
            (blk, true, { user with StorageSaved := user.StorageSaved + (data.length : Int) },
              fs1.DB.saveDataBlock blk)
          | none =>
            let (blk, db1) := fs1.DB.createDataBlock
              { ID := 0, Hash := hash, Data := data, Size := (data.length : Int), RefCount := 1 }
            (blk, false, { user with QuotaUsed := user.QuotaUsed + (data.length : Int) }, db1)
        let db3 := db2.saveUser user1
        let (fileNode, db4) := db3.createFileNode
          { ID := 0, TrieNodeID := trieNode.ID, OriginalName := fileHeader.Filename,
            Hash := hash, Size := (data.length : Int), MimeType := fileHeader.ContentType,
            ActualMimeType := actualMime, DataBlockID := existingBlock.ID, RefCount := 1,
            Downloads := 0, Tags := "", IsDeduped := isDeduped }
        (.ok fileNode, { fs1 with DB := db4 })

/-- `DeleteFile`. -/
def DeleteFile (fs : FileSystem) (filePath : String) (userID : Nat) :
    Except Error Unit × FileSystem :=
  match Search fs filePath userID with
  | .error e => (.error e, fs)
  | .ok trieNode =>
    if trieNode.NodeType ≠ "file" then (.error .invalidFilePath, fs)
    else
      match fs.DB.fileNodes.find? (fun f => f.TrieNodeID = trieNode.ID) with
      | none => (.error .recordNotFound, fs)
      | some loaded =>
        -- Preload("DataBlock")
        let dataBlock :=
          (fs.DB.dataBlocks.find? (fun b => b.ID = loaded.DataBlockID)).getD DataBlock.zero
        let fileNode := { loaded with RefCount := loaded.RefCount - 1 }
        if fileNode.RefCount ≤ 0 then
          let dataBlock1 := { dataBlock with RefCount := dataBlock.RefCount - 1 }
          let db1 := if dataBlock1.RefCount ≤ 0 then fs.DB.deleteDataBlock dataBlock1
                     else fs.DB.saveDataBlock dataBlock1
          let db2 := db1.deleteFileNode fileNode
          let db3 := db2.deleteTrieNode trieNode
          let db4 :=
            if ¬ fileNode.IsDeduped then
              let user := (db3.users.find? (fun u => u.ID = userID)).getD User.zero
              db3.saveUser { user with QuotaUsed := user.QuotaUsed - fileNode.Size }
            else db3
          (.ok (), { fs with DB := db4 })
        else
          (.ok (), { fs with DB := fs.DB.saveFileNode fileNode })

/-- `CreateHardLink`. -/
def CreateHardLink (fs : FileSystem) (srcFilePath dstFilePath : String) (userID : Nat) :
    Except Error Unit × FileSystem :=
  match Search fs srcFilePath userID with
  | .error _ => (.error .sourceNotFound, fs)
  | .ok srcNode =>
    if srcNode.NodeType ≠ "file" then (.error .sourceNotAFile, fs)
    else
      match fs.DB.fileNodes.find? (fun f => f.TrieNodeID = srcNode.ID) with
      | none => (.error .recordNotFound, fs)
      | some loaded =>
        match Insert fs dstFilePath true userID with
        | (.error e, fs1) => (.error e, fs1)
        | (.ok dstNode, fs1) =>
          let srcFileNode := { loaded with RefCount := loaded.RefCount + 1 }
          let db1 := fs1.DB.saveFileNode srcFileNode
          let found :=
            (db1.dataBlocks.find? (fun b => b.ID = srcFileNode.DataBlockID)).getD DataBlock.zero
          let dataBlock := { found with RefCount := found.RefCount + 1 }
          let db2 := db1.saveDataBlock dataBlock
          let (_, db3) := db2.createFileNode
            { ID := 0, TrieNodeID := dstNode.ID, OriginalName := srcFileNode.OriginalName,
              Hash := srcFileNode.Hash, Size := srcFileNode.Size,
              MimeType := srcFileNode.MimeType, ActualMimeType := srcFileNode.ActualMimeType,
              DataBlockID := srcFileNode.DataBlockID, RefCount := 1, Downloads := 0,
              Tags := "", IsDeduped := true }
          (.ok (), { fs1 with DB := db3 })

/-- `CreateSoftLink`.  `Insert` hands back the pointer `fs.Root` itself for a
path without segments, so the kind written through `dstNode` shows in `fs.Root` too. -/
def CreateSoftLink (fs : FileSystem) (srcFilePath dstFilePath : String) (userID : Nat) :
    Except Error Unit × FileSystem :=
  match Insert fs dstFilePath false userID with
  | (.error e, fs1) => (.error e, fs1)
  | (.ok dstNode0, fs1) =>
    let dstNode := { dstNode0 with NodeType := "symlink" }
    let db1 := fs1.DB.saveTrieNode dstNode
    let (_, db2) := db1.createSymLinkNode
      { ID := 0, TrieNodeID := dstNode.ID, TargetPath := srcFilePath }
    (.ok (), { DB := db2,
               Root := if SplitPath dstFilePath = some [] then dstNode else fs1.Root })

/-! ## Requests, reachable states and the properties checked -/

/-- One request against the core, as the HTTP handlers issue them. -/
inductive Op where
  /-- `UploadFile`: `ProcessFileUpload` of one file into `dirPath`. -/
  | upload (fileHeader : FileHeader) (dirPath : String)
  /-- `CreateHardLink`. -/
  | hardLink (srcFilePath dstFilePath : String)
  /-- `CreateSoftLink`. -/
  | softLink (srcFilePath dstFilePath : String)
  /-- `DeleteFile`. -/
  | delete (filePath : String)
  /-- `CreateDirectory`: `Insert(path, false, userID)`. -/
  | mkdir (path : String)
  /-- A bare `Insert(path, isFile, userID)`. -/
  | insert (path : String) (isFile : Bool)
  deriving DecidableEq, Repr

/-- A handler run: `NewFileSystem(app.DB, userID)` followed by the operation,
called with that same `userID`.  The result is the database afterwards. -/
def Op.run (env : Env) (db : DB) (userID : Nat) : Op → DB
  | .upload fileHeader dirPath =>
    (ProcessFileUpload env (NewFileSystem db userID) userID fileHeader dirPath).2.DB
  | .hardLink src dst => (CreateHardLink (NewFileSystem db userID) src dst userID).2.DB
  | .softLink src dst => (CreateSoftLink (NewFileSystem db userID) src dst userID).2.DB
  | .delete filePath => (DeleteFile (NewFileSystem db userID) filePath userID).2.DB
  | .mkdir path => (Insert (NewFileSystem db userID) path false userID).2.DB
  | .insert path isFile => (Insert (NewFileSystem db userID) path isFile userID).2.DB

/-- The three operations of the binding layer: upload, hard link, delete. -/
def Op.isBinding : Op → Prop
  | .upload _ _ => True
  | .hardLink _ _ => True
  | .delete _ => True
  | _ => False

/-- Every request kind. -/
def Op.any : Op → Prop := fun _ => True

/-- States reachable from `init` by a sequence of requests of the allowed kinds,
each issued by some user. -/
inductive Reachable (env : Env) (allowed : Op → Prop) (init : DB) : DB → Prop where
  | start : Reachable env allowed init init
  | step {db : DB} (userID : Nat) (op : Op) :
      Reachable env allowed init db → allowed op → Reachable env allowed init (op.run env db userID)

/-- Primary keys of a table: pairwise distinct, positive, below the sequence. -/
def IdsOK {α : Type} (key : α → Nat) (rows : List α) (next : Nat) : Prop :=
  (rows.map key).Nodup ∧ 1 ≤ next ∧ ∀ r ∈ rows, 1 ≤ key r ∧ key r < next

/-- The primary-key discipline of the record store. -/
structure SeqInv (db : DB) : Prop where
  users : IdsOK User.ID db.users db.nextUserID
  blocks : IdsOK DataBlock.ID db.dataBlocks db.nextDataBlockID
  nodes : IdsOK TrieNode.ID db.trieNodes db.nextTrieNodeID
  files : IdsOK FileNode.ID db.fileNodes db.nextFileNodeID

/-- An empty store: accounts exist, nothing has been stored yet. -/
structure EmptyStore (db : DB) : Prop where
  users : IdsOK User.ID db.users db.nextUserID
  dataBlocks : db.dataBlocks = []
  trieNodes : db.trieNodes = []
  fileNodes : db.fileNodes = []
  dirNodes : db.dirNodes = []
  symLinkNodes : db.symLinkNodes = []
  nextDataBlockID : 1 ≤ db.nextDataBlockID
  nextTrieNodeID : 1 ≤ db.nextTrieNodeID
  nextFileNodeID : 1 ≤ db.nextFileNodeID

/-- The path of the child `name` of a node whose path is `parent`. -/
def childPath (parent name : String) : String :=
  if parent = "/" then "/" ++ name else parent ++ "/" ++ name

/-- Shape of the namespace table. -/
structure TrieInv (db : DB) : Prop where
  root : ∀ n ∈ db.trieNodes, n.ParentID = none →
    n.Name = "root" ∧ n.Path = "/" ∧ n.NodeType ≠ "file"
  child : ∀ m ∈ db.trieNodes, ∀ pid, m.ParentID = some pid →
    '/' ∉ m.Name.data ∧ m.Name ≠ "" ∧
    ∃ q ∈ db.trieNodes, q.ID = pid ∧ q.OwnerID = m.OwnerID ∧ q.NodeType ≠ "file" ∧
      m.Path = childPath q.Path m.Name
  nonempty : ∀ n ∈ db.trieNodes, n.Path ≠ ""
  unique : ∀ a ∈ db.trieNodes, ∀ b ∈ db.trieNodes,
    a.OwnerID = b.OwnerID → a.Path = b.Path → a = b

/-- Number of live bindings whose `DataBlockID` is `blockID`. -/
def refsByID (db : DB) (blockID : Nat) : Nat :=
  db.fileNodes.countP (fun f => f.DataBlockID = blockID)

/-- Number of live bindings whose `Hash` is `hash`. -/
def refsByHash (db : DB) (hash : String) : Nat :=
  db.fileNodes.countP (fun f => f.Hash = hash)

/-- Number of bindings attached to the namespace node `nodeID`. -/
def bindingsAt (db : DB) (nodeID : Nat) : Nat :=
  db.fileNodes.countP (fun f => f.TrieNodeID = nodeID)

/-- The owner of a binding: the owner of the namespace node it is attached to. -/
def ownerOf (db : DB) (f : FileNode) : Option Nat :=
  (db.trieNodes.find? (fun t => t.ID = f.TrieNodeID)).map (fun t => t.OwnerID)

/-- Sum of `Size` over the live bindings of `userID` whose `IsDeduped` is false. -/
def charged (db : DB) (userID : Nat) : Int :=
  ((db.fileNodes.filter (fun f => !f.IsDeduped && ownerOf db f == some userID)).map
    (fun f => f.Size)).sum

/-- Consistency of blocks and bindings. -/
structure BindInv (db : DB) : Prop where
  block : ∀ f ∈ db.fileNodes, ∃ b ∈ db.dataBlocks, b.ID = f.DataBlockID ∧ b.Hash = f.Hash
  refs : ∀ b ∈ db.dataBlocks, (refsByID db b.ID : Int) ≤ b.RefCount
  hash : ∀ a ∈ db.dataBlocks, ∀ b ∈ db.dataBlocks, a.Hash = b.Hash → a = b
  node : ∀ f ∈ db.fileNodes, ∃ t ∈ db.trieNodes, t.ID = f.TrieNodeID ∧
    ∃ u ∈ db.users, u.ID = t.OwnerID
  single : ∀ t ∈ db.trieNodes, t.NodeType = "file" → bindingsAt db t.ID ≤ 1

/-- The invariant of reachable states. -/
structure Inv (db : DB) : Prop where
  seq : SeqInv db
  trie : TrieInv db
  bind : BindInv db

/-- Every account's `QuotaUsed` is the sum of its charged bindings. -/
def QuotaInv (db : DB) : Prop :=
  ∀ u ∈ db.users, u.QuotaUsed = charged db u.ID

/-- The node sequence is ahead of every key and parent reference in the table,
and of the root the file system holds. -/
def FreshNodeKeys (fs : FileSystem) : Prop :=
  fs.Root.ID < fs.DB.nextTrieNodeID ∧
  ∀ n ∈ fs.DB.trieNodes, n.ID < fs.DB.nextTrieNodeID ∧
    ∀ pid, n.ParentID = some pid → pid < fs.DB.nextTrieNodeID

/-- A path segment that `SplitPath` accepts. -/
def ValidSeg (s : List Char) : Prop :=
  s ≠ [] ∧ '/' ∉ s ∧ s ≠ ['.'] ∧ s ≠ ['.', '.'] ∧ s ≠ [' ']

/-- The stored path `p` and the loop variable `currentPath` spell the same
list of accepted segments. -/
def PathRel (p cp : String) : Prop :=
  ∃ segs : List (List Char), (∀ s ∈ segs, ValidSeg s) ∧
    cp.data = joinSlash segs ∧ p.data = '/' :: joinSlash segs

/-- The row `Insert` creates for `part` below `currentNode`. -/
def newTrieNode (db : DB) (currentNode : TrieNode) (currentPath part : String) (userID : Nat)
    (asFile : Bool) : TrieNode :=
  { ID := db.nextTrieNodeID, Name := part, Path := "/" ++ trimPrefixSlash currentPath,
    ParentID := some currentNode.ID, OwnerID := userID,
    NodeType := if asFile then "file" else "directory", IsPublic := false }

/-- The database after `Create(newNode)` and, for a directory, `Create(dirNode)`. -/
def DB.withNode (db : DB) (n : TrieNode) : DB :=
  if n.NodeType = "file" then
    { db with trieNodes := db.trieNodes ++ [n], nextTrieNodeID := db.nextTrieNodeID + 1 }
  else
    { db with trieNodes := db.trieNodes ++ [n], nextTrieNodeID := db.nextTrieNodeID + 1,
              dirNodes := db.dirNodes ++ [{ ID := db.nextDirNodeID, TrieNodeID := n.ID }],
              nextDirNodeID := db.nextDirNodeID + 1 }

/-- The root row `NewFileSystem` creates for `userID`. -/
def newRoot (db : DB) (userID : Nat) : TrieNode :=
  { ID := db.nextTrieNodeID, Name := "root", Path := "/", ParentID := none, OwnerID := userID,
    NodeType := "directory", IsPublic := false }

/-- Keys and shape of the namespace table. -/
def NodesOK (db : DB) : Prop :=
  IdsOK TrieNode.ID db.trieNodes db.nextTrieNodeID ∧ TrieInv db

/-- From `db` to `db1` only namespace rows were added, all with fresh keys and
owned by `userID`. -/
structure NodeExt (userID : Nat) (db db1 : DB) : Prop where
  users : db1.users = db.users
  nextUserID : db1.nextUserID = db.nextUserID
  dataBlocks : db1.dataBlocks = db.dataBlocks
  nextDataBlockID : db1.nextDataBlockID = db.nextDataBlockID
  fileNodes : db1.fileNodes = db.fileNodes
  nextFileNodeID : db1.nextFileNodeID = db.nextFileNodeID
  added : ∃ added, db1.trieNodes = db.trieNodes ++ added ∧
    ∀ x ∈ added, db.nextTrieNodeID ≤ x.ID ∧ x.OwnerID = userID

/-- The root a `FileSystem` value holds is the stored root row of `userID`. -/
structure RootOK (fs : FileSystem) (userID : Nat) : Prop where
  mem : fs.Root ∈ fs.DB.trieNodes
  owner : fs.Root.OwnerID = userID
  path : fs.Root.Path = "/"
  kind : fs.Root.NodeType ≠ "file"

/-! ## Concrete scenario (spec section 8) -/

/-- A stand-in for the digest: the payload bytes read as characters. -/
def demoEnv : Env :=
  { calculateHash := fun data => String.mk (data.map Char.ofNat),
    detectContentType := fun _ => "application/octet-stream" }

/-- Owner U (id 1, quota 1000) and a second owner (id 2) on an empty store. -/
def demoEmpty : DB :=
  { users := [{ ID := 1, QuotaUsed := 0, QuotaMax := 1000, StorageSaved := 0 },
              { ID := 2, QuotaUsed := 0, QuotaMax := 50, StorageSaved := 0 }],
    dataBlocks := [], trieNodes := [], fileNodes := [], dirNodes := [], symLinkNodes := [],
    nextUserID := 3, nextDataBlockID := 1, nextTrieNodeID := 1, nextFileNodeID := 1,
    nextDirNodeID := 1, nextSymLinkNodeID := 1 }

/-- The 100-byte payload of the scenarios. -/
def demoPayload : List Nat := List.replicate 100 97

/-- The uploaded file `report.pdf`. -/
def demoFile : FileHeader :=
  { Filename := "report.pdf", Data := demoPayload, ContentType := "application/pdf" }

/-- Scenario A, first half: `/docs/report.pdf` uploaded by owner 1. -/
def demoA1 : DB := (Op.upload demoFile "/docs").run demoEnv demoEmpty 1

/-- Scenario A: the same bytes uploaded again as `/backup/report.pdf`. -/
def demoA : DB := (Op.upload demoFile "/backup").run demoEnv demoA1 1

/-- Scenario B: `/docs/report.pdf` hard-linked to `/shared/report.pdf`. -/
def demoB : DB := (Op.hardLink "/docs/report.pdf" "/shared/report.pdf").run demoEnv demoA 1

/-- Scenario C: one `DeleteFile("/docs/report.pdf")`. -/
def demoC : DB := (Op.delete "/docs/report.pdf").run demoEnv demoB 1

/-- Scenario C continued: a second `DeleteFile("/docs/report.pdf")`. -/
def demoC2 : DB := (Op.delete "/docs/report.pdf").run demoEnv demoC 1

/-- Whether `Search` resolves the path for the owner (through a fresh `FileSystem`). -/
def resolves (db : DB) (filePath : String) (userID : Nat) : Bool :=
  match Search (NewFileSystem db userID) filePath userID with
  | .ok _ => true
  | .error _ => false

/-- The `DataBlockID` of the binding attached to the node the path resolves to. -/
def blockOfPath (db : DB) (filePath : String) (userID : Nat) : Option Nat :=
  match Search (NewFileSystem db userID) filePath userID with
  | .ok n => (db.fileNodes.find? (fun f => f.TrieNodeID = n.ID)).map (fun f => f.DataBlockID)
  | .error _ => none

/-- The binding the first upload of Scenario A creates. -/
def demoFn1 : FileNode :=
  { ID := 1, TrieNodeID := 3, OriginalName := "report.pdf",
    Hash := demoEnv.calculateHash demoPayload, Size := 100, MimeType := "application/pdf",
    ActualMimeType := "application/octet-stream", DataBlockID := 1, RefCount := 1,
    Downloads := 0, Tags := "", IsDeduped := false }

/-- The namespace node of `/docs/report.pdf` in the scenarios. -/
def demoDocsNode : TrieNode :=
  { ID := 3, Name := "report.pdf", Path := "/docs/report.pdf", ParentID := some 2,
    OwnerID := 1, NodeType := "file", IsPublic := false }

/-- Upload of `/docs/report.pdf`, hard link to `/shared/report.pdf`, then deletion
of the link: the original is again the only binding on its block. -/
def demoL : DB :=
  (Op.delete "/shared/report.pdf").run demoEnv
    ((Op.hardLink "/docs/report.pdf" "/shared/report.pdf").run demoEnv demoA1 1) 1

/-- The directory `Insert("/docs/new", false)` creates after Scenario A. -/
def demoNewDir : TrieNode :=
  { ID := 6, Name := "new", Path := "/docs/new", ParentID := some 2, OwnerID := 1,
    NodeType := "directory", IsPublic := false }


/-! ## Resolution by lookups (claims C12, C13) -/

/-- The walk of parent → named-child lookups along `parts` starting at `cur`, by
the query `Insert` issues for each segment: the node the last segment resolves
to, when every segment resolves. -/
def resolveSegs (db : DB) (userID : Nat) : TrieNode → List String → Option TrieNode
  | cur, [] => some cur
  | cur, part :: rest =>
    match db.trieNodes.find? (fun n =>
        n.Name = part ∧ n.ParentID = some cur.ID ∧ n.OwnerID = userID) with
    | some ex => resolveSegs db userID ex rest
    | none => none

/-- Rejection cases (b) and (c) of the specification of `Insert`, for the segments
`parts` below `cur`: a non-terminal segment resolves to a file node, or a file is
asked for and the terminal segment resolves to a file node. -/
def SegsReject (db : DB) (userID : Nat) (cur : TrieNode) (asFile : Bool)
    (parts : List String) : Prop :=
  (∃ pre suf n, parts = pre ++ suf ∧ pre ≠ [] ∧ suf ≠ [] ∧
    resolveSegs db userID cur pre = some n ∧ n.NodeType = "file") ∨
  (asFile = true ∧ parts ≠ [] ∧
    ∃ n, resolveSegs db userID cur parts = some n ∧ n.NodeType = "file")

/-- The rejection cases (a), (b), (c) of the specification of `Insert`. -/
def InsertRejects (fs : FileSystem) (filePath : String) (asFile : Bool) (userID : Nat) : Prop :=
  match SplitPath filePath with
  | none => True
  | some parts => SegsReject fs.DB userID fs.Root asFile parts

/-! ## Stored blocks and their payload (claim C17) -/

/-- The map `GetDeduplicationStats` returns, one field per key. -/
structure DedupStats where
  total_files : Int
  unique_blocks : Int
  logical_size : Int
  physical_size : Int
  space_saved : Int
  deduplication_ratio : ℚ
  efficiency : String

/-- Rounding to the nearest integer, ties to the even one. -/
def roundHalfEven (q : ℚ) : Int :=
  if q - ⌊q⌋ < 1 / 2 then ⌊q⌋
  else if 1 / 2 < q - ⌊q⌋ then ⌊q⌋ + 1
  else if ⌊q⌋ % 2 = 0 then ⌊q⌋ else ⌊q⌋ + 1

/-- The binary64 value nearest to `q`, ties to even: 53 significant bits, the last
of weight `2 ^ (⌊log₂ |q|⌋ - 52)`.  This is the rounding of a conversion to
`float64` and of every `float64` operation. -/
def float64 (q : ℚ) : ℚ :=
  if q = 0 then 0
  else (roundHalfEven (q / 2 ^ (Int.log 2 |q| - 52)) : ℚ) * 2 ^ (Int.log 2 |q| - 52)

/-- `GetDeduplicationStats`; `sprintf` stands for `fmt.Sprintf("%.2f%%", ·)`. -/
def GetDeduplicationStats (sprintf : ℚ → String) (fs : FileSystem) : DedupStats :=
  let totalFiles : Int := fs.DB.fileNodes.length
  let totalBlocks : Int := fs.DB.dataBlocks.length
  let totalLogicalSize : Int := (fs.DB.fileNodes.map (fun f => f.Size)).sum
  let totalPhysicalSize : Int := (fs.DB.dataBlocks.map (fun b => b.Size)).sum
  let totalSaved : Int := (fs.DB.users.map (fun u => u.StorageSaved)).sum
  let dedupRatio : ℚ :=
    if totalLogicalSize > 0 then
      float64 (float64 (float64 (totalSaved : ℚ) / float64 (totalLogicalSize : ℚ)) * 100)
    else float64 0
  { total_files := totalFiles, unique_blocks := totalBlocks, logical_size := totalLogicalSize,
    physical_size := totalPhysicalSize, space_saved := totalSaved,
    deduplication_ratio := dedupRatio, efficiency := sprintf dedupRatio }

/-! ## Names of namespace nodes (claim C19) -/

/-- Every node below a parent has a name `SplitPath` accepts. -/
def NamesOK (db : DB) : Prop :=
  ∀ m ∈ db.trieNodes, ∀ pid, m.ParentID = some pid → ValidSeg m.Name.data

/-- A store that holds accounts and root nodes only: every node is a root as
`NewFileSystem` creates it (name "root", path "/", no parent), one per owner. -/
structure RootsOnly (db : DB) : Prop where
  users : IdsOK User.ID db.users db.nextUserID
  nodes : IdsOK TrieNode.ID db.trieNodes db.nextTrieNodeID
  roots : ∀ n ∈ db.trieNodes,
    n.ParentID = none ∧ n.Path = "/" ∧ n.Name = "root" ∧ n.NodeType = "directory"
  unique : ∀ a ∈ db.trieNodes, ∀ b ∈ db.trieNodes, a.OwnerID = b.OwnerID → a = b
  dataBlocks : db.dataBlocks = []
  fileNodes : db.fileNodes = []
  nextDataBlockID : 1 ≤ db.nextDataBlockID
  nextFileNodeID : 1 ≤ db.nextFileNodeID

/-! ## Further scenarios (claims C14 to C20) -/

/-- The requests of claim C20: every kind except a bare `Insert` that asks for a file. -/
def Op.noBareFile : Op → Prop
  | .insert _ true => False
  | _ => True

/-- The store after owner 1 opened a file system: one root node. -/
def demoRoots : DB := (NewFileSystem demoEmpty 1).DB

/-- The directory `/docs` created by owner 1 on the empty store. -/
def demoDir : DB := (Op.mkdir "/docs").run demoEnv demoEmpty 1

/-- A file whose name is `docs`. -/
def demoDocsFile : FileHeader :=
  { Filename := "docs", Data := demoPayload, ContentType := "application/pdf" }

/-- The file `docs` uploaded into `/` while `/docs` is a directory. -/
def demoOnDir : DB := (Op.upload demoDocsFile "/").run demoEnv demoDir 1

/-- A soft link created at the path of the stored file `/docs/report.pdf`. -/
def demoSoftFile : DB := (Op.softLink "/target" "/docs/report.pdf").run demoEnv demoA1 1

/-- A soft link created at the path of the directory `/docs`. -/
def demoSoftDir : DB := (Op.softLink "/target" "/docs").run demoEnv demoA1 1

/-- A soft link created at `/`. -/
def demoSoftRoot : DB := (Op.softLink "/target" "/").run demoEnv demoA1 1

/-- Scenario A, first half, followed by `DeleteFile("/docs/report.pdf")`. -/
def demoDel : DB := (Op.delete "/docs/report.pdf").run demoEnv demoA1 1

/-- The same bytes uploaded again as `/docs/report.pdf` after the deletion. -/
def demoReup : DB := (Op.upload demoFile "/docs").run demoEnv demoDel 1

/-- An account whose `QuotaUsed` is the largest `int64`, 2^63 - 1, with quota 1000. -/
def demoFull : DB :=
  { demoEmpty with
    users := [{ ID := 1, QuotaUsed := 9223372036854775807, QuotaMax := 1000,
                StorageSaved := 0 }] }

theorem splitSlash_ne_nil (l : List Char) : splitSlash l ≠ [] := by
  cases l with
  | nil => simp [splitSlash]
  | cons c cs =>
    unfold splitSlash
    split_ifs
    · simp
    · split <;> simp

theorem splitSlash_no_slash : ∀ (l : List Char), ∀ s ∈ splitSlash l, '/' ∉ s := by
  intro l
  induction l with
  | nil => intro s hs; simp [splitSlash] at hs; simp [hs]
  | cons c cs ih =>
    intro s hs
    unfold splitSlash at hs
    split_ifs at hs with hc
    · rcases List.mem_cons.1 hs with h | h
      · simp [h]
      · exact ih s h
    · split at hs
      · simp at hs; subst hs; simpa using fun h => hc h.symm
      · rename_i seg rest heq
        rcases List.mem_cons.1 hs with h | h
        · subst h
          have := ih seg (by rw [heq]; simp)
          simp only [List.mem_cons, not_or]
          exact ⟨fun h => hc h.symm, this⟩
        · exact ih s (by rw [heq]; simp [h])

theorem splitSlash_single (seg : List Char) (h : '/' ∉ seg) : splitSlash seg = [seg] := by
  induction seg with
  | nil => simp [splitSlash]
  | cons c cs ih =>
    simp only [List.mem_cons, not_or] at h
    unfold splitSlash
    rw [if_neg (fun hc => h.1 hc.symm), ih h.2]

theorem splitSlash_append_slash (seg t : List Char) (h : '/' ∉ seg) :
    splitSlash (seg ++ '/' :: t) = seg :: splitSlash t := by
  induction seg with
  | nil => simp [splitSlash]
  | cons c cs ih =>
    simp only [List.mem_cons, not_or] at h
    simp only [List.cons_append]
    rw [splitSlash, if_neg (fun hc => h.1 hc.symm), ih h.2]

theorem splitSlash_joinSlash : ∀ (segs : List (List Char)), segs ≠ [] →
    (∀ s ∈ segs, '/' ∉ s) → splitSlash (joinSlash segs) = segs := by
  intro segs
  induction segs with
  | nil => intro h; exact absurd rfl h
  | cons seg rest ih =>
    intro _ hs
    cases rest with
    | nil => simpa [joinSlash] using splitSlash_single seg (hs seg (by simp))
    | cons seg2 rest2 =>
      simp only [joinSlash]
      rw [splitSlash_append_slash _ _ (hs seg (by simp)),
        ih (by simp) (fun s h => hs s (List.mem_cons_of_mem _ h))]

theorem joinSlash_append_single : ∀ (segs : List (List Char)) (s : List Char), segs ≠ [] →
    joinSlash (segs ++ [s]) = joinSlash segs ++ '/' :: s := by
  intro segs
  induction segs with
  | nil => intro s h; exact absurd rfl h
  | cons seg rest ih =>
    intro s _
    cases rest with
    | nil => simp [joinSlash]
    | cons seg2 rest2 =>
      have := ih s (by simp)
      simp only [List.cons_append] at this ⊢
      simp only [joinSlash, this, List.append_assoc, List.cons_append]

theorem cleanSegs_valid (rooted : Bool) : ∀ (segs acc : List (List Char)),
    (∀ s ∈ segs, ValidSeg s) → cleanSegs rooted acc segs = acc.reverse ++ segs := by
  intro segs
  induction segs with
  | nil => intro acc _; simp [cleanSegs]
  | cons seg rest ih =>
    intro acc h
    have hv := h seg (by simp)
    unfold cleanSegs
    rw [if_neg (by simp [hv.1, hv.2.2.1]), if_neg hv.2.2.2.1,
      ih _ (fun s hs => h s (List.mem_cons_of_mem _ hs))]
    simp

theorem joinSlash_head (segs : List (List Char)) (hne : segs ≠ [])
    (h : ∀ s ∈ segs, ValidSeg s) :
    ∃ c cs, joinSlash segs = c :: cs ∧ c ≠ '/' := by
  cases segs with
  | nil => exact absurd rfl hne
  | cons seg rest =>
    have hv := h seg (by simp)
    cases seg with
    | nil => exact absurd rfl hv.1
    | cons c cs =>
      have hc : c ≠ '/' := by
        intro hc; apply hv.2.1; simp [hc]
      cases rest with
      | nil => exact ⟨c, cs, by simp [joinSlash], hc⟩
      | cons s2 r2 => exact ⟨c, cs ++ '/' :: joinSlash (s2 :: r2), by simp [joinSlash], hc⟩

theorem filepathClean_valid (segs : List (List Char)) (hne : segs ≠ [])
    (h : ∀ s ∈ segs, ValidSeg s) :
    filepathClean (String.mk (joinSlash segs)) = String.mk (joinSlash segs) := by
  obtain ⟨c, cs, hj, hc⟩ := joinSlash_head segs hne h
  unfold filepathClean
  have h1 : String.mk (joinSlash segs) ≠ "" := by
    intro h0
    have := congrArg String.data h0
    simp [hj] at this
  rw [if_neg h1]
  simp only []
  have h2 : ((String.mk (joinSlash segs)).data.head? = some '/') = False := by
    simp [hj, hc]
  simp only [h2, decide_False, Bool.false_eq_true, if_false]
  rw [splitSlash_joinSlash segs hne (fun s hs => (h s hs).2.1), cleanSegs_valid _ _ _ h]
  simp [hj]

theorem filepathJoin_valid (p cp part : String) (hrel : PathRel p cp)
    (hpart : ValidSeg part.data) :
    PathRel (String.mk ('/' :: (trimPrefixSlash (filepathJoin cp part)).data))
      (filepathJoin cp part) ∧
    "/" ++ trimPrefixSlash (filepathJoin cp part) = childPath p part := by
  obtain ⟨segs, hv, hcp, hp⟩ := hrel
  have hv' : ∀ s ∈ segs ++ [part.data], ValidSeg s := by
    intro s hs
    rcases List.mem_append.1 hs with h | h
    · exact hv s h
    · simp at h; subst h; exact hpart
  have hjoin : filepathJoin cp part = String.mk (joinSlash (segs ++ [part.data])) := by
    unfold filepathJoin
    by_cases hs : segs = []
    · subst hs
      have hcp0 : cp = "" := by
        apply String.ext; simpa [joinSlash] using hcp
      have hpart0 : part ≠ "" := by
        intro h0; apply hpart.1; rw [h0]
      rw [if_pos hcp0, if_neg hpart0]
      have := filepathClean_valid [part.data] (by simp) (by simpa using hpart)
      simpa [joinSlash] using this
    · have hcp0 : cp ≠ "" := by
        intro h0
        obtain ⟨c, cs, hj, _⟩ := joinSlash_head segs hs hv
        rw [h0, hj] at hcp
        simp at hcp
      rw [if_neg hcp0]
      have := filepathClean_valid (segs ++ [part.data]) (by simp) hv'
      rw [joinSlash_append_single _ _ hs] at this ⊢
      have e : cp ++ "/" ++ part = String.mk (joinSlash segs ++ '/' :: part.data) := by
        apply String.ext; simp [hcp]
      rw [e]; exact this
  obtain ⟨c, cs, hj, hc⟩ := joinSlash_head (segs ++ [part.data]) (by simp) hv'
  have htrim : trimPrefixSlash (filepathJoin cp part) = filepathJoin cp part := by
    rw [hjoin]
    unfold trimPrefixSlash
    simp only [hj]
    rw [if_neg hc]
  rw [htrim]
  refine ⟨⟨segs ++ [part.data], hv', by rw [hjoin], by rw [hjoin]⟩, ?_⟩
  apply String.ext
  rw [hjoin]
  unfold childPath
  by_cases hs : segs = []
  · subst hs
    have hp0 : p = "/" := by apply String.ext; simpa [joinSlash] using hp
    rw [if_pos hp0]
    simp [joinSlash]
  · have hp0 : p ≠ "/" := by
      intro h0
      obtain ⟨c2, cs2, hj2, _⟩ := joinSlash_head segs hs hv
      rw [h0, hj2] at hp
      simp at hp
    rw [if_neg hp0, joinSlash_append_single _ _ hs]
    simp [hp]


theorem append_slash_inj : ∀ (a b n1 n2 : List Char), '/' ∉ n1 → '/' ∉ n2 →
    a ++ '/' :: n1 = b ++ '/' :: n2 → a = b ∧ n1 = n2 := by
  intro a
  induction a with
  | nil =>
    intro b n1 n2 h1 _ h
    cases b with
    | nil => simpa using h
    | cons c b1 =>
      simp only [List.nil_append, List.cons_append, List.cons.injEq] at h
      exact absurd (by rw [h.2]; simp) h1
  | cons c a1 ih =>
    intro b n1 n2 h1 h2 h
    cases b with
    | nil =>
      simp only [List.nil_append, List.cons_append, List.cons.injEq] at h
      exact absurd (by rw [← h.2]; simp) h2
    | cons d b1 =>
      simp only [List.cons_append, List.cons.injEq] at h
      obtain ⟨e1, e2⟩ := ih b1 n1 n2 h1 h2 h.2
      exact ⟨by rw [h.1, e1], e2⟩

theorem childPath_data (p n : String) :
    (childPath p n).data = (if p = "/" then [] else p.data) ++ '/' :: n.data := by
  unfold childPath
  split_ifs <;> simp

theorem childPath_inj (p1 p2 n1 n2 : String) (hp1 : p1 ≠ "") (hp2 : p2 ≠ "")
    (h1 : '/' ∉ n1.data) (h2 : '/' ∉ n2.data) (h : childPath p1 n1 = childPath p2 n2) :
    p1 = p2 ∧ n1 = n2 := by
  have hd := congrArg String.data h
  rw [childPath_data, childPath_data] at hd
  obtain ⟨e1, e2⟩ := append_slash_inj _ _ _ _ h1 h2 hd
  refine ⟨?_, String.ext e2⟩
  have d1 : p1.data ≠ [] := fun h0 => hp1 (String.ext h0)
  have d2 : p2.data ≠ [] := fun h0 => hp2 (String.ext h0)
  split_ifs at e1 with c1 c2 c2
  · rw [c1, c2]
  · exact absurd e1.symm d2
  · exact absurd e1 d1
  · exact String.ext e1

theorem childPath_ne_root (p n : String) (hn : n ≠ "") : childPath p n ≠ "/" := by
  intro h
  have hd := congrArg String.data h
  rw [childPath_data] at hd
  have hn' : n.data ≠ [] := fun h0 => hn (String.ext h0)
  split_ifs at hd
  · simp at hd; exact hn' hd
  · cases hp : p.data with
    | nil => rw [hp] at hd; simp at hd; exact hn' hd
    | cons c cs => rw [hp] at hd; simp at hd

theorem childPath_ne_empty (p n : String) : childPath p n ≠ "" := by
  intro h
  have hd := congrArg String.data h
  rw [childPath_data] at hd
  simp at hd

theorem PathRel_root : PathRel "/" "" :=
  ⟨[], by simp, by simp [joinSlash], by simp [joinSlash]⟩

theorem filepathJoin_child (p cp part : String) (hrel : PathRel p cp)
    (hpart : ValidSeg part.data) :
    "/" ++ trimPrefixSlash (filepathJoin cp part) = childPath p part ∧
    PathRel (childPath p part) (filepathJoin cp part) := by
  obtain ⟨h1, h2⟩ := filepathJoin_valid p cp part hrel hpart
  refine ⟨h2, ?_⟩
  rw [← h2]
  obtain ⟨segs, hv, hcp, hp⟩ := h1
  exact ⟨segs, hv, hcp, by simpa using hp⟩

theorem SplitPath_valid (filePath : String) (parts : List String)
    (h : SplitPath filePath = some parts) : ∀ part ∈ parts, ValidSeg part.data := by
  unfold SplitPath at h
  dsimp only at h
  split_ifs at h with h1 h2 h3
  · simp at h; subst h; simp
  · simp at h; subst h; simp
  · simp only [Option.some.injEq] at h
    subst h
    intro part hpart
    have hno : ¬ (part = "." ∨ part = ".." ∨ part = " " ∨ part = "") := by
      intro hbad
      apply h3
      rw [List.any_eq_true]
      exact ⟨part, hpart, by simpa using hbad⟩
    simp only [not_or] at hno
    unfold stringsSplit at hpart
    rw [List.mem_map] at hpart
    obtain ⟨s, hs, rfl⟩ := hpart
    refine ⟨?_, splitSlash_no_slash _ s hs, ?_, ?_, ?_⟩
    · intro h0; apply hno.2.2.2; apply String.ext; simpa using h0
    · intro h0; apply hno.1; apply String.ext; simpa using h0
    · intro h0; apply hno.2.1; apply String.ext; simpa using h0
    · intro h0; apply hno.2.2.1; apply String.ext; simpa using h0

theorem PathRel_SplitPath (p cp : String) (hrel : PathRel p cp) (hne : p ≠ "/") :
    ∃ parts, SplitPath p = some parts := by
  obtain ⟨segs, hv, _, hp⟩ := hrel
  have hs : segs ≠ [] := by
    intro h0; subst h0
    apply hne; apply String.ext; simpa [joinSlash] using hp
  obtain ⟨c, cs, hj, hc⟩ := joinSlash_head segs hs hv
  have htrim : trimPrefixSlash p = String.mk (joinSlash segs) := by
    unfold trimPrefixSlash
    rw [hp]
    simp
  unfold SplitPath
  rw [if_neg hne]
  simp only [htrim]
  have hne2 : String.mk (joinSlash segs) ≠ "" := by
    intro h0
    have := congrArg String.data h0
    simp [hj] at this
  rw [if_neg hne2]
  have hsplit : stringsSplit (String.mk (joinSlash segs)) = segs.map String.mk := by
    unfold stringsSplit
    simp only []
    rw [splitSlash_joinSlash segs hs (fun s h => (hv s h).2.1)]
  rw [hsplit]
  have hany : (segs.map String.mk).any
      (fun part => decide (part = "." ∨ part = ".." ∨ part = " " ∨ part = "")) = false := by
    rw [List.any_eq_false]
    intro part hpart
    rw [List.mem_map] at hpart
    obtain ⟨s, hs2, rfl⟩ := hpart
    have hvs := hv s hs2
    simp only [decide_eq_true_eq, not_or]
    refine ⟨?_, ?_, ?_, ?_⟩
    · intro h0; apply hvs.2.2.1; simpa using congrArg String.data h0
    · intro h0; apply hvs.2.2.2.1; simpa using congrArg String.data h0
    · intro h0; apply hvs.2.2.2.2; simpa using congrArg String.data h0
    · intro h0; apply hvs.1; simpa using congrArg String.data h0
  rw [hany]
  simp

/-! ## Tables: keys, lookups, counts and sums -/

theorem IdsOK.eq_of_key {α : Type} {key : α → Nat} {rows : List α} {next : Nat}
    (h : IdsOK key rows next) {a b : α} (ha : a ∈ rows) (hb : b ∈ rows)
    (hk : key a = key b) : a = b :=
  List.inj_on_of_nodup_map h.1 ha hb hk

theorem IdsOK.append {α : Type} {key : α → Nat} {rows : List α} {next : Nat}
    (h : IdsOK key rows next) (x : α) (hx : key x = next) :
    IdsOK key (rows ++ [x]) (next + 1) := by
  obtain ⟨h1, h2, h3⟩ := h
  refine ⟨?_, by omega, ?_⟩
  · rw [List.map_append, List.nodup_append]
    refine ⟨h1, by simp, ?_⟩
    intro k hk1 hk2
    simp only [List.map_cons, List.map_nil, List.mem_singleton] at hk2
    rw [List.mem_map] at hk1
    obtain ⟨r, hr, rfl⟩ := hk1
    have := (h3 r hr).2
    omega
  · intro r hr
    rcases List.mem_append.1 hr with hr | hr
    · have := h3 r hr; omega
    · simp only [List.mem_singleton] at hr
      subst hr; omega

theorem IdsOK.map {α : Type} {key : α → Nat} {rows : List α} {next : Nat}
    (h : IdsOK key rows next) (g : α → α) (hg : ∀ x ∈ rows, key (g x) = key x) :
    IdsOK key (rows.map g) next := by
  obtain ⟨h1, h2, h3⟩ := h
  have e : (rows.map g).map key = rows.map key := by
    rw [List.map_map]
    exact List.map_congr_left (fun x hx => hg x hx)
  refine ⟨by rw [e]; exact h1, h2, ?_⟩
  intro r hr
  rw [List.mem_map] at hr
  obtain ⟨x, hx, rfl⟩ := hr
  rw [hg x hx]
  exact h3 x hx

theorem IdsOK.filter {α : Type} {key : α → Nat} {rows : List α} {next : Nat}
    (h : IdsOK key rows next) (p : α → Bool) : IdsOK key (rows.filter p) next := by
  obtain ⟨h1, h2, h3⟩ := h
  refine ⟨?_, h2, fun r hr => h3 r (List.mem_of_mem_filter hr)⟩
  exact List.Nodup.sublist (List.Sublist.map key (List.filter_sublist rows)) h1

theorem find?_unique {α : Type} (p : α → Bool) {l : List α} {a : α} (ha : a ∈ l)
    (hp : p a = true) (hu : ∀ b ∈ l, p b = true → b = a) : l.find? p = some a := by
  cases h : l.find? p with
  | none =>
    rw [List.find?_eq_none] at h
    exact absurd hp (h a ha)
  | some b =>
    have hb := List.mem_of_find?_eq_some h
    have hpb := List.find?_some h
    rw [hu b hb hpb]

theorem IdsOK.find? {α : Type} {key : α → Nat} {rows : List α} {next : Nat}
    (h : IdsOK key rows next) {a : α} (ha : a ∈ rows) :
    rows.find? (fun x => decide (key x = key a)) = some a :=
  find?_unique _ ha (by simp) (fun b hb hpb => h.eq_of_key hb ha (by simpa using hpb))

theorem find?_append_of_mem {α : Type} (p : α → Bool) (l added : List α) {a : α}
    (ha : a ∈ l) (hp : p a = true) : (l ++ added).find? p = l.find? p := by
  rw [List.find?_append]
  cases h : l.find? p with
  | none =>
    rw [List.find?_eq_none] at h
    exact absurd hp (h a ha)
  | some b => simp

theorem countP_filter_key {α : Type} (key : α → Nat) (p : α → Bool) :
    ∀ (rows : List α) (a : α), (rows.map key).Nodup → a ∈ rows →
      rows.countP p
        = (rows.filter (fun x => decide (key x ≠ key a))).countP p + (if p a then 1 else 0) := by
  intro rows
  induction rows with
  | nil => intro a _ ha; simp at ha
  | cons x xs ih =>
    intro a hnd ha
    rw [List.map_cons, List.nodup_cons] at hnd
    rcases List.mem_cons.1 ha with hax | hax
    · subst hax
      have hall : xs.filter (fun x => decide (key x ≠ key a)) = xs := by
        rw [List.filter_eq_self]
        intro y hy
        have : key y ≠ key a := fun e => hnd.1 (by rw [← e]; exact List.mem_map_of_mem key hy)
        simpa using this
      rw [List.filter_cons, if_neg (by simp), hall, List.countP_cons]
    · have hne : key x ≠ key a := fun e => hnd.1 (by rw [e]; exact List.mem_map_of_mem key hax)
      rw [List.filter_cons, if_pos (by simpa using hne), List.countP_cons, List.countP_cons,
        ih a hnd.2 hax]
      omega

theorem sum_filter_key {α : Type} (key : α → Nat) (w : α → Int) :
    ∀ (rows : List α) (a : α), (rows.map key).Nodup → a ∈ rows →
      (rows.map w).sum = ((rows.filter (fun x => decide (key x ≠ key a))).map w).sum + w a := by
  intro rows
  induction rows with
  | nil => intro a _ ha; simp at ha
  | cons x xs ih =>
    intro a hnd ha
    rw [List.map_cons, List.nodup_cons] at hnd
    rcases List.mem_cons.1 ha with hax | hax
    · subst hax
      have hall : xs.filter (fun x => decide (key x ≠ key a)) = xs := by
        rw [List.filter_eq_self]
        intro y hy
        have : key y ≠ key a := fun e => hnd.1 (by rw [← e]; exact List.mem_map_of_mem key hy)
        simpa using this
      rw [List.filter_cons, if_neg (by simp), hall, List.map_cons, List.sum_cons]
      omega
    · have hne : key x ≠ key a := fun e => hnd.1 (by rw [e]; exact List.mem_map_of_mem key hax)
      rw [List.filter_cons, if_pos (by simpa using hne), List.map_cons, List.map_cons,
        List.sum_cons, List.sum_cons, ih a hnd.2 hax]
      omega

theorem sum_filter_eq_sum_ite {α : Type} (c : α → Bool) (w : α → Int) (l : List α) :
    ((l.filter c).map w).sum = (l.map (fun x => if c x then w x else 0)).sum := by
  induction l with
  | nil => simp
  | cons x xs ih =>
    rw [List.filter_cons]
    split_ifs with h
    · simp [h, ih]
    · simp [h, ih]

theorem find?_filter_ne {α : Type} (key : α → Nat) (l : List α) (k k2 : Nat) (h : k ≠ k2) :
    (l.filter (fun x => decide (key x ≠ k2))).find? (fun x => decide (key x = k))
      = l.find? (fun x => decide (key x = k)) := by
  induction l with
  | nil => simp
  | cons x xs ih =>
    rw [List.filter_cons]
    by_cases hx : key x = k2
    · rw [if_neg (by simpa using hx), ih, List.find?_cons]
      have : ¬ key x = k := fun e => h (by rw [← e, hx])
      simp [this]
    · rw [if_pos (by simpa using hx), List.find?_cons, List.find?_cons, ih]

theorem find?_map_key {α : Type} (key : α → Nat) (g : α → α) (hg : ∀ x, key (g x) = key x)
    (l : List α) (k : Nat) :
    (l.map g).find? (fun x => decide (key x = k))
      = (l.find? (fun x => decide (key x = k))).map g := by
  induction l with
  | nil => simp
  | cons x xs ih =>
    rw [List.map_cons, List.find?_cons, List.find?_cons, hg x]
    by_cases hx : key x = k
    · simp [hx]
    · simp [hx, ih]

/-! ## The namespace table under `Insert` -/

@[simp] theorem withNode_trieNodes (db : DB) (n : TrieNode) :
    (db.withNode n).trieNodes = db.trieNodes ++ [n] := by
  unfold DB.withNode; split_ifs <;> rfl

@[simp] theorem withNode_nextTrieNodeID (db : DB) (n : TrieNode) :
    (db.withNode n).nextTrieNodeID = db.nextTrieNodeID + 1 := by
  unfold DB.withNode; split_ifs <;> rfl

@[simp] theorem withNode_users (db : DB) (n : TrieNode) : (db.withNode n).users = db.users := by
  unfold DB.withNode; split_ifs <;> rfl

@[simp] theorem withNode_nextUserID (db : DB) (n : TrieNode) :
    (db.withNode n).nextUserID = db.nextUserID := by
  unfold DB.withNode; split_ifs <;> rfl

@[simp] theorem withNode_dataBlocks (db : DB) (n : TrieNode) :
    (db.withNode n).dataBlocks = db.dataBlocks := by
  unfold DB.withNode; split_ifs <;> rfl

@[simp] theorem withNode_nextDataBlockID (db : DB) (n : TrieNode) :
    (db.withNode n).nextDataBlockID = db.nextDataBlockID := by
  unfold DB.withNode; split_ifs <;> rfl

@[simp] theorem withNode_fileNodes (db : DB) (n : TrieNode) :
    (db.withNode n).fileNodes = db.fileNodes := by
  unfold DB.withNode; split_ifs <;> rfl

@[simp] theorem withNode_nextFileNodeID (db : DB) (n : TrieNode) :
    (db.withNode n).nextFileNodeID = db.nextFileNodeID := by
  unfold DB.withNode; split_ifs <;> rfl

theorem insertLoop_nil (isFile : Bool) (userID : Nat) (db : DB) (cur : TrieNode) (cp : String) :
    insertLoop isFile userID [] db cur cp = (.ok cur, db) := by
  rw [insertLoop]

theorem insertLoop_cons_none (isFile : Bool) (userID : Nat) (part : String)
    (rest : List String) (db : DB) (cur : TrieNode) (cp : String)
    (h : db.trieNodes.find? (fun n =>
      decide (n.Name = part ∧ n.ParentID = some cur.ID ∧ n.OwnerID = userID)) = none) :
    insertLoop isFile userID (part :: rest) db cur cp
      = insertLoop isFile userID rest
          (db.withNode (newTrieNode db cur (filepathJoin cp part) part userID
            (rest.isEmpty && isFile)))
          (newTrieNode db cur (filepathJoin cp part) part userID (rest.isEmpty && isFile))
          (filepathJoin cp part) := by
  rw [insertLoop]
  simp only [h]
  cases hr : rest.isEmpty <;> cases isFile <;>
    simp [DB.withNode, newTrieNode, DB.createTrieNode, DB.createDirNode]

theorem insertLoop_cons_some (isFile : Bool) (userID : Nat) (part : String)
    (rest : List String) (db : DB) (cur : TrieNode) (cp : String) (ex : TrieNode)
    (h : db.trieNodes.find? (fun n =>
      decide (n.Name = part ∧ n.ParentID = some cur.ID ∧ n.OwnerID = userID)) = some ex) :
    insertLoop isFile userID (part :: rest) db cur cp
      = if rest.isEmpty = true ∧ isFile = true ∧ ex.NodeType = "file" then
          (.error .fileAlreadyExists, db)
        else if ¬ rest.isEmpty = true ∧ ex.NodeType = "file" then (.error .fileInsideFile, db)
        else insertLoop isFile userID rest db ex (filepathJoin cp part) := by
  rw [insertLoop]
  simp only [h]

theorem NodesOK_withNode (db : DB) (cur : TrieNode) (cp part : String) (userID : Nat)
    (asFile : Bool) (hok : NodesOK db) (hcur : cur ∈ db.trieNodes)
    (hown : cur.OwnerID = userID) (hkind : cur.NodeType ≠ "file")
    (hrel : PathRel cur.Path cp) (hpart : ValidSeg part.data)
    (hnone : db.trieNodes.find? (fun n =>
      decide (n.Name = part ∧ n.ParentID = some cur.ID ∧ n.OwnerID = userID)) = none) :
    NodesOK (db.withNode (newTrieNode db cur (filepathJoin cp part) part userID asFile)) := by
  obtain ⟨hids, htrie⟩ := hok
  obtain ⟨hpath, _⟩ := filepathJoin_child cur.Path cp part hrel hpart
  have hxpath : (newTrieNode db cur (filepathJoin cp part) part userID asFile).Path
      = childPath cur.Path part := hpath
  have hpne : part ≠ "" := fun h0 => hpart.1 (by rw [h0])
  rw [List.find?_eq_none] at hnone
  refine ⟨?_, ?_⟩
  · rw [withNode_trieNodes, withNode_nextTrieNodeID]
    exact hids.append _ rfl
  · constructor
    · intro n hn hp
      rw [withNode_trieNodes, List.mem_append, List.mem_singleton] at hn
      rcases hn with hn | hn
      · exact htrie.root n hn hp
      · subst hn; simp [newTrieNode] at hp
    · intro m hm pid hp
      rw [withNode_trieNodes, List.mem_append, List.mem_singleton] at hm
      rcases hm with hm | hm
      · obtain ⟨h1, h2, q, hq, h3⟩ := htrie.child m hm pid hp
        exact ⟨h1, h2, q, by rw [withNode_trieNodes]; exact List.mem_append_left _ hq, h3⟩
      · subst hm
        have hpid : cur.ID = pid := by simpa [newTrieNode] using hp
        refine ⟨hpart.2.1, hpne, cur, ?_, hpid, hown, hkind, hxpath⟩
        rw [withNode_trieNodes]; exact List.mem_append_left _ hcur
    · intro n hn
      rw [withNode_trieNodes, List.mem_append, List.mem_singleton] at hn
      rcases hn with hn | hn
      · exact htrie.nonempty n hn
      · subst hn; rw [hxpath]; exact childPath_ne_empty _ _
    · have key : ∀ a ∈ db.trieNodes, a.OwnerID = userID → a.Path = childPath cur.Path part →
          False := by
        intro a ha hao hap
        cases hpa : a.ParentID with
        | none =>
          have := (htrie.root a ha hpa).2.1
          rw [this] at hap
          exact childPath_ne_root _ _ hpne hap.symm
        | some pid =>
          obtain ⟨h1, _, q, hq, hqid, hqo, _, hqp⟩ := htrie.child a ha pid hpa
          rw [hqp] at hap
          obtain ⟨e1, e2⟩ := childPath_inj _ _ _ _ (htrie.nonempty q hq)
            (htrie.nonempty cur hcur) h1 hpart.2.1 hap
          have hqc : q = cur := htrie.unique q hq cur hcur (by rw [hqo, hao, hown]) e1
          apply hnone a ha
          simp only [decide_eq_true_eq]
          exact ⟨e2, by rw [hpa, ← hqid, hqc], hao⟩
      intro a ha b hb hab hpab
      rw [withNode_trieNodes, List.mem_append, List.mem_singleton] at ha hb
      rcases ha with ha | ha <;> rcases hb with hb | hb
      · exact htrie.unique a ha b hb hab hpab
      · subst hb
        exact absurd (key a ha hab (by rw [hpab, hxpath])) id
      · subst ha
        exact absurd (key b hb hab.symm (by rw [← hpab, hxpath])) id
      · rw [ha, hb]

theorem NodeExt.refl (userID : Nat) (db : DB) : NodeExt userID db db :=
  ⟨rfl, rfl, rfl, rfl, rfl, rfl, [], by simp, by simp⟩

theorem NodeExt.trans {userID : Nat} {a b c : DB} (h1 : NodeExt userID a b)
    (h2 : NodeExt userID b c) (hnext : a.nextTrieNodeID ≤ b.nextTrieNodeID) :
    NodeExt userID a c := by
  obtain ⟨l1, e1, p1⟩ := h1.added
  obtain ⟨l2, e2, p2⟩ := h2.added
  refine ⟨h2.users.trans h1.users, h2.nextUserID.trans h1.nextUserID,
    h2.dataBlocks.trans h1.dataBlocks, h2.nextDataBlockID.trans h1.nextDataBlockID,
    h2.fileNodes.trans h1.fileNodes, h2.nextFileNodeID.trans h1.nextFileNodeID,
    l1 ++ l2, by rw [e2, e1, List.append_assoc], ?_⟩
  intro x hx
  rcases List.mem_append.1 hx with hx | hx
  · exact p1 x hx
  · have := p2 x hx
    exact ⟨by omega, this.2⟩

theorem NodeExt_withNode (userID : Nat) (db : DB) (n : TrieNode)
    (hid : n.ID = db.nextTrieNodeID) (hown : n.OwnerID = userID) :
    NodeExt userID db (db.withNode n) :=
  ⟨by simp, by simp, by simp, by simp, by simp, by simp, [n], by simp,
    by intro x hx; simp at hx; subst hx; exact ⟨by omega, hown⟩⟩

theorem insertLoop_spec (isFile : Bool) (userID : Nat) :
    ∀ (parts : List String) (db : DB) (cur : TrieNode) (cp : String),
      NodesOK db → cur ∈ db.trieNodes → cur.OwnerID = userID →
      (parts ≠ [] → cur.NodeType ≠ "file") → PathRel cur.Path cp →
      (∀ p ∈ parts, ValidSeg p.data) →
      NodesOK (insertLoop isFile userID parts db cur cp).2 ∧
      NodeExt userID db (insertLoop isFile userID parts db cur cp).2 ∧
      db.nextTrieNodeID ≤ (insertLoop isFile userID parts db cur cp).2.nextTrieNodeID ∧
      ∀ n, (insertLoop isFile userID parts db cur cp).1 = .ok n →
        n ∈ (insertLoop isFile userID parts db cur cp).2.trieNodes ∧ n.OwnerID = userID ∧
        (∃ cp1, PathRel n.Path cp1) ∧
        (isFile = true → n.NodeType = "file" →
          db.nextTrieNodeID ≤ n.ID ∨ (parts = [] ∧ n = cur)) := by
  intro parts
  induction parts with
  | nil =>
    intro db cur cp hok hcur hown _ hrel _
    rw [insertLoop_nil]
    refine ⟨hok, NodeExt.refl _ _, le_refl _, ?_⟩
    intro n hn
    simp only [Except.ok.injEq] at hn
    subst hn
    exact ⟨hcur, hown, ⟨cp, hrel⟩, fun _ _ => Or.inr ⟨rfl, rfl⟩⟩
  | cons part rest ih =>
    intro db cur cp hok hcur hown hkind hrel hparts
    have hpart : ValidSeg part.data := hparts part (by simp)
    have hrest : ∀ p ∈ rest, ValidSeg p.data := fun p hp => hparts p (List.mem_cons_of_mem _ hp)
    have hck : cur.NodeType ≠ "file" := hkind (by simp)
    obtain ⟨hpath, hrel2⟩ := filepathJoin_child cur.Path cp part hrel hpart
    cases hfind : db.trieNodes.find? (fun n =>
        decide (n.Name = part ∧ n.ParentID = some cur.ID ∧ n.OwnerID = userID)) with
    | none =>
      rw [insertLoop_cons_none _ _ _ _ _ _ _ hfind]
      have hok2 := NodesOK_withNode db cur cp part userID (rest.isEmpty && isFile) hok hcur hown
        hck hrel hpart hfind
      have hx : (newTrieNode db cur (filepathJoin cp part) part userID
          (rest.isEmpty && isFile)).Path = childPath cur.Path part := hpath
      have hkx : rest ≠ [] → (newTrieNode db cur (filepathJoin cp part) part userID
          (rest.isEmpty && isFile)).NodeType ≠ "file" := by
        intro hne
        have : rest.isEmpty = false := by
          cases rest with
          | nil => exact absurd rfl hne
          | cons _ _ => rfl
        simp [newTrieNode, this]
      obtain ⟨r1, r2, r3, r4⟩ := ih (db.withNode (newTrieNode db cur (filepathJoin cp part) part
        userID (rest.isEmpty && isFile))) (newTrieNode db cur (filepathJoin cp part) part userID
        (rest.isEmpty && isFile)) (filepathJoin cp part) hok2 (by simp) rfl hkx
        (by rw [hx]; exact hrel2) hrest
      rw [withNode_nextTrieNodeID] at r3
      refine ⟨r1, (NodeExt_withNode userID db _ rfl rfl).trans r2 (by simp), by omega, ?_⟩
      intro n hn
      obtain ⟨n1, n2, n3, n4⟩ := r4 n hn
      refine ⟨n1, n2, n3, fun hf ht => Or.inl ?_⟩
      rcases n4 hf ht with h | ⟨_, h⟩
      · rw [withNode_nextTrieNodeID] at h; omega
      · rw [h]; exact le_refl _
    | some ex =>
      rw [insertLoop_cons_some _ _ _ _ _ _ _ ex hfind]
      have hexm : ex ∈ db.trieNodes := List.mem_of_find?_eq_some hfind
      have hexp := List.find?_some hfind
      simp only [decide_eq_true_eq] at hexp
      split_ifs with c1 c2
      · exact ⟨hok, NodeExt.refl _ _, le_refl _, fun n hn => by simp at hn⟩
      · exact ⟨hok, NodeExt.refl _ _, le_refl _, fun n hn => by simp at hn⟩
      · have hexpath : ex.Path = childPath cur.Path part := by
          obtain ⟨_, _, q, hq, hqid, _, _, hqp⟩ := hok.2.child ex hexm cur.ID hexp.2.1
          have : q = cur := hok.1.eq_of_key hq hcur hqid
          rw [hqp, this, hexp.1]
        have hkex : rest ≠ [] → ex.NodeType ≠ "file" := by
          intro hne hfile
          apply c2
          refine ⟨?_, hfile⟩
          cases rest with
          | nil => exact absurd rfl hne
          | cons _ _ => simp
        obtain ⟨r1, r2, r3, r4⟩ := ih db ex (filepathJoin cp part) hok hexm hexp.2.2 hkex
          (by rw [hexpath]; exact hrel2) hrest
        refine ⟨r1, r2, r3, ?_⟩
        intro n hn
        obtain ⟨n1, n2, n3, n4⟩ := r4 n hn
        refine ⟨n1, n2, n3, fun hf ht => Or.inl ?_⟩
        rcases n4 hf ht with h | ⟨h1, h2⟩
        · exact h
        · exfalso
          apply c1
          subst h1
          exact ⟨rfl, hf, by rw [← h2]; exact ht⟩

theorem Insert_spec (fs : FileSystem) (filePath : String) (isFile : Bool) (userID : Nat)
    (hok : NodesOK fs.DB) (hroot : RootOK fs userID) :
    NodesOK (Insert fs filePath isFile userID).2.DB ∧
    NodeExt userID fs.DB (Insert fs filePath isFile userID).2.DB ∧
    fs.DB.nextTrieNodeID ≤ (Insert fs filePath isFile userID).2.DB.nextTrieNodeID ∧
    (Insert fs filePath isFile userID).2.Root = fs.Root ∧
    ∀ n, (Insert fs filePath isFile userID).1 = .ok n →
      n ∈ (Insert fs filePath isFile userID).2.DB.trieNodes ∧ n.OwnerID = userID ∧
      (∃ cp1, PathRel n.Path cp1) ∧
      (isFile = true → n.NodeType = "file" → fs.DB.nextTrieNodeID ≤ n.ID) := by
  unfold Insert
  cases hsp : SplitPath filePath with
  | none => exact ⟨hok, NodeExt.refl _ _, le_refl _, rfl, fun n hn => by simp at hn⟩
  | some parts =>
    have hrel : PathRel fs.Root.Path "" := by rw [hroot.path]; exact PathRel_root
    obtain ⟨r1, r2, r3, r4⟩ := insertLoop_spec isFile userID parts fs.DB fs.Root "" hok
      hroot.mem hroot.owner (fun _ => hroot.kind) hrel (SplitPath_valid _ _ hsp)
    refine ⟨r1, r2, r3, rfl, ?_⟩
    intro n hn
    obtain ⟨n1, n2, n3, n4⟩ := r4 n hn
    refine ⟨n1, n2, n3, fun hf ht => ?_⟩
    rcases n4 hf ht with h | ⟨_, h⟩
    · exact h
    · exact absurd (by rw [← h]; exact ht) hroot.kind

theorem NewFileSystem_some (db : DB) (userID : Nat) (root : TrieNode)
    (h : db.trieNodes.find? (fun n =>
      decide (n.Name = "root" ∧ n.OwnerID = userID ∧ n.Path = "/")) = some root) :
    NewFileSystem db userID = { DB := db, Root := root } := by
  unfold NewFileSystem
  simp only [h]

theorem NewFileSystem_none (db : DB) (userID : Nat)
    (h : db.trieNodes.find? (fun n =>
      decide (n.Name = "root" ∧ n.OwnerID = userID ∧ n.Path = "/")) = none) :
    NewFileSystem db userID
      = { DB := db.withNode (newRoot db userID), Root := newRoot db userID } := by
  unfold NewFileSystem
  simp only [h]
  simp [DB.withNode, newRoot, DB.createTrieNode, DB.createDirNode]

theorem NewFileSystem_spec (db : DB) (userID : Nat) (hok : NodesOK db) :
    NodesOK (NewFileSystem db userID).DB ∧ NodeExt userID db (NewFileSystem db userID).DB ∧
    db.nextTrieNodeID ≤ (NewFileSystem db userID).DB.nextTrieNodeID ∧
    RootOK (NewFileSystem db userID) userID := by
  obtain ⟨hids, htrie⟩ := hok
  cases hfind : db.trieNodes.find? (fun n =>
      decide (n.Name = "root" ∧ n.OwnerID = userID ∧ n.Path = "/")) with
  | some root =>
    rw [NewFileSystem_some db userID root hfind]
    have hm : root ∈ db.trieNodes := List.mem_of_find?_eq_some hfind
    have hp := List.find?_some hfind
    simp only [decide_eq_true_eq] at hp
    refine ⟨⟨hids, htrie⟩, NodeExt.refl _ _, le_refl _, hm, hp.2.1, hp.2.2, ?_⟩
    cases hpar : root.ParentID with
    | none => exact (htrie.root root hm hpar).2.2
    | some pid =>
      obtain ⟨_, hne, q, _, _, _, _, hqp⟩ := htrie.child root hm pid hpar
      rw [hp.2.2] at hqp
      exact absurd hqp.symm (childPath_ne_root _ _ hne)
  | none =>
    rw [NewFileSystem_none db userID hfind]
    rw [List.find?_eq_none] at hfind
    refine ⟨⟨?_, ?_⟩, NodeExt_withNode userID db (newRoot db userID) rfl rfl, by simp,
      by simp, rfl, rfl, by simp [newRoot]⟩
    · rw [withNode_trieNodes, withNode_nextTrieNodeID]
      exact hids.append _ rfl
    · constructor
      · intro n hn hp
        rw [withNode_trieNodes, List.mem_append, List.mem_singleton] at hn
        rcases hn with hn | hn
        · exact htrie.root n hn hp
        · subst hn; simp [newRoot]
      · intro m hm pid hp
        rw [withNode_trieNodes, List.mem_append, List.mem_singleton] at hm
        rcases hm with hm | hm
        · obtain ⟨h1, h2, q, hq, h3⟩ := htrie.child m hm pid hp
          exact ⟨h1, h2, q, by rw [withNode_trieNodes]; exact List.mem_append_left _ hq, h3⟩
        · subst hm; simp [newRoot] at hp
      · intro n hn
        rw [withNode_trieNodes, List.mem_append, List.mem_singleton] at hn
        rcases hn with hn | hn
        · exact htrie.nonempty n hn
        · subst hn; simp [newRoot]
      · have key : ∀ a ∈ db.trieNodes, a.OwnerID = userID → a.Path = "/" → False := by
          intro a ha hao hap
          cases hpa : a.ParentID with
          | none =>
            apply hfind a ha
            simp only [decide_eq_true_eq]
            exact ⟨(htrie.root a ha hpa).1, hao, hap⟩
          | some pid =>
            obtain ⟨_, hne, q, _, _, _, _, hqp⟩ := htrie.child a ha pid hpa
            rw [hap] at hqp
            exact childPath_ne_root _ _ hne hqp.symm
        intro a ha b hb hab hpab
        rw [withNode_trieNodes, List.mem_append, List.mem_singleton] at ha hb
        rcases ha with ha | ha <;> rcases hb with hb | hb
        · exact htrie.unique a ha b hb hab hpab
        · subst hb
          exact absurd (key a ha hab hpab) id
        · subst ha
          exact absurd (key b hb hab.symm hpab.symm) id
        · rw [ha, hb]

/-! ## Blocks and bindings: the invariant under each kind of change -/

theorem TrieInv_congr {db db1 : DB} (h : db1.trieNodes = db.trieNodes) (ht : TrieInv db) :
    TrieInv db1 := by
  constructor
  · rw [h]; exact ht.root
  · rw [h]; exact ht.child
  · rw [h]; exact ht.nonempty
  · rw [h]; exact ht.unique

theorem refsByID_fresh {db : DB} (hinv : Inv db) {k : Nat} (hk : db.nextDataBlockID ≤ k) :
    refsByID db k = 0 := by
  unfold refsByID
  rw [List.countP_eq_zero]
  intro f hf
  obtain ⟨b, hb, hbid, _⟩ := hinv.bind.block f hf
  have := (hinv.seq.blocks.2.2 b hb).2
  simp only [decide_eq_true_eq]
  omega

theorem bindingsAt_fresh {db : DB} (hinv : Inv db) {k : Nat} (hk : db.nextTrieNodeID ≤ k) :
    bindingsAt db k = 0 := by
  unfold bindingsAt
  rw [List.countP_eq_zero]
  intro f hf
  obtain ⟨t, ht, htid, _⟩ := hinv.bind.node f hf
  have := (hinv.seq.nodes.2.2 t ht).2
  simp only [decide_eq_true_eq]
  omega

theorem ownerOf_of_mem {db : DB} (hinv : Inv db) {t : TrieNode} (ht : t ∈ db.trieNodes)
    {f : FileNode} (hf : f.TrieNodeID = t.ID) : ownerOf db f = some t.OwnerID := by
  unfold ownerOf
  rw [hf, hinv.seq.nodes.find? ht]
  rfl

theorem charged_congr {db db1 : DB} (hF : db1.fileNodes = db.fileNodes)
    (ho : ∀ f ∈ db.fileNodes, ownerOf db1 f = ownerOf db f) (userID : Nat) :
    charged db1 userID = charged db userID := by
  unfold charged
  rw [hF]
  congr 2
  apply List.filter_congr
  intro f hf
  rw [ho f hf]

theorem Inv_nodeExt {userID : Nat} {db db1 : DB} (hinv : Inv db)
    (hext : NodeExt userID db db1) (hok : NodesOK db1) :
    Inv db1 ∧ (∀ f ∈ db.fileNodes, ownerOf db1 f = ownerOf db f) ∧
      (QuotaInv db → QuotaInv db1) := by
  obtain ⟨added, hadd, hfresh⟩ := hext.added
  have hown : ∀ f ∈ db.fileNodes, ownerOf db1 f = ownerOf db f := by
    intro f hf
    obtain ⟨t, ht, htid, _⟩ := hinv.bind.node f hf
    unfold ownerOf
    rw [hadd, find?_append_of_mem _ _ _ ht (by simpa using htid)]
  refine ⟨⟨⟨?_, ?_, hok.1, ?_⟩, hok.2, ⟨?_, ?_, ?_, ?_, ?_⟩⟩, hown, ?_⟩
  · rw [hext.users, hext.nextUserID]; exact hinv.seq.users
  · rw [hext.dataBlocks, hext.nextDataBlockID]; exact hinv.seq.blocks
  · rw [hext.fileNodes, hext.nextFileNodeID]; exact hinv.seq.files
  · rw [hext.fileNodes, hext.dataBlocks]; exact hinv.bind.block
  · rw [hext.dataBlocks]
    intro b hb
    have := hinv.bind.refs b hb
    unfold refsByID at this ⊢
    rw [hext.fileNodes]; exact this
  · rw [hext.dataBlocks]; exact hinv.bind.hash
  · rw [hext.fileNodes, hext.users]
    intro f hf
    obtain ⟨t, ht, h⟩ := hinv.bind.node f hf
    exact ⟨t, by rw [hadd]; exact List.mem_append_left _ ht, h⟩
  · intro t ht hfile
    rw [hadd] at ht
    have e : bindingsAt db1 t.ID = bindingsAt db t.ID := by
      unfold bindingsAt; rw [hext.fileNodes]
    rw [e]
    rcases List.mem_append.1 ht with ht | ht
    · exact hinv.bind.single t ht hfile
    · rw [bindingsAt_fresh hinv (hfresh t ht).1]; omega
  · intro hq u hu
    rw [hext.users] at hu
    rw [charged_congr hext.fileNodes hown]
    exact hq u hu

theorem Inv_attach {db D : DB} (hinv : Inv db)
    {t : TrieNode} (ht : t ∈ db.trieNodes) (htu : ∃ u ∈ db.users, u.ID = t.OwnerID)
    (htf : t.NodeType = "file" → bindingsAt db t.ID = 0)
    {b : DataBlock} {f : FileNode} {U : User → User} {F : FileNode → FileNode}
    (hgu : ∀ u ∈ db.users, (U u).ID = u.ID)
    (hgf : ∀ x ∈ db.fileNodes, (F x).ID = x.ID ∧ (F x).TrieNodeID = x.TrieNodeID ∧
      (F x).DataBlockID = x.DataBlockID ∧ (F x).Hash = x.Hash)
    (hfid : f.ID = db.nextFileNodeID) (hft : f.TrieNodeID = t.ID)
    (hfb : f.DataBlockID = b.ID) (hfh : f.Hash = b.Hash)
    (hU : D.users = db.users.map U) (hUn : D.nextUserID = db.nextUserID)
    (hT : D.trieNodes = db.trieNodes) (hTn : D.nextTrieNodeID = db.nextTrieNodeID)
    (hF : D.fileNodes = db.fileNodes.map F ++ [f])
    (hFn : D.nextFileNodeID = db.nextFileNodeID + 1)
    (hB : (∃ b0 ∈ db.dataBlocks, b0.ID = b.ID ∧ b0.Hash = b.Hash ∧
            b.RefCount = b0.RefCount + 1 ∧
            D.dataBlocks = db.dataBlocks.map (fun x => if x.ID = b.ID then b else x) ∧
            D.nextDataBlockID = db.nextDataBlockID) ∨
          ((∀ x ∈ db.dataBlocks, x.Hash ≠ b.Hash) ∧ b.ID = db.nextDataBlockID ∧
            b.RefCount = 1 ∧ D.dataBlocks = db.dataBlocks ++ [b] ∧
            D.nextDataBlockID = db.nextDataBlockID + 1)) :
    Inv D := by
  have refs2 : ∀ k, refsByID D k = refsByID db k + (if b.ID = k then 1 else 0) := by
    intro k
    unfold refsByID
    rw [hF, List.countP_append, List.countP_map, List.countP_singleton]
    congr 1
    · apply List.countP_congr
      intro x hx
      simp [(hgf x hx).2.2.1]
    · simp [hfb]
  have bat2 : ∀ k, bindingsAt D k = bindingsAt db k + (if t.ID = k then 1 else 0) := by
    intro k
    unfold bindingsAt
    rw [hF, List.countP_append, List.countP_map, List.countP_singleton]
    congr 1
    · apply List.countP_congr
      intro x hx
      simp [(hgf x hx).2.1]
    · simp [hft]
  have hfiles : IdsOK FileNode.ID D.fileNodes D.nextFileNodeID := by
    rw [hF, hFn]
    exact (hinv.seq.files.map F (fun x hx => (hgf x hx).1)).append f hfid
  have husers : IdsOK User.ID D.users D.nextUserID := by
    rw [hU, hUn]; exact hinv.seq.users.map U hgu
  have hnodes : IdsOK TrieNode.ID D.trieNodes D.nextTrieNodeID := by
    rw [hT, hTn]; exact hinv.seq.nodes
  have hnode : ∀ f1 ∈ D.fileNodes, ∃ t1 ∈ D.trieNodes, t1.ID = f1.TrieNodeID ∧
      ∃ u ∈ D.users, u.ID = t1.OwnerID := by
    intro f1 hf1
    rw [hF, List.mem_append, List.mem_singleton] at hf1
    have hu2 : ∀ t1 : TrieNode, (∃ u ∈ db.users, u.ID = t1.OwnerID) →
        ∃ u ∈ D.users, u.ID = t1.OwnerID := by
      rintro t1 ⟨u, hu, hid⟩
      exact ⟨U u, by rw [hU]; exact List.mem_map_of_mem U hu, by rw [hgu u hu, hid]⟩
    rcases hf1 with hf1 | hf1
    · rw [List.mem_map] at hf1
      obtain ⟨x, hx, rfl⟩ := hf1
      obtain ⟨t1, ht1, hid, hu⟩ := hinv.bind.node x hx
      exact ⟨t1, by rw [hT]; exact ht1, by rw [(hgf x hx).2.1, hid], hu2 t1 hu⟩
    · subst hf1
      exact ⟨t, by rw [hT]; exact ht, hft.symm, hu2 t htu⟩
  have hsingle : ∀ t1 ∈ D.trieNodes, t1.NodeType = "file" → bindingsAt D t1.ID ≤ 1 := by
    intro t1 ht1 hfile
    rw [hT] at ht1
    rw [bat2]
    by_cases e : t.ID = t1.ID
    · have : t = t1 := hinv.seq.nodes.eq_of_key ht ht1 e
      subst this
      rw [htf hfile]; simp
    · rw [if_neg e]
      exact hinv.bind.single t1 ht1 hfile
  rcases hB with ⟨b0, hb0, hb0id, hb0h, hrc, hB2, hBn⟩ | ⟨hnew, hbid, hrc, hB2, hBn⟩
  · have hg : ∀ x ∈ db.dataBlocks, (if x.ID = b.ID then b else x).ID = x.ID ∧
        (if x.ID = b.ID then b else x).Hash = x.Hash := by
      intro x hx
      by_cases e : x.ID = b.ID
      · have : x = b0 := hinv.seq.blocks.eq_of_key hx hb0 (by rw [e, hb0id])
        subst this
        simp [e, hb0h]
      · simp [e]
    refine ⟨⟨husers, ?_, hnodes, hfiles⟩, TrieInv_congr hT hinv.trie, ⟨?_, ?_, ?_, hnode, hsingle⟩⟩
    · rw [hB2, hBn]
      exact hinv.seq.blocks.map _ (fun x hx => (hg x hx).1)
    · intro f1 hf1
      rw [hF, List.mem_append, List.mem_singleton] at hf1
      rcases hf1 with hf1 | hf1
      · rw [List.mem_map] at hf1
        obtain ⟨x, hx, rfl⟩ := hf1
        obtain ⟨b1, hb1, hid, hh⟩ := hinv.bind.block x hx
        refine ⟨_, by rw [hB2]; exact List.mem_map_of_mem _ hb1, ?_, ?_⟩
        · rw [(hg b1 hb1).1, (hgf x hx).2.2.1, hid]
        · rw [(hg b1 hb1).2, (hgf x hx).2.2.2, hh]
      · subst hf1
        refine ⟨_, by rw [hB2]; exact List.mem_map_of_mem _ hb0, ?_, ?_⟩
        · rw [(hg b0 hb0).1, hfb, hb0id]
        · rw [(hg b0 hb0).2, hfh, hb0h]
    · intro y hy
      rw [hB2, List.mem_map] at hy
      obtain ⟨x, hx, rfl⟩ := hy
      rw [(hg x hx).1, refs2]
      have hr := hinv.bind.refs x hx
      by_cases e : x.ID = b.ID
      · have : x = b0 := hinv.seq.blocks.eq_of_key hx hb0 (by rw [e, hb0id])
        subst this
        rw [if_pos e, if_pos e.symm, hrc]
        push_cast; omega
      · rw [if_neg e, if_neg (fun h => e h.symm)]
        simpa using hr
    · intro y1 hy1 y2 hy2 hh
      rw [hB2, List.mem_map] at hy1 hy2
      obtain ⟨x1, hx1, rfl⟩ := hy1
      obtain ⟨x2, hx2, rfl⟩ := hy2
      rw [(hg x1 hx1).2, (hg x2 hx2).2] at hh
      rw [hinv.bind.hash x1 hx1 x2 hx2 hh]
  · refine ⟨⟨husers, ?_, hnodes, hfiles⟩, TrieInv_congr hT hinv.trie, ⟨?_, ?_, ?_, hnode, hsingle⟩⟩
    · rw [hB2, hBn]
      exact hinv.seq.blocks.append b hbid
    · intro f1 hf1
      rw [hF, List.mem_append, List.mem_singleton] at hf1
      rcases hf1 with hf1 | hf1
      · rw [List.mem_map] at hf1
        obtain ⟨x, hx, rfl⟩ := hf1
        obtain ⟨b1, hb1, hid, hh⟩ := hinv.bind.block x hx
        exact ⟨b1, by rw [hB2]; exact List.mem_append_left _ hb1,
          by rw [(hgf x hx).2.2.1, hid], by rw [(hgf x hx).2.2.2, hh]⟩
      · subst hf1
        exact ⟨b, by rw [hB2]; simp, hfb.symm, hfh.symm⟩
    · intro y hy
      rw [hB2, List.mem_append, List.mem_singleton] at hy
      rw [refs2]
      rcases hy with hy | hy
      · have := (hinv.seq.blocks.2.2 y hy).2
        rw [if_neg (by omega)]
        simpa using hinv.bind.refs y hy
      · subst hy
        rw [if_pos rfl, refsByID_fresh hinv (le_of_eq hbid.symm), hrc]
        simp
    · intro y1 hy1 y2 hy2 hh
      rw [hB2, List.mem_append, List.mem_singleton] at hy1 hy2
      rcases hy1 with hy1 | hy1 <;> rcases hy2 with hy2 | hy2
      · exact hinv.bind.hash y1 hy1 y2 hy2 hh
      · subst hy2; exact absurd hh (hnew y1 hy1)
      · subst hy1; exact absurd hh.symm (hnew y2 hy2)
      · rw [hy1, hy2]

theorem QuotaInv_attach {db D : DB} (hinv : Inv db) (hq : QuotaInv db)
    {t : TrieNode} (ht : t ∈ db.trieNodes)
    {f : FileNode} {U : User → User} {F : FileNode → FileNode}
    (hgu : ∀ u ∈ db.users, (U u).ID = u.ID ∧ (U u).QuotaUsed
      = u.QuotaUsed + (if f.IsDeduped = false ∧ u.ID = t.OwnerID then f.Size else 0))
    (hgf : ∀ x ∈ db.fileNodes, (F x).TrieNodeID = x.TrieNodeID ∧
      (F x).IsDeduped = x.IsDeduped ∧ (F x).Size = x.Size)
    (hft : f.TrieNodeID = t.ID)
    (hU : D.users = db.users.map U)
    (hT : D.trieNodes = db.trieNodes)
    (hF : D.fileNodes = db.fileNodes.map F ++ [f]) :
    QuotaInv D := by
  have hown : ∀ x : FileNode, ownerOf D x = ownerOf db x := by
    intro x; unfold ownerOf; rw [hT]
  have hownf : ownerOf db f = some t.OwnerID := ownerOf_of_mem hinv ht hft
  have hch : ∀ k, charged D k
      = charged db k + (if f.IsDeduped = false ∧ k = t.OwnerID then f.Size else 0) := by
    intro k
    unfold charged
    rw [hF, List.filter_append, List.map_append, List.sum_append, List.filter_map,
      List.map_map]
    congr 1
    · have e1 : List.filter ((fun x => !x.IsDeduped && ownerOf D x == some k) ∘ F)
          db.fileNodes
          = List.filter (fun x => !x.IsDeduped && ownerOf db x == some k) db.fileNodes := by
        apply List.filter_congr
        intro x hx
        simp only [Function.comp, hown]
        rw [(hgf x hx).2.1]
        unfold ownerOf
        rw [(hgf x hx).1]
      rw [e1]
      congr 1
      apply List.map_congr_left
      intro x hx
      exact (hgf x (List.mem_of_mem_filter hx)).2.2
    · have e2 : ownerOf D f = some t.OwnerID := by rw [hown, hownf]
      by_cases hd : f.IsDeduped = false
      · by_cases hk : k = t.OwnerID
        · subst hk; simp [List.filter_cons, e2, hd]
        · have : ¬ t.OwnerID = k := fun e => hk e.symm
          simp [List.filter_cons, e2, hd, hk, this]
      · simp at hd
        simp [List.filter_cons, hd]
  intro u hu
  rw [hU, List.mem_map] at hu
  obtain ⟨x, hx, rfl⟩ := hu
  rw [(hgu x hx).1, (hgu x hx).2, hch, hq x hx]

theorem Inv_detach {db D : DB} (hinv : Inv db)
    {t : TrieNode} (ht : t ∈ db.trieNodes) (htf : t.NodeType = "file")
    {fn : FileNode} (hfn : fn ∈ db.fileNodes) (hft : fn.TrieNodeID = t.ID)
    {b : DataBlock} (hb : b ∈ db.dataBlocks) (hbid : b.ID = fn.DataBlockID)
    {U : User → User} (hgu : ∀ u ∈ db.users, (U u).ID = u.ID)
    (hU : D.users = db.users.map U) (hUn : D.nextUserID = db.nextUserID)
    (hT : D.trieNodes = db.trieNodes.filter (fun x => decide (x.ID ≠ t.ID)))
    (hTn : D.nextTrieNodeID = db.nextTrieNodeID)
    (hF : D.fileNodes = db.fileNodes.filter (fun x => decide (x.ID ≠ fn.ID)))
    (hFn : D.nextFileNodeID = db.nextFileNodeID)
    (hBn : D.nextDataBlockID = db.nextDataBlockID)
    (hB : (b.RefCount - 1 ≤ 0 ∧ D.dataBlocks = db.dataBlocks) ∨
          (¬ b.RefCount - 1 ≤ 0 ∧ ∃ b1 : DataBlock, b1.ID = b.ID ∧ b1.Hash = b.Hash ∧
            b1.RefCount = b.RefCount - 1 ∧
            D.dataBlocks = db.dataBlocks.map (fun x => if x.ID = b.ID then b1 else x))) :
    Inv D ∧ ∀ f ∈ D.fileNodes, f.TrieNodeID ≠ t.ID := by
  have refs2 : ∀ k, refsByID db k = refsByID D k + (if fn.DataBlockID = k then 1 else 0) := by
    intro k
    unfold refsByID
    rw [hF, countP_filter_key FileNode.ID _ db.fileNodes fn hinv.seq.files.1 hfn]
    simp
  have bat2 : ∀ k, bindingsAt db k = bindingsAt D k + (if fn.TrieNodeID = k then 1 else 0) := by
    intro k
    unfold bindingsAt
    rw [hF, countP_filter_key FileNode.ID _ db.fileNodes fn hinv.seq.files.1 hfn]
    simp
  have other : ∀ f ∈ D.fileNodes, f.TrieNodeID ≠ t.ID := by
    intro f hf hftid
    have h1 := hinv.bind.single t ht htf
    rw [bat2, if_pos hft] at h1
    have h2 : 0 < bindingsAt D t.ID := by
      unfold bindingsAt
      rw [List.countP_pos_iff]
      exact ⟨f, hf, by simpa using hftid⟩
    omega
  have hfsub : ∀ f ∈ D.fileNodes, f ∈ db.fileNodes := by
    intro f hf; rw [hF] at hf; exact List.mem_of_mem_filter hf
  have husers : IdsOK User.ID D.users D.nextUserID := by
    rw [hU, hUn]; exact hinv.seq.users.map U hgu
  have hnodes : IdsOK TrieNode.ID D.trieNodes D.nextTrieNodeID := by
    rw [hT, hTn]; exact hinv.seq.nodes.filter _
  have hfiles : IdsOK FileNode.ID D.fileNodes D.nextFileNodeID := by
    rw [hF, hFn]; exact hinv.seq.files.filter _
  have htrie : TrieInv D := by
    have hsub : ∀ n ∈ D.trieNodes, n ∈ db.trieNodes := by
      intro n hn; rw [hT] at hn; exact List.mem_of_mem_filter hn
    constructor
    · intro n hn hp; exact hinv.trie.root n (hsub n hn) hp
    · intro m hm pid hp
      obtain ⟨h1, h2, q, hq, hqid, hqo, hqk, hqp⟩ := hinv.trie.child m (hsub m hm) pid hp
      refine ⟨h1, h2, q, ?_, hqid, hqo, hqk, hqp⟩
      rw [hT, List.mem_filter]
      refine ⟨hq, ?_⟩
      simp only [decide_eq_true_eq]
      intro e
      have : q = t := hinv.seq.nodes.eq_of_key hq ht e
      rw [this] at hqk
      exact hqk htf
    · intro n hn; exact hinv.trie.nonempty n (hsub n hn)
    · intro a ha c hc; exact hinv.trie.unique a (hsub a ha) c (hsub c hc)
  have hnode : ∀ f1 ∈ D.fileNodes, ∃ t1 ∈ D.trieNodes, t1.ID = f1.TrieNodeID ∧
      ∃ u ∈ D.users, u.ID = t1.OwnerID := by
    intro f1 hf1
    obtain ⟨t1, ht1, hid, u, hu, huid⟩ := hinv.bind.node f1 (hfsub f1 hf1)
    refine ⟨t1, ?_, hid, U u, by rw [hU]; exact List.mem_map_of_mem U hu,
      by rw [hgu u hu, huid]⟩
    rw [hT, List.mem_filter]
    refine ⟨ht1, ?_⟩
    simp only [decide_eq_true_eq]
    rw [hid]
    exact other f1 hf1
  have hsingle : ∀ t1 ∈ D.trieNodes, t1.NodeType = "file" → bindingsAt D t1.ID ≤ 1 := by
    intro t1 ht1 hfile
    rw [hT] at ht1
    have := hinv.bind.single t1 (List.mem_of_mem_filter ht1) hfile
    rw [bat2] at this
    omega
  refine ⟨?_, other⟩
  rcases hB with ⟨hz, hB2⟩ | ⟨hz, b1, hb1id, hb1h, hb1rc, hB2⟩
  · refine ⟨⟨husers, ?_, hnodes, hfiles⟩, htrie, ⟨?_, ?_, ?_, hnode, hsingle⟩⟩
    · rw [hB2, hBn]; exact hinv.seq.blocks
    · intro f1 hf1
      obtain ⟨y, hy, hyid, hyh⟩ := hinv.bind.block f1 (hfsub f1 hf1)
      exact ⟨y, by rw [hB2]; exact hy, hyid, hyh⟩
    · intro y hy
      rw [hB2] at hy
      have h1 := hinv.bind.refs y hy
      have h2 := refs2 y.ID
      split_ifs at h2 <;> omega
    · rw [hB2]; exact hinv.bind.hash
  · have hg : ∀ x ∈ db.dataBlocks, (if x.ID = b.ID then b1 else x).ID = x.ID ∧
        (if x.ID = b.ID then b1 else x).Hash = x.Hash := by
      intro x hx
      by_cases e : x.ID = b.ID
      · have : x = b := hinv.seq.blocks.eq_of_key hx hb e
        subst this
        simp [hb1id, hb1h]
      · simp [e]
    refine ⟨⟨husers, ?_, hnodes, hfiles⟩, htrie, ⟨?_, ?_, ?_, hnode, hsingle⟩⟩
    · rw [hB2, hBn]
      exact hinv.seq.blocks.map _ (fun x hx => (hg x hx).1)
    · intro f1 hf1
      obtain ⟨y, hy, hyid, hyh⟩ := hinv.bind.block f1 (hfsub f1 hf1)
      exact ⟨_, by rw [hB2]; exact List.mem_map_of_mem _ hy, by rw [(hg y hy).1, hyid],
        by rw [(hg y hy).2, hyh]⟩
    · intro y hy
      rw [hB2, List.mem_map] at hy
      obtain ⟨x, hx, rfl⟩ := hy
      rw [(hg x hx).1]
      have h1 := hinv.bind.refs x hx
      have h2 := refs2 x.ID
      by_cases e : x.ID = b.ID
      · have : x = b := hinv.seq.blocks.eq_of_key hx hb e
        subst this
        rw [if_pos hbid.symm] at h2
        rw [if_pos rfl, hb1rc]
        omega
      · rw [if_neg (by rw [← hbid]; exact fun e2 => e e2.symm)] at h2
        rw [if_neg e]
        omega
    · intro y1 hy1 y2 hy2 hh
      rw [hB2, List.mem_map] at hy1 hy2
      obtain ⟨x1, hx1, rfl⟩ := hy1
      obtain ⟨x2, hx2, rfl⟩ := hy2
      rw [(hg x1 hx1).2, (hg x2 hx2).2] at hh
      rw [hinv.bind.hash x1 hx1 x2 hx2 hh]

theorem QuotaInv_detach {db D : DB} (hinv : Inv db) (hq : QuotaInv db)
    {t : TrieNode} (ht : t ∈ db.trieNodes)
    {fn : FileNode} (hfn : fn ∈ db.fileNodes) (hft : fn.TrieNodeID = t.ID)
    (hother : ∀ f ∈ D.fileNodes, f.TrieNodeID ≠ t.ID)
    {U : User → User}
    (hgu : ∀ u ∈ db.users, (U u).ID = u.ID ∧ (U u).QuotaUsed
      = u.QuotaUsed - (if fn.IsDeduped = false ∧ u.ID = t.OwnerID then fn.Size else 0))
    (hU : D.users = db.users.map U)
    (hT : D.trieNodes = db.trieNodes.filter (fun x => decide (x.ID ≠ t.ID)))
    (hF : D.fileNodes = db.fileNodes.filter (fun x => decide (x.ID ≠ fn.ID))) :
    QuotaInv D := by
  have hown : ∀ f ∈ D.fileNodes, ownerOf D f = ownerOf db f := by
    intro f hf
    unfold ownerOf
    rw [hT, find?_filter_ne TrieNode.ID db.trieNodes f.TrieNodeID t.ID (hother f hf)]
  have hownf : ownerOf db fn = some t.OwnerID := ownerOf_of_mem hinv ht hft
  have hch : ∀ k, charged db k
      = charged D k + (if fn.IsDeduped = false ∧ k = t.OwnerID then fn.Size else 0) := by
    intro k
    have e1 : charged D k = ((D.fileNodes.filter
        (fun f => !f.IsDeduped && ownerOf db f == some k)).map (fun f => f.Size)).sum := by
      unfold charged
      congr 2
      apply List.filter_congr
      intro f hf
      rw [hown f hf]
    rw [e1]
    unfold charged
    rw [sum_filter_eq_sum_ite, sum_filter_eq_sum_ite, hF,
      sum_filter_key FileNode.ID _ db.fileNodes fn hinv.seq.files.1 hfn]
    congr 1
    rw [hownf]
    by_cases hd : fn.IsDeduped = false
    · by_cases hk : k = t.OwnerID
      · subst hk; simp [hd]
      · have : ¬ t.OwnerID = k := fun e => hk e.symm
        simp [hd, hk, this]
    · simp at hd
      simp [hd]
  intro u hu
  rw [hU, List.mem_map] at hu
  obtain ⟨x, hx, rfl⟩ := hu
  rw [(hgu x hx).1, (hgu x hx).2, hq x hx, hch x.ID]
  ring

theorem Inv_relabel {db D : DB} (hinv : Inv db)
    {G : TrieNode → TrieNode} {F : FileNode → FileNode}
    (hgt : ∀ x ∈ db.trieNodes, (G x).ID = x.ID ∧ (G x).Name = x.Name ∧
      (G x).Path = x.Path ∧ (G x).ParentID = x.ParentID ∧ (G x).OwnerID = x.OwnerID ∧
      ((G x).NodeType = "file" → x.NodeType = "file"))
    (hgf : ∀ x ∈ db.fileNodes, (F x).ID = x.ID ∧ (F x).TrieNodeID = x.TrieNodeID ∧
      (F x).DataBlockID = x.DataBlockID ∧ (F x).Hash = x.Hash ∧
      (F x).IsDeduped = x.IsDeduped ∧ (F x).Size = x.Size)
    (hU : D.users = db.users) (hUn : D.nextUserID = db.nextUserID)
    (hB : D.dataBlocks = db.dataBlocks) (hBn : D.nextDataBlockID = db.nextDataBlockID)
    (hT : D.trieNodes = db.trieNodes.map G) (hTn : D.nextTrieNodeID = db.nextTrieNodeID)
    (hF : D.fileNodes = db.fileNodes.map F)
    (hFn : D.nextFileNodeID = db.nextFileNodeID) :
    Inv D ∧ (QuotaInv db → QuotaInv D) := by
  have refs2 : ∀ k, refsByID D k = refsByID db k := by
    intro k
    unfold refsByID
    rw [hF, List.countP_map]
    apply List.countP_congr
    intro x hx
    simp [(hgf x hx).2.2.1]
  have bat2 : ∀ k, bindingsAt D k = bindingsAt db k := by
    intro k
    unfold bindingsAt
    rw [hF, List.countP_map]
    apply List.countP_congr
    intro x hx
    simp [(hgf x hx).2.1]
  have hown : ∀ x ∈ db.fileNodes, ownerOf D (F x) = ownerOf db x := by
    intro x hx
    obtain ⟨t, ht, htid, _⟩ := hinv.bind.node x hx
    unfold ownerOf
    rw [hT, (hgf x hx).2.1, ← htid, hinv.seq.nodes.find? ht]
    have hnodes2 : IdsOK TrieNode.ID (db.trieNodes.map G) db.nextTrieNodeID :=
      hinv.seq.nodes.map G (fun y hy => (hgt y hy).1)
    have := hnodes2.find? (List.mem_map_of_mem G ht)
    rw [(hgt t ht).1] at this
    rw [this]
    simp [(hgt t ht).2.2.2.2.1]
  refine ⟨⟨⟨?_, ?_, ?_, ?_⟩, ?_, ⟨?_, ?_, ?_, ?_, ?_⟩⟩, ?_⟩
  · rw [hU, hUn]; exact hinv.seq.users
  · rw [hB, hBn]; exact hinv.seq.blocks
  · rw [hT, hTn]; exact hinv.seq.nodes.map G (fun y hy => (hgt y hy).1)
  · rw [hF, hFn]; exact hinv.seq.files.map F (fun y hy => (hgf y hy).1)
  · constructor
    · intro n hn hp
      rw [hT, List.mem_map] at hn
      obtain ⟨x, hx, rfl⟩ := hn
      obtain ⟨_, e2, e3, e4, _, e6⟩ := hgt x hx
      rw [e4] at hp
      obtain ⟨r1, r2, r3⟩ := hinv.trie.root x hx hp
      exact ⟨by rw [e2, r1], by rw [e3, r2], fun h => r3 (e6 h)⟩
    · intro m hm pid hp
      rw [hT, List.mem_map] at hm
      obtain ⟨x, hx, rfl⟩ := hm
      obtain ⟨_, e2, e3, e4, e5, _⟩ := hgt x hx
      rw [e4] at hp
      obtain ⟨h1, h2, q, hq, hqid, hqo, hqk, hqp⟩ := hinv.trie.child x hx pid hp
      obtain ⟨q1, q2, q3, _, q5, q6⟩ := hgt q hq
      refine ⟨by rw [e2]; exact h1, by rw [e2]; exact h2, G q,
        by rw [hT]; exact List.mem_map_of_mem G hq, by rw [q1, hqid], by rw [q5, e5, hqo],
        fun h => hqk (q6 h), by rw [e3, q3, e2, hqp]⟩
    · intro n hn
      rw [hT, List.mem_map] at hn
      obtain ⟨x, hx, rfl⟩ := hn
      rw [(hgt x hx).2.2.1]
      exact hinv.trie.nonempty x hx
    · intro a ha c hc hao hap
      rw [hT, List.mem_map] at ha hc
      obtain ⟨x, hx, rfl⟩ := ha
      obtain ⟨y, hy, rfl⟩ := hc
      rw [(hgt x hx).2.2.2.2.1, (hgt y hy).2.2.2.2.1] at hao
      rw [(hgt x hx).2.2.1, (hgt y hy).2.2.1] at hap
      rw [hinv.trie.unique x hx y hy hao hap]
  · intro f1 hf1
    rw [hF, List.mem_map] at hf1
    obtain ⟨x, hx, rfl⟩ := hf1
    obtain ⟨y, hy, hyid, hyh⟩ := hinv.bind.block x hx
    exact ⟨y, by rw [hB]; exact hy, by rw [(hgf x hx).2.2.1, hyid],
      by rw [(hgf x hx).2.2.2.1, hyh]⟩
  · intro y hy
    rw [hB] at hy
    rw [refs2]; exact hinv.bind.refs y hy
  · rw [hB]; exact hinv.bind.hash
  · intro f1 hf1
    rw [hF, List.mem_map] at hf1
    obtain ⟨x, hx, rfl⟩ := hf1
    obtain ⟨t1, ht1, hid, hu⟩ := hinv.bind.node x hx
    refine ⟨G t1, by rw [hT]; exact List.mem_map_of_mem G ht1,
      by rw [(hgt t1 ht1).1, (hgf x hx).2.1, hid], ?_⟩
    rw [hU, (hgt t1 ht1).2.2.2.2.1]; exact hu
  · intro t1 ht1 hfile
    rw [hT, List.mem_map] at ht1
    obtain ⟨x, hx, rfl⟩ := ht1
    rw [bat2, (hgt x hx).1]
    exact hinv.bind.single x hx ((hgt x hx).2.2.2.2.2 hfile)
  · intro hq u hu
    rw [hU] at hu
    have : charged D u.ID = charged db u.ID := by
      unfold charged
      rw [hF, List.filter_map, List.map_map]
      have e1 : List.filter ((fun f => !f.IsDeduped && ownerOf D f == some u.ID) ∘ F)
          db.fileNodes
          = List.filter (fun f => !f.IsDeduped && ownerOf db f == some u.ID) db.fileNodes := by
        apply List.filter_congr
        intro x hx
        simp only [Function.comp]
        rw [hown x hx, (hgf x hx).2.2.2.2.1]
      rw [e1]
      congr 1
      apply List.map_congr_left
      intro x hx
      exact (hgf x (List.mem_of_mem_filter hx)).2.2.2.2.2
    rw [this]; exact hq u hu

/-! ## The operations preserve the invariant -/

theorem Insert_inv (fs : FileSystem) (filePath : String) (isFile : Bool) (userID : Nat)
    (hinv : Inv fs.DB) (hroot : RootOK fs userID) :
    Inv (Insert fs filePath isFile userID).2.DB ∧
    (QuotaInv fs.DB → QuotaInv (Insert fs filePath isFile userID).2.DB) ∧
    NodeExt userID fs.DB (Insert fs filePath isFile userID).2.DB ∧
    RootOK (Insert fs filePath isFile userID).2 userID ∧
    ∀ n, (Insert fs filePath isFile userID).1 = .ok n →
      n ∈ (Insert fs filePath isFile userID).2.DB.trieNodes ∧ n.OwnerID = userID ∧
      (∃ cp1, PathRel n.Path cp1) ∧
      (isFile = true → n.NodeType = "file" → fs.DB.nextTrieNodeID ≤ n.ID) := by
  obtain ⟨h1, h2, _, h4, h5⟩ := Insert_spec fs filePath isFile userID
    ⟨hinv.seq.nodes, hinv.trie⟩ hroot
  obtain ⟨i1, _, i3⟩ := Inv_nodeExt hinv h2 h1
  refine ⟨i1, i3, h2, ⟨?_, ?_, ?_, ?_⟩, h5⟩
  · rw [h4]
    obtain ⟨added, hadd, _⟩ := h2.added
    rw [hadd]; exact List.mem_append_left _ hroot.mem
  · rw [h4]; exact hroot.owner
  · rw [h4]; exact hroot.path
  · rw [h4]; exact hroot.kind

theorem ProcessFileUpload_inv (env : Env) (fs : FileSystem) (userID : Nat)
    (fileHeader : FileHeader) (dirPath : String) (hinv : Inv fs.DB) (hroot : RootOK fs userID) :
    Inv (ProcessFileUpload env fs userID fileHeader dirPath).2.DB ∧
    (QuotaInv fs.DB → QuotaInv (ProcessFileUpload env fs userID fileHeader dirPath).2.DB) := by
  unfold ProcessFileUpload
  dsimp only
  cases hu : fs.DB.users.find? (fun u => decide (u.ID = userID)) with
  | none => exact ⟨hinv, id⟩
  | some user =>
    dsimp only
    split_ifs with hquota
    · exact ⟨hinv, id⟩
    · obtain ⟨i1, i2, i3, _, i5⟩ := Insert_inv fs (filepathJoin dirPath fileHeader.Filename)
        true userID hinv hroot
      generalize Insert fs (filepathJoin dirPath fileHeader.Filename) true userID = r at *
      obtain ⟨res, fs1⟩ := r
      cases res with
      | error e => exact ⟨i1, i2⟩
      | ok trieNode =>
        dsimp only at i1 i2 i3 i5 ⊢
        obtain ⟨t1, t2, _, t4⟩ := i5 trieNode rfl
        have hum : user ∈ fs1.DB.users := by
          rw [i3.users]; exact List.mem_of_find?_eq_some hu
        have huid : user.ID = userID := by simpa using List.find?_some hu
        have hupos : user.ID ≠ 0 := by
          have := (i1.seq.users.2.2 user hum).1; omega
        have htu : ∃ u ∈ fs1.DB.users, u.ID = trieNode.OwnerID :=
          ⟨user, hum, by rw [huid, t2]⟩
        have htf : trieNode.NodeType = "file" → bindingsAt fs1.DB trieNode.ID = 0 := by
          intro hfile
          have hfresh := t4 rfl hfile
          have e : bindingsAt fs1.DB trieNode.ID = bindingsAt fs.DB trieNode.ID := by
            unfold bindingsAt; rw [i3.fileNodes]
          rw [e]; exact bindingsAt_fresh hinv hfresh
        cases hb : fs1.DB.dataBlocks.find? (fun b => decide (b.Hash = env.calculateHash
            fileHeader.Data)) with
        | some found =>
          dsimp only
          have hfm : found ∈ fs1.DB.dataBlocks := List.mem_of_find?_eq_some hb
          have hfh : found.Hash = env.calculateHash fileHeader.Data := by
            simpa using List.find?_some hb
          have hfpos : found.ID ≠ 0 := by
            have := (i1.seq.blocks.2.2 found hfm).1; omega
          have hdb : (((fs1.DB.saveDataBlock { found with RefCount := found.RefCount + 1 }).saveUser
                { user with StorageSaved := user.StorageSaved + (fileHeader.Data.length : Int) }
              ).createFileNode
                { ID := 0, TrieNodeID := trieNode.ID, OriginalName := fileHeader.Filename,
                  Hash := env.calculateHash fileHeader.Data,
                  Size := (fileHeader.Data.length : Int), MimeType := fileHeader.ContentType,
                  ActualMimeType := env.detectContentType fileHeader.Data,
                  DataBlockID := found.ID, RefCount := 1, Downloads := 0, Tags := "",
                  IsDeduped := true }).2
              = { fs1.DB with
                  users := fs1.DB.users.map (fun x => if x.ID = user.ID then
                    { user with StorageSaved := user.StorageSaved
                        + (fileHeader.Data.length : Int) } else x),
                  dataBlocks := fs1.DB.dataBlocks.map (fun x => if x.ID = found.ID then
                    { found with RefCount := found.RefCount + 1 } else x),
                  fileNodes := fs1.DB.fileNodes.map id ++
                    [{ ID := fs1.DB.nextFileNodeID, TrieNodeID := trieNode.ID,
                       OriginalName := fileHeader.Filename,
                       Hash := env.calculateHash fileHeader.Data,
                       Size := (fileHeader.Data.length : Int),
                       MimeType := fileHeader.ContentType,
                       ActualMimeType := env.detectContentType fileHeader.Data,
                       DataBlockID := found.ID, RefCount := 1, Downloads := 0, Tags := "",
                       IsDeduped := true }],
                  nextFileNodeID := fs1.DB.nextFileNodeID + 1 } := by
            simp [DB.saveUser, DB.saveDataBlock, DB.createFileNode, hupos, hfpos]
          rw [hdb]
          constructor
          · refine Inv_attach (b := { found with RefCount := found.RefCount + 1 })
              i1 t1 htu htf ?_ ?_ rfl rfl rfl hfh.symm rfl rfl rfl rfl rfl rfl ?_
            · intro u _; by_cases e : u.ID = user.ID <;> simp [e]
            · intro x _; simp
            · exact Or.inl ⟨found, hfm, rfl, rfl, rfl, rfl, rfl⟩
          · intro hq
            refine QuotaInv_attach i1 (i2 hq) t1 ?_ ?_ rfl rfl rfl rfl
            · intro u hu2
              by_cases e : u.ID = user.ID
              · have : u = user := i1.seq.users.eq_of_key hu2 hum e
                subst this
                simp
              · simp [e]
            · intro x _; simp
        | none =>
          dsimp only
          rw [List.find?_eq_none] at hb
          have hdb : (((fs1.DB.createDataBlock
                { ID := 0, Hash := env.calculateHash fileHeader.Data, Data := fileHeader.Data,
                  Size := (fileHeader.Data.length : Int), RefCount := 1 }).2.saveUser
                { user with QuotaUsed := user.QuotaUsed + (fileHeader.Data.length : Int) }
              ).createFileNode
                { ID := 0, TrieNodeID := trieNode.ID, OriginalName := fileHeader.Filename,
                  Hash := env.calculateHash fileHeader.Data,
                  Size := (fileHeader.Data.length : Int), MimeType := fileHeader.ContentType,
                  ActualMimeType := env.detectContentType fileHeader.Data,
                  DataBlockID := (fs1.DB.createDataBlock
                    { ID := 0, Hash := env.calculateHash fileHeader.Data,
                      Data := fileHeader.Data, Size := (fileHeader.Data.length : Int),
                      RefCount := 1 }).1.ID,
                  RefCount := 1, Downloads := 0, Tags := "", IsDeduped := false }).2
              = { fs1.DB with
                  users := fs1.DB.users.map (fun x => if x.ID = user.ID then
                    { user with QuotaUsed := user.QuotaUsed
                        + (fileHeader.Data.length : Int) } else x),
                  dataBlocks := fs1.DB.dataBlocks ++
                    [{ ID := fs1.DB.nextDataBlockID, Hash := env.calculateHash fileHeader.Data,
                       Data := fileHeader.Data, Size := (fileHeader.Data.length : Int),
                       RefCount := 1 }],
                  nextDataBlockID := fs1.DB.nextDataBlockID + 1,
                  fileNodes := fs1.DB.fileNodes.map id ++
                    [{ ID := fs1.DB.nextFileNodeID, TrieNodeID := trieNode.ID,
                       OriginalName := fileHeader.Filename,
                       Hash := env.calculateHash fileHeader.Data,
                       Size := (fileHeader.Data.length : Int),
                       MimeType := fileHeader.ContentType,
                       ActualMimeType := env.detectContentType fileHeader.Data,
                       DataBlockID := fs1.DB.nextDataBlockID, RefCount := 1, Downloads := 0,
                       Tags := "", IsDeduped := false }],
                  nextFileNodeID := fs1.DB.nextFileNodeID + 1 } := by
            simp [DB.saveUser, DB.createDataBlock, DB.createFileNode, hupos]
          rw [hdb]
          constructor
          · refine Inv_attach
              (b := { ID := fs1.DB.nextDataBlockID, Hash := env.calculateHash fileHeader.Data,
                      Data := fileHeader.Data, Size := (fileHeader.Data.length : Int),
                      RefCount := 1 })
              i1 t1 htu htf ?_ ?_ rfl rfl rfl rfl rfl rfl rfl rfl rfl rfl ?_
            · intro u _; by_cases e : u.ID = user.ID <;> simp [e]
            · intro x _; simp
            · exact Or.inr ⟨fun x hx => by simpa using hb x hx, rfl, rfl, rfl, rfl⟩
          · intro hq
            refine QuotaInv_attach i1 (i2 hq) t1 ?_ ?_ rfl rfl rfl rfl
            · intro u hu2
              by_cases e : u.ID = user.ID
              · have : u = user := i1.seq.users.eq_of_key hu2 hum e
                subst this
                simp [huid, t2]
              · have : ¬ u.ID = trieNode.OwnerID := by rw [t2, ← huid]; exact e
                simp [e, this]
            · intro x _; simp

theorem Search_ok (fs : FileSystem) (filePath : String) (userID : Nat) (n : TrieNode)
    (hroot : RootOK fs userID) (h : Search fs filePath userID = .ok n) :
    n ∈ fs.DB.trieNodes ∧ n.OwnerID = userID := by
  unfold Search at h
  split_ifs at h with h1
  · simp only [Except.ok.injEq] at h
    subst h
    exact ⟨hroot.mem, hroot.owner⟩
  · split at h
    · simp at h
    · split at h
      · rename_i node hfind
        simp only [Except.ok.injEq] at h
        subst h
        have hp := List.find?_some hfind
        simp only [decide_eq_true_eq] at hp
        exact ⟨List.mem_of_find?_eq_some hfind, hp.2⟩
      · simp at h

theorem CreateHardLink_inv (fs : FileSystem) (src dst : String) (userID : Nat)
    (hinv : Inv fs.DB) (hroot : RootOK fs userID) :
    Inv (CreateHardLink fs src dst userID).2.DB ∧
    (QuotaInv fs.DB → QuotaInv (CreateHardLink fs src dst userID).2.DB) := by
  unfold CreateHardLink
  cases hs : Search fs src userID with
  | error e => exact ⟨hinv, id⟩
  | ok srcNode =>
    dsimp only
    obtain ⟨hsm, hso⟩ := Search_ok fs src userID srcNode hroot hs
    split_ifs with hkind
    · exact ⟨hinv, id⟩
    · cases hl : fs.DB.fileNodes.find? (fun f => decide (f.TrieNodeID = srcNode.ID)) with
      | none => exact ⟨hinv, id⟩
      | some loaded =>
        dsimp only
        obtain ⟨i1, i2, i3, _, i5⟩ := Insert_inv fs dst true userID hinv hroot
        generalize Insert fs dst true userID = r at *
        obtain ⟨res, fs1⟩ := r
        cases res with
        | error e => exact ⟨i1, i2⟩
        | ok dstNode =>
          dsimp only at i1 i2 i3 i5 ⊢
          obtain ⟨t1, t2, _, t4⟩ := i5 dstNode rfl
          have hlm0 : loaded ∈ fs.DB.fileNodes := List.mem_of_find?_eq_some hl
          have hlm : loaded ∈ fs1.DB.fileNodes := by rw [i3.fileNodes]; exact hlm0
          have hlt : loaded.TrieNodeID = srcNode.ID := by simpa using List.find?_some hl
          have hlpos : loaded.ID ≠ 0 := by
            have := (i1.seq.files.2.2 loaded hlm).1; omega
          have htu : ∃ u ∈ fs1.DB.users, u.ID = dstNode.OwnerID := by
            obtain ⟨t, ht, htid, u, hu, huid⟩ := hinv.bind.node loaded hlm0
            have : t = srcNode := hinv.seq.nodes.eq_of_key ht hsm (by rw [htid, hlt])
            subst this
            exact ⟨u, by rw [i3.users]; exact hu, by rw [huid, hso, t2]⟩
          have htf : dstNode.NodeType = "file" → bindingsAt fs1.DB dstNode.ID = 0 := by
            intro hfile
            have hfresh := t4 rfl hfile
            have e : bindingsAt fs1.DB dstNode.ID = bindingsAt fs.DB dstNode.ID := by
              unfold bindingsAt; rw [i3.fileNodes]
            rw [e]; exact bindingsAt_fresh hinv hfresh
          obtain ⟨b0, hb0, hb0id, hb0h⟩ := i1.bind.block loaded hlm
          have hb0pos : b0.ID ≠ 0 := by
            have := (i1.seq.blocks.2.2 b0 hb0).1; omega
          have hfindb : fs1.DB.dataBlocks.find? (fun b => decide (b.ID = loaded.DataBlockID))
              = some b0 := by
            rw [← hb0id]; exact i1.seq.blocks.find? hb0
          have hdb : (((fs1.DB.saveFileNode { loaded with RefCount := loaded.RefCount + 1 }
                ).saveDataBlock
                  { ((((fs1.DB.saveFileNode { loaded with RefCount := loaded.RefCount + 1 }
                      ).dataBlocks.find? (fun b => decide (b.ID = loaded.DataBlockID))).getD
                      DataBlock.zero)) with
                    RefCount := ((((fs1.DB.saveFileNode
                      { loaded with RefCount := loaded.RefCount + 1 }
                      ).dataBlocks.find? (fun b => decide (b.ID = loaded.DataBlockID))).getD
                      DataBlock.zero)).RefCount + 1 }).createFileNode
                { ID := 0, TrieNodeID := dstNode.ID, OriginalName := loaded.OriginalName,
                  Hash := loaded.Hash, Size := loaded.Size, MimeType := loaded.MimeType,
                  ActualMimeType := loaded.ActualMimeType, DataBlockID := loaded.DataBlockID,
                  RefCount := 1, Downloads := 0, Tags := "", IsDeduped := true }).2
              = { fs1.DB with
                  users := fs1.DB.users.map id
                  dataBlocks := fs1.DB.dataBlocks.map (fun x => if x.ID = b0.ID then
                    { b0 with RefCount := b0.RefCount + 1 } else x),
                  fileNodes := fs1.DB.fileNodes.map (fun x => if x.ID = loaded.ID then
                      { loaded with RefCount := loaded.RefCount + 1 } else x) ++
                    [{ ID := fs1.DB.nextFileNodeID, TrieNodeID := dstNode.ID,
                       OriginalName := loaded.OriginalName,
                       Hash := loaded.Hash, Size := loaded.Size, MimeType := loaded.MimeType,
                       ActualMimeType := loaded.ActualMimeType,
                       DataBlockID := loaded.DataBlockID,
                       RefCount := 1, Downloads := 0, Tags := "", IsDeduped := true }],
                  nextFileNodeID := fs1.DB.nextFileNodeID + 1 } := by
            have e1 : (fs1.DB.saveFileNode { loaded with RefCount := loaded.RefCount + 1 }
                ).dataBlocks = fs1.DB.dataBlocks := by
              simp [DB.saveFileNode, hlpos]
            rw [e1, hfindb]
            simp [DB.saveFileNode, DB.saveDataBlock, DB.createFileNode, hlpos, hb0pos]
          rw [hdb]
          have hgf : ∀ x ∈ fs1.DB.fileNodes,
              (if x.ID = loaded.ID then { loaded with RefCount := loaded.RefCount + 1 }
                else x) = { x with RefCount := (if x.ID = loaded.ID then x.RefCount + 1
                  else x.RefCount) } := by
            intro x hx
            by_cases e : x.ID = loaded.ID
            · have : x = loaded := i1.seq.files.eq_of_key hx hlm e
              subst this
              simp
            · simp [e]
          constructor
          · refine Inv_attach (b := { b0 with RefCount := b0.RefCount + 1 }) (U := id)
              (F := fun x => if x.ID = loaded.ID then
                { loaded with RefCount := loaded.RefCount + 1 } else x)
              (f := { ID := fs1.DB.nextFileNodeID, TrieNodeID := dstNode.ID,
                       OriginalName := loaded.OriginalName,
                       Hash := loaded.Hash, Size := loaded.Size, MimeType := loaded.MimeType,
                       ActualMimeType := loaded.ActualMimeType,
                       DataBlockID := loaded.DataBlockID,
                       RefCount := 1, Downloads := 0, Tags := "", IsDeduped := true })
              i1 t1 htu htf ?_ ?_ rfl rfl hb0id.symm hb0h.symm rfl rfl rfl rfl rfl rfl ?_
            · intro u _; rfl
            · intro x hx; dsimp only; rw [hgf x hx]; simp
            · exact Or.inl ⟨b0, hb0, rfl, rfl, rfl, rfl, rfl⟩
          · intro hq
            refine QuotaInv_attach (U := id)
              (F := fun x => if x.ID = loaded.ID then
                { loaded with RefCount := loaded.RefCount + 1 } else x)
              (f := { ID := fs1.DB.nextFileNodeID, TrieNodeID := dstNode.ID,
                       OriginalName := loaded.OriginalName,
                       Hash := loaded.Hash, Size := loaded.Size, MimeType := loaded.MimeType,
                       ActualMimeType := loaded.ActualMimeType,
                       DataBlockID := loaded.DataBlockID,
                       RefCount := 1, Downloads := 0, Tags := "", IsDeduped := true })
              i1 (i2 hq) t1 ?_ ?_ rfl rfl rfl rfl
            · intro u _; simp
            · intro x hx; dsimp only; rw [hgf x hx]; simp

theorem CreateSoftLink_inv (fs : FileSystem) (src dst : String) (userID : Nat)
    (hinv : Inv fs.DB) (hroot : RootOK fs userID) :
    Inv (CreateSoftLink fs src dst userID).2.DB ∧
    (QuotaInv fs.DB → QuotaInv (CreateSoftLink fs src dst userID).2.DB) := by
  unfold CreateSoftLink
  obtain ⟨i1, i2, _, _, i5⟩ := Insert_inv fs dst false userID hinv hroot
  generalize Insert fs dst false userID = r at *
  obtain ⟨res, fs1⟩ := r
  cases res with
  | error e => exact ⟨i1, i2⟩
  | ok dstNode =>
    dsimp only at i1 i2 i5 ⊢
    obtain ⟨t1, _, _, _⟩ := i5 dstNode rfl
    have hpos : dstNode.ID ≠ 0 := by
      have := (i1.seq.nodes.2.2 dstNode t1).1; omega
    have hdb : ((fs1.DB.saveTrieNode { dstNode with NodeType := "symlink" }).createSymLinkNode
          { ID := 0, TrieNodeID := dstNode.ID, TargetPath := src }).2
        = { fs1.DB with
            trieNodes := fs1.DB.trieNodes.map (fun x => if x.ID = dstNode.ID then
              { dstNode with NodeType := "symlink" } else x),
            fileNodes := fs1.DB.fileNodes.map id,
            symLinkNodes := fs1.DB.symLinkNodes ++
              [{ ID := fs1.DB.nextSymLinkNodeID, TrieNodeID := dstNode.ID, TargetPath := src }],
            nextSymLinkNodeID := fs1.DB.nextSymLinkNodeID + 1 } := by
      simp [DB.saveTrieNode, DB.createSymLinkNode, hpos]
    rw [hdb]
    have := Inv_relabel (D := { fs1.DB with
            trieNodes := fs1.DB.trieNodes.map (fun x => if x.ID = dstNode.ID then
              { dstNode with NodeType := "symlink" } else x),
            fileNodes := fs1.DB.fileNodes.map id,
            symLinkNodes := fs1.DB.symLinkNodes ++
              [{ ID := fs1.DB.nextSymLinkNodeID, TrieNodeID := dstNode.ID, TargetPath := src }],
            nextSymLinkNodeID := fs1.DB.nextSymLinkNodeID + 1 }) i1
      (G := fun x => if x.ID = dstNode.ID then { dstNode with NodeType := "symlink" } else x)
      (F := id) ?_ ?_ rfl rfl rfl rfl rfl rfl rfl rfl
    · exact ⟨this.1, fun hq => this.2 (i2 hq)⟩
    · intro x hx
      by_cases e : x.ID = dstNode.ID
      · have : x = dstNode := i1.seq.nodes.eq_of_key hx t1 e
        subst this
        simp
      · simp [e]
    · intro x _; simp

theorem DeleteFile_inv (fs : FileSystem) (filePath : String) (userID : Nat)
    (hinv : Inv fs.DB) (hroot : RootOK fs userID) :
    Inv (DeleteFile fs filePath userID).2.DB ∧
    (QuotaInv fs.DB → QuotaInv (DeleteFile fs filePath userID).2.DB) := by
  unfold DeleteFile
  cases hs : Search fs filePath userID with
  | error e => exact ⟨hinv, id⟩
  | ok trieNode =>
    dsimp only
    obtain ⟨hsm, hso⟩ := Search_ok fs filePath userID trieNode hroot hs
    split_ifs with hkind
    · exact ⟨hinv, id⟩
    · have hfile : trieNode.NodeType = "file" := by simpa using hkind
      cases hl : fs.DB.fileNodes.find? (fun f => decide (f.TrieNodeID = trieNode.ID)) with
      | none => exact ⟨hinv, id⟩
      | some loaded =>
        dsimp only
        have hlm : loaded ∈ fs.DB.fileNodes := List.mem_of_find?_eq_some hl
        have hlt : loaded.TrieNodeID = trieNode.ID := by simpa using List.find?_some hl
        have hlpos : loaded.ID ≠ 0 := by
          have := (hinv.seq.files.2.2 loaded hlm).1; omega
        have htpos : trieNode.ID ≠ 0 := by
          have := (hinv.seq.nodes.2.2 trieNode hsm).1; omega
        obtain ⟨b0, hb0, hb0id, _⟩ := hinv.bind.block loaded hlm
        have hb0pos : b0.ID ≠ 0 := by
          have := (hinv.seq.blocks.2.2 b0 hb0).1; omega
        have hfindb : fs.DB.dataBlocks.find? (fun b => decide (b.ID = loaded.DataBlockID))
            = some b0 := by
          rw [← hb0id]; exact hinv.seq.blocks.find? hb0
        obtain ⟨user, hum, huid⟩ : ∃ u ∈ fs.DB.users, u.ID = userID := by
          obtain ⟨t, ht, htid, u, hu, huid⟩ := hinv.bind.node loaded hlm
          have : t = trieNode := hinv.seq.nodes.eq_of_key ht hsm (by rw [htid, hlt])
          subst this
          exact ⟨u, hu, by rw [huid, hso]⟩
        have hupos : user.ID ≠ 0 := by
          have := (hinv.seq.users.2.2 user hum).1; omega
        have hfindu : fs.DB.users.find? (fun u => decide (u.ID = userID)) = some user := by
          rw [← huid]; exact hinv.seq.users.find? hum
        rw [hfindb]
        simp only [Option.getD_some]
        by_cases hrc : loaded.RefCount - 1 ≤ 0
        · rw [if_pos hrc]
          dsimp only
          have hdb : (if ¬ loaded.IsDeduped = true then
                ((((if b0.RefCount - 1 ≤ 0 then
                      fs.DB.deleteDataBlock { b0 with RefCount := b0.RefCount - 1 }
                    else fs.DB.saveDataBlock { b0 with RefCount := b0.RefCount - 1 }
                    ).deleteFileNode { loaded with RefCount := loaded.RefCount - 1 }
                    ).deleteTrieNode trieNode).saveUser
                  { ((((((if b0.RefCount - 1 ≤ 0 then
                      fs.DB.deleteDataBlock { b0 with RefCount := b0.RefCount - 1 }
                    else fs.DB.saveDataBlock { b0 with RefCount := b0.RefCount - 1 }
                    ).deleteFileNode { loaded with RefCount := loaded.RefCount - 1 }
                    ).deleteTrieNode trieNode).users.find?
                      (fun u => decide (u.ID = userID))).getD User.zero)) with
                    QuotaUsed := ((((((if b0.RefCount - 1 ≤ 0 then
                      fs.DB.deleteDataBlock { b0 with RefCount := b0.RefCount - 1 }
                    else fs.DB.saveDataBlock { b0 with RefCount := b0.RefCount - 1 }
                    ).deleteFileNode { loaded with RefCount := loaded.RefCount - 1 }
                    ).deleteTrieNode trieNode).users.find?
                      (fun u => decide (u.ID = userID))).getD User.zero)).QuotaUsed
                        - loaded.Size })
              else
                (((if b0.RefCount - 1 ≤ 0 then
                      fs.DB.deleteDataBlock { b0 with RefCount := b0.RefCount - 1 }
                    else fs.DB.saveDataBlock { b0 with RefCount := b0.RefCount - 1 }
                    ).deleteFileNode { loaded with RefCount := loaded.RefCount - 1 }
                    ).deleteTrieNode trieNode))
              = { fs.DB with
                  users := fs.DB.users.map (fun x =>
                    if loaded.IsDeduped = false ∧ x.ID = user.ID then
                      { user with QuotaUsed := user.QuotaUsed - loaded.Size } else x),
                  dataBlocks := if b0.RefCount - 1 ≤ 0 then fs.DB.dataBlocks
                    else fs.DB.dataBlocks.map (fun x => if x.ID = b0.ID then
                      { b0 with RefCount := b0.RefCount - 1 } else x),
                  trieNodes := fs.DB.trieNodes.filter (fun x => decide (x.ID ≠ trieNode.ID)),
                  fileNodes := fs.DB.fileNodes.filter (fun x => decide (x.ID ≠ loaded.ID)) } := by
            have eu : ∀ d : DB, d.users = fs.DB.users →
                (d.users.find? (fun u => decide (u.ID = userID))).getD User.zero = user := by
              intro d hd; rw [hd, hfindu]; rfl
            have hany : (fs.DB.fileNodes.any fun f => decide (f.DataBlockID = b0.ID)) = true :=
              List.any_eq_true.2 ⟨loaded, hlm, by simp [hb0id]⟩
            cases hd : loaded.IsDeduped <;> by_cases hz : b0.RefCount - 1 ≤ 0
            · rw [eu _ (by simp [DB.deleteDataBlock, DB.deleteFileNode, DB.deleteTrieNode,
                hz, hb0pos, hlpos, htpos, hany])]
              simp [DB.deleteDataBlock, DB.deleteFileNode, DB.deleteTrieNode,
                DB.saveUser, hz, hb0pos, hlpos, htpos, hany, hupos]
            · rw [eu _ (by simp [DB.saveDataBlock, DB.deleteFileNode, DB.deleteTrieNode,
                hz, hb0pos, hlpos, htpos, hany])]
              simp [DB.saveDataBlock, DB.deleteFileNode, DB.deleteTrieNode,
                DB.saveUser, hz, hb0pos, hlpos, htpos, hany, hupos]
            · simp [DB.deleteDataBlock, DB.deleteFileNode, DB.deleteTrieNode,
                hz, hb0pos, hlpos, htpos, hany]
            · simp [DB.saveDataBlock, DB.deleteFileNode, DB.deleteTrieNode,
                hz, hb0pos, hlpos, htpos, hany]
          rw [hdb]
          have hgu : ∀ u ∈ fs.DB.users,
              (if loaded.IsDeduped = false ∧ u.ID = user.ID then
                { user with QuotaUsed := user.QuotaUsed - loaded.Size } else u).ID = u.ID ∧
              (if loaded.IsDeduped = false ∧ u.ID = user.ID then
                { user with QuotaUsed := user.QuotaUsed - loaded.Size } else u).QuotaUsed
                = u.QuotaUsed - (if loaded.IsDeduped = false ∧ u.ID = trieNode.OwnerID
                    then loaded.Size else 0) := by
            intro u hu
            rw [hso, ← huid]
            by_cases e : loaded.IsDeduped = false ∧ u.ID = user.ID
            · have : u = user := hinv.seq.users.eq_of_key hu hum e.2
              subst this
              simp [e]
            · simp [e]
          have hdet := Inv_detach (D := { fs.DB with
                  users := fs.DB.users.map (fun x =>
                    if loaded.IsDeduped = false ∧ x.ID = user.ID then
                      { user with QuotaUsed := user.QuotaUsed - loaded.Size } else x),
                  dataBlocks := if b0.RefCount - 1 ≤ 0 then fs.DB.dataBlocks
                    else fs.DB.dataBlocks.map (fun x => if x.ID = b0.ID then
                      { b0 with RefCount := b0.RefCount - 1 } else x),
                  trieNodes := fs.DB.trieNodes.filter (fun x => decide (x.ID ≠ trieNode.ID)),
                  fileNodes := fs.DB.fileNodes.filter (fun x => decide (x.ID ≠ loaded.ID)) })
            hinv hsm hfile hlm hlt hb0 hb0id
            (U := fun x => if loaded.IsDeduped = false ∧ x.ID = user.ID then
                      { user with QuotaUsed := user.QuotaUsed - loaded.Size } else x)
            (fun u hu => (hgu u hu).1) rfl rfl rfl rfl rfl rfl rfl
            (by
              by_cases hz : b0.RefCount - 1 ≤ 0
              · exact Or.inl ⟨hz, by simp [hz]⟩
              · exact Or.inr ⟨hz, { b0 with RefCount := b0.RefCount - 1 }, rfl, rfl, rfl,
                  by simp [hz]⟩)
          refine ⟨hdet.1, fun hq => ?_⟩
          exact QuotaInv_detach hinv hq hsm hlm hlt hdet.2
            (U := fun x => if loaded.IsDeduped = false ∧ x.ID = user.ID then
                      { user with QuotaUsed := user.QuotaUsed - loaded.Size } else x)
            hgu rfl rfl rfl
        · rw [if_neg hrc]
          dsimp only
          have hdb : fs.DB.saveFileNode { loaded with RefCount := loaded.RefCount - 1 }
              = { fs.DB with
                  trieNodes := fs.DB.trieNodes.map id,
                  fileNodes := fs.DB.fileNodes.map (fun x => if x.ID = loaded.ID then
                    { loaded with RefCount := loaded.RefCount - 1 } else x) } := by
            simp [DB.saveFileNode, hlpos]
          rw [hdb]
          refine Inv_relabel (G := id)
            (F := fun x => if x.ID = loaded.ID then
                    { loaded with RefCount := loaded.RefCount - 1 } else x)
            hinv ?_ ?_ rfl rfl rfl rfl rfl rfl rfl rfl
          · intro x _; simp
          · intro x hx
            by_cases e : x.ID = loaded.ID
            · have : x = loaded := hinv.seq.files.eq_of_key hx hlm e
              subst this
              simp
            · simp [e]

/-! ## Reachable states -/

theorem NewFileSystem_inv (db : DB) (userID : Nat) (hinv : Inv db) :
    Inv (NewFileSystem db userID).DB ∧
    (QuotaInv db → QuotaInv (NewFileSystem db userID).DB) ∧
    RootOK (NewFileSystem db userID) userID := by
  obtain ⟨h1, h2, _, h4⟩ := NewFileSystem_spec db userID ⟨hinv.seq.nodes, hinv.trie⟩
  obtain ⟨i1, _, i3⟩ := Inv_nodeExt hinv h2 h1
  exact ⟨i1, i3, h4⟩

theorem Op.run_inv (env : Env) (db : DB) (userID : Nat) (op : Op) (hinv : Inv db) :
    Inv (op.run env db userID) ∧ (QuotaInv db → QuotaInv (op.run env db userID)) := by
  obtain ⟨n1, n2, n3⟩ := NewFileSystem_inv db userID hinv
  cases op with
  | upload fileHeader dirPath =>
    obtain ⟨a, b⟩ := ProcessFileUpload_inv env _ userID fileHeader dirPath n1 n3
    exact ⟨a, fun hq => b (n2 hq)⟩
  | hardLink src dst =>
    obtain ⟨a, b⟩ := CreateHardLink_inv _ src dst userID n1 n3
    exact ⟨a, fun hq => b (n2 hq)⟩
  | softLink src dst =>
    obtain ⟨a, b⟩ := CreateSoftLink_inv _ src dst userID n1 n3
    exact ⟨a, fun hq => b (n2 hq)⟩
  | delete filePath =>
    obtain ⟨a, b⟩ := DeleteFile_inv _ filePath userID n1 n3
    exact ⟨a, fun hq => b (n2 hq)⟩
  | mkdir path =>
    obtain ⟨a, b, _⟩ := Insert_inv _ path false userID n1 n3
    exact ⟨a, fun hq => b (n2 hq)⟩
  | insert path isFile =>
    obtain ⟨a, b, _⟩ := Insert_inv _ path isFile userID n1 n3
    exact ⟨a, fun hq => b (n2 hq)⟩

theorem EmptyStore_inv {db : DB} (h : EmptyStore db) : Inv db := by
  refine ⟨⟨h.users, ?_, ?_, ?_⟩, ⟨?_, ?_, ?_, ?_⟩, ⟨?_, ?_, ?_, ?_, ?_⟩⟩
  · rw [h.dataBlocks]; exact ⟨by simp, h.nextDataBlockID, by simp⟩
  · rw [h.trieNodes]; exact ⟨by simp, h.nextTrieNodeID, by simp⟩
  · rw [h.fileNodes]; exact ⟨by simp, h.nextFileNodeID, by simp⟩
  all_goals simp [h.dataBlocks, h.trieNodes, h.fileNodes]

theorem Reachable_inv {env : Env} {allowed : Op → Prop} {init db : DB}
    (hinit : Inv init) (h : Reachable env allowed init db) : Inv db := by
  induction h with
  | start => exact hinit
  | step userID op _ _ ih => exact (Op.run_inv env _ userID op ih).1

theorem refsByHash_eq {db : DB} (hinv : Inv db) {b : DataBlock} (hb : b ∈ db.dataBlocks) :
    refsByHash db b.Hash = refsByID db b.ID := by
  unfold refsByHash refsByID
  apply List.countP_congr
  intro f hf
  obtain ⟨b1, hb1, hid, hh⟩ := hinv.bind.block f hf
  simp only [decide_eq_true_eq]
  constructor
  · intro e
    have : b1 = b := hinv.bind.hash b1 hb1 b hb (by rw [hh, e])
    rw [← hid, this]
  · intro e
    have : b1 = b := hinv.seq.blocks.eq_of_key hb1 hb (by rw [hid, e])
    rw [← hh, this]

/-! ## C1, C2: reference counts and conservation of quota -/

/-- What holds of the reference counts in every reachable state: the `RefCount` of
a stored block is at least the number of live bindings that reference it, counted
by `DataBlockID` and, equally, by `Hash`. -/
theorem refcount_lower_bound (env : Env) (allowed : Op → Prop) (init db : DB)
    (hinit : EmptyStore init) (hreach : Reachable env allowed init db) :
    ∀ b ∈ db.dataBlocks,
      (refsByID db b.ID : Int) ≤ b.RefCount ∧ (refsByHash db b.Hash : Int) ≤ b.RefCount := by
  intro b hb
  have hinv := Reachable_inv (EmptyStore_inv hinit) hreach
  exact ⟨hinv.bind.refs b hb, by rw [refsByHash_eq hinv hb]; exact hinv.bind.refs b hb⟩

theorem insertLoop_frame (isFile : Bool) (userID : Nat) :
    ∀ (parts : List String) (db : DB) (cur : TrieNode) (cp : String),
      NodeExt userID db (insertLoop isFile userID parts db cur cp).2 ∧
      db.nextTrieNodeID ≤ (insertLoop isFile userID parts db cur cp).2.nextTrieNodeID := by
  intro parts
  induction parts with
  | nil => intro db cur cp; rw [insertLoop_nil]; exact ⟨NodeExt.refl _ _, le_refl _⟩
  | cons part rest ih =>
    intro db cur cp
    cases hfind : db.trieNodes.find? (fun n =>
        decide (n.Name = part ∧ n.ParentID = some cur.ID ∧ n.OwnerID = userID)) with
    | none =>
      rw [insertLoop_cons_none _ _ _ _ _ _ _ hfind]
      obtain ⟨r1, r2⟩ := ih (db.withNode (newTrieNode db cur (filepathJoin cp part) part
        userID (rest.isEmpty && isFile))) (newTrieNode db cur (filepathJoin cp part) part userID
        (rest.isEmpty && isFile)) (filepathJoin cp part)
      rw [withNode_nextTrieNodeID] at r2
      exact ⟨(NodeExt_withNode userID db _ rfl rfl).trans r1 (by simp), by omega⟩
    | some ex =>
      rw [insertLoop_cons_some _ _ _ _ _ _ _ ex hfind]
      split_ifs
      · exact ⟨NodeExt.refl _ _, le_refl _⟩
      · exact ⟨NodeExt.refl _ _, le_refl _⟩
      · exact ih db ex (filepathJoin cp part)

theorem Insert_frame (fs : FileSystem) (filePath : String) (isFile : Bool) (userID : Nat) :
    NodeExt userID fs.DB (Insert fs filePath isFile userID).2.DB ∧
    (Insert fs filePath isFile userID).2.Root = fs.Root := by
  unfold Insert
  cases SplitPath filePath with
  | none => exact ⟨NodeExt.refl _ _, rfl⟩
  | some parts => exact ⟨(insertLoop_frame isFile userID parts fs.DB fs.Root "").1, rfl⟩

theorem find?_map_update {α : Type} (key : α → Nat) (l : List α) (k : Nat) (a1 : α)
    (hk : key a1 = k) :
    (l.map (fun x => if key x = k then a1 else x)).find? (fun x => decide (key x = k))
      = (l.find? (fun x => decide (key x = k))).map (fun _ => a1) := by
  induction l with
  | nil => simp
  | cons x xs ih =>
    rw [List.map_cons, List.find?_cons, List.find?_cons]
    by_cases hx : key x = k
    · simp [hx, hk]
    · simp [hx, ih]

theorem insertLoop_error_kind (isFile : Bool) (userID : Nat) :
    ∀ (parts : List String) (db : DB) (cur : TrieNode) (cp : String) (e : Error),
      (insertLoop isFile userID parts db cur cp).1 = .error e →
      e = .fileAlreadyExists ∨ e = .fileInsideFile := by
  intro parts
  induction parts with
  | nil => intro db cur cp e h; simp [insertLoop] at h
  | cons part rest ih =>
    intro db cur cp e h
    cases hfind : db.trieNodes.find? (fun n =>
        decide (n.Name = part ∧ n.ParentID = some cur.ID ∧ n.OwnerID = userID)) with
    | none =>
      rw [insertLoop_cons_none _ _ _ _ _ _ _ hfind] at h
      exact ih _ _ _ _ h
    | some ex =>
      rw [insertLoop_cons_some _ _ _ _ _ _ _ ex hfind] at h
      split_ifs at h
      · simp at h; exact Or.inl h.symm
      · simp at h; exact Or.inr h.symm
      · exact ih _ _ _ _ h

theorem Insert_error_kind (fs : FileSystem) (p : String) (isFile : Bool) (userID : Nat)
    (e : Error) (h : (Insert fs p isFile userID).1 = .error e) :
    e = .invalidPathReserved ∨ e = .fileAlreadyExists ∨ e = .fileInsideFile := by
  unfold Insert at h
  split at h
  · simp at h; exact Or.inl h.symm
  · exact Or.inr (insertLoop_error_kind _ _ _ _ _ _ _ h)

/-- Below a node without children every remaining segment is created. -/
theorem insertLoop_fresh_ok (isFile : Bool) (userID : Nat) :
    ∀ (parts : List String) (db : DB) (cur : TrieNode) (cp : String),
      (∀ n ∈ db.trieNodes, n.ParentID ≠ some cur.ID) →
      (∀ n ∈ db.trieNodes, ∀ pid, n.ParentID = some pid → pid < db.nextTrieNodeID) →
      cur.ID < db.nextTrieNodeID →
      ∃ n, (insertLoop isFile userID parts db cur cp).1 = .ok n := by
  intro parts
  induction parts with
  | nil => intro db cur cp _ _ _; exact ⟨cur, by rw [insertLoop_nil]⟩
  | cons part rest ih =>
    intro db cur cp hno hfr hcur
    have hnone : db.trieNodes.find? (fun n =>
        decide (n.Name = part ∧ n.ParentID = some cur.ID ∧ n.OwnerID = userID)) = none := by
      rw [List.find?_eq_none]
      intro n hn
      simp [hno n hn]
    rw [insertLoop_cons_none _ _ _ _ _ _ _ hnone]
    apply ih
    · intro n hn
      rw [withNode_trieNodes, List.mem_append, List.mem_singleton] at hn
      rcases hn with hn | hn
      · intro h
        have := hfr n hn _ h
        simp [newTrieNode] at this
      · subst hn
        simp only [newTrieNode, ne_eq, Option.some.injEq]
        omega
    · intro n hn pid hp
      rw [withNode_trieNodes, List.mem_append, List.mem_singleton] at hn
      rw [withNode_nextTrieNodeID]
      rcases hn with hn | hn
      · have := hfr n hn pid hp; omega
      · subst hn
        simp only [newTrieNode, Option.some.injEq] at hp
        omega
    · rw [withNode_nextTrieNodeID]
      simp [newTrieNode]

theorem wrapInt64_of_range (x : Int) (h1 : -2 ^ 63 ≤ x) (h2 : x < 2 ^ 63) :
    wrapInt64 x = x := by
  unfold wrapInt64
  norm_num at h1 h2 ⊢
  omega

theorem wrapInt64_of_overflow (x : Int) (h1 : 2 ^ 63 ≤ x) (h2 : x < 2 ^ 64) :
    wrapInt64 x = x - 2 ^ 64 := by
  unfold wrapInt64
  norm_num at h1 h2 ⊢
  omega

/-- C4 (as the code has it). Scenario D, the accounts holding `int64` values and
the payload length being a Go `int`: when `QuotaUsed + len(payload) > QuotaMax` and
the sum does not exceed 2^63 - 1, `ProcessFileUpload` returns "quota exceeded" and
hands back the file system unchanged (no node, block, binding or account differs);
"quota exceeded" is returned only when the account exists and that inequality
holds; and when the sum exceeds 2^63 - 1 the test is made on the wrapped sum
`QuotaUsed + len(payload) - 2^64`. -/
theorem upload_quota_exceeded (env : Env) (fs : FileSystem) (userID : Nat)
    (fileHeader : FileHeader) (dirPath : String)
    (hrange : ∀ u ∈ fs.DB.users, -2 ^ 63 ≤ u.QuotaUsed ∧ u.QuotaUsed < 2 ^ 63 ∧
      -2 ^ 63 ≤ u.QuotaMax ∧ u.QuotaMax < 2 ^ 63)
    (hlen : (fileHeader.Data.length : Int) < 2 ^ 63) :
    (∀ user, fs.DB.users.find? (fun u => decide (u.ID = userID)) = some user →
        user.QuotaUsed + (fileHeader.Data.length : Int) < 2 ^ 63 →
        user.QuotaUsed + (fileHeader.Data.length : Int) > user.QuotaMax →
        ProcessFileUpload env fs userID fileHeader dirPath = (.error .quotaExceeded, fs)) ∧
    ((ProcessFileUpload env fs userID fileHeader dirPath).1 = .error .quotaExceeded →
        ∃ user, fs.DB.users.find? (fun u => decide (u.ID = userID)) = some user ∧
          user.QuotaUsed + (fileHeader.Data.length : Int) > user.QuotaMax) ∧
    (∀ user, fs.DB.users.find? (fun u => decide (u.ID = userID)) = some user →
        2 ^ 63 ≤ user.QuotaUsed + (fileHeader.Data.length : Int) →
        ((ProcessFileUpload env fs userID fileHeader dirPath).1 = .error .quotaExceeded ↔
          user.QuotaUsed + (fileHeader.Data.length : Int) - 2 ^ 64 > user.QuotaMax)) := by
  have hnn : (0 : Int) ≤ (fileHeader.Data.length : Int) := Int.natCast_nonneg _
  have herr : ∀ user, fs.DB.users.find? (fun u => decide (u.ID = userID)) = some user →
      ((ProcessFileUpload env fs userID fileHeader dirPath).1 = .error .quotaExceeded ↔
        wrapInt64 (user.QuotaUsed + (fileHeader.Data.length : Int)) > user.QuotaMax) := by
    intro user hu
    unfold ProcessFileUpload
    dsimp only
    rw [hu]
    dsimp only
    by_cases hq : wrapInt64 (user.QuotaUsed + (fileHeader.Data.length : Int)) > user.QuotaMax
    · rw [if_pos hq]
      exact ⟨fun _ => hq, fun _ => rfl⟩
    · rw [if_neg hq]
      constructor
      · intro h
        exfalso
        split at h
        · rename_i e fs1 hins
          simp only [Except.error.injEq] at h
          have := Insert_error_kind fs _ true userID e (by rw [hins])
          subst h
          simp at this
        · simp at h
      · intro h
        exact absurd h hq
  refine ⟨?_, ?_, ?_⟩
  · intro user hu hlt hq
    have hr := hrange user (List.mem_of_find?_eq_some hu)
    have hw : wrapInt64 (user.QuotaUsed + (fileHeader.Data.length : Int))
        = user.QuotaUsed + (fileHeader.Data.length : Int) :=
      wrapInt64_of_range _ (by linarith [hr.1]) hlt
    simp [ProcessFileUpload, hu, hw, hq]
  · intro h
    have hsome : ∃ user, fs.DB.users.find? (fun u => decide (u.ID = userID)) = some user := by
      cases hu : fs.DB.users.find? (fun u => decide (u.ID = userID)) with
      | none =>
        unfold ProcessFileUpload at h
        dsimp only at h
        rw [hu] at h
        simp at h
      | some user => exact ⟨user, rfl⟩
    obtain ⟨user, hu⟩ := hsome
    have hr := hrange user (List.mem_of_find?_eq_some hu)
    have hq := (herr user hu).1 h
    refine ⟨user, hu, ?_⟩
    by_cases hlt : user.QuotaUsed + (fileHeader.Data.length : Int) < 2 ^ 63
    · rw [wrapInt64_of_range _ (by linarith [hr.1]) hlt] at hq
      exact hq
    · linarith [hr.2.2.2]
  · intro user hu hge
    have hr := hrange user (List.mem_of_find?_eq_some hu)
    rw [herr user hu, wrapInt64_of_overflow _ hge (by linarith [hr.2.1])]

theorem saveFileNode_users (db : DB) (f : FileNode) : (db.saveFileNode f).users = db.users := by
  unfold DB.saveFileNode DB.createFileNode; split_ifs <;> rfl

theorem saveDataBlock_users (db : DB) (b : DataBlock) :
    (db.saveDataBlock b).users = db.users := by
  unfold DB.saveDataBlock DB.createDataBlock; split_ifs <;> rfl

/-- C9 (as the code has it). `CreateHardLink`, successful or not, leaves every
account as it was: neither `StorageSaved` nor `QuotaUsed` changes. -/
theorem hardlink_leaves_accounts (fs : FileSystem) (src dst : String) (userID : Nat) :
    (CreateHardLink fs src dst userID).2.DB.users = fs.DB.users := by
  unfold CreateHardLink
  cases Search fs src userID with
  | error e => rfl
  | ok srcNode =>
    dsimp only
    split_ifs
    · rfl
    · cases fs.DB.fileNodes.find? (fun f => decide (f.TrieNodeID = srcNode.ID)) with
      | none => rfl
      | some loaded =>
        dsimp only
        have hfr := (Insert_frame fs dst true userID).1.users
        generalize Insert fs dst true userID = r at *
        obtain ⟨res, fs1⟩ := r
        cases res with
        | error e => exact hfr
        | ok dstNode =>
          dsimp only at hfr ⊢
          simp only [DB.createFileNode, saveDataBlock_users, saveFileNode_users]
          exact hfr

/-- C10. Path round-trip: in every state reachable from an empty store (every
request issued with the file system's own owner id), when `Insert(P, asFile, owner)`
succeeds with node `n`, `Search(n.Path, owner)` on the resulting file system
succeeds and returns `n`.  (A successful `Insert` has a valid `P`.) -/
theorem path_round_trip (env : Env) (init db : DB) (P : String) (asFile : Bool)
    (owner : Nat) (n : TrieNode) (hinit : EmptyStore init)
    (hreach : Reachable env Op.any init db)
    (hins : (Insert (NewFileSystem db owner) P asFile owner).1 = .ok n) :
    Search (Insert (NewFileSystem db owner) P asFile owner).2 n.Path owner = .ok n := by
  have hinv := Reachable_inv (EmptyStore_inv hinit) hreach
  obtain ⟨n1, _, n3⟩ := NewFileSystem_inv db owner hinv
  obtain ⟨i1, _, _, i4, i5⟩ := Insert_inv (NewFileSystem db owner) P asFile owner n1 n3
  obtain ⟨hnm, hno, ⟨cp, hrel⟩, _⟩ := i5 n hins
  generalize (Insert (NewFileSystem db owner) P asFile owner).2 = fs2 at *
  unfold Search
  by_cases hp : n.Path = "/"
  · rw [if_pos hp]
    have : fs2.Root = n :=
      i1.trie.unique fs2.Root i4.mem n hnm (by rw [i4.owner, hno]) (by rw [i4.path, hp])
    rw [this]
  · rw [if_neg hp]
    obtain ⟨parts, hsp⟩ := PathRel_SplitPath n.Path cp hrel hp
    rw [hsp]
    dsimp only
    rw [find?_unique (fun m => decide (m.Path = n.Path ∧ m.OwnerID = owner)) hnm
      (by simp [hno])
      (fun m hm hpm => by
        simp only [decide_eq_true_eq] at hpm
        exact i1.trie.unique m hm n hnm (by rw [hpm.2, hno]) hpm.1)]

/-! ## C7, C8 -/

theorem saveUser_fileNodes (db : DB) (u : User) :
    (db.saveUser u).fileNodes = db.fileNodes := by
  unfold DB.saveUser DB.createUser; split_ifs <;> rfl

theorem saveUser_trieNodes (db : DB) (u : User) :
    (db.saveUser u).trieNodes = db.trieNodes := by
  unfold DB.saveUser DB.createUser; split_ifs <;> rfl

theorem Op.run_delete (env : Env) (db : DB) (userID : Nat) (filePath : String) :
    (Op.delete filePath).run env db userID
      = (DeleteFile (NewFileSystem db userID) filePath userID).2.DB := rfl

/-- C8. Hard-link postcondition (Scenario B): a successful `CreateHardLink(src, dst,
owner)` adds exactly one binding, attached to the node `Insert` returned for `dst`,
with the source binding's `Hash`, `Size` and `DataBlockID`, `IsDeduped = true` and
own `RefCount = 1`; the shared block's `RefCount` goes up by exactly 1 and the
accounts (so `QuotaUsed`) are unchanged.  The keys obey the record store's
discipline and every binding's block is stored. -/
theorem hardlink_postcondition (fs : FileSystem) (src dst : String) (userID : Nat)
    (hseq : SeqInv fs.DB)
    (hblk : ∀ f ∈ fs.DB.fileNodes, ∃ b ∈ fs.DB.dataBlocks, b.ID = f.DataBlockID)
    (hok : (CreateHardLink fs src dst userID).1 = .ok ()) :
    ∃ srcNode srcFile dstNode blk,
      Search fs src userID = .ok srcNode ∧ srcNode.NodeType = "file" ∧
      fs.DB.fileNodes.find? (fun f => decide (f.TrieNodeID = srcNode.ID)) = some srcFile ∧
      (Insert fs dst true userID).1 = .ok dstNode ∧
      fs.DB.dataBlocks.find? (fun b => decide (b.ID = srcFile.DataBlockID)) = some blk ∧
      (CreateHardLink fs src dst userID).2.DB.fileNodes
        = fs.DB.fileNodes.map (fun x => if x.ID = srcFile.ID then
              { srcFile with RefCount := srcFile.RefCount + 1 } else x) ++
          [{ ID := fs.DB.nextFileNodeID, TrieNodeID := dstNode.ID,
             OriginalName := srcFile.OriginalName, Hash := srcFile.Hash, Size := srcFile.Size,
             MimeType := srcFile.MimeType, ActualMimeType := srcFile.ActualMimeType,
             DataBlockID := srcFile.DataBlockID, RefCount := 1, Downloads := 0, Tags := "",
             IsDeduped := true }] ∧
      (CreateHardLink fs src dst userID).2.DB.dataBlocks
        = fs.DB.dataBlocks.map (fun x => if x.ID = blk.ID then
              { blk with RefCount := blk.RefCount + 1 } else x) ∧
      (CreateHardLink fs src dst userID).2.DB.dataBlocks.find?
          (fun b => decide (b.ID = srcFile.DataBlockID))
        = some { blk with RefCount := blk.RefCount + 1 } ∧
      (CreateHardLink fs src dst userID).2.DB.users = fs.DB.users := by
  have husers := hardlink_leaves_accounts fs src dst userID
  unfold CreateHardLink at hok husers ⊢
  cases hs : Search fs src userID with
  | error e => rw [hs] at hok; simp at hok
  | ok srcNode =>
    rw [hs] at hok husers
    dsimp only at hok husers ⊢
    by_cases hkind : srcNode.NodeType ≠ "file"
    · rw [if_pos hkind] at hok; simp at hok
    · rw [if_neg hkind] at hok husers ⊢
      cases hl : fs.DB.fileNodes.find? (fun f => decide (f.TrieNodeID = srcNode.ID)) with
      | none => rw [hl] at hok; simp at hok
      | some loaded =>
        rw [hl] at hok husers
        dsimp only at hok husers ⊢
        obtain ⟨i3, _⟩ := Insert_frame fs dst true userID
        generalize Insert fs dst true userID = r at *
        obtain ⟨res, fs1⟩ := r
        cases res with
        | error e => simp at hok
        | ok dstNode =>
          dsimp only at i3 husers ⊢
          have hlm : loaded ∈ fs.DB.fileNodes := List.mem_of_find?_eq_some hl
          have hlpos : loaded.ID ≠ 0 := by
            have := (hseq.files.2.2 loaded hlm).1; omega
          obtain ⟨b0, hb0, hb0id⟩ := hblk loaded hlm
          have hb0pos : b0.ID ≠ 0 := by
            have := (hseq.blocks.2.2 b0 hb0).1; omega
          have hfindb : fs.DB.dataBlocks.find? (fun b => decide (b.ID = loaded.DataBlockID))
              = some b0 := by
            rw [← hb0id]; exact hseq.blocks.find? hb0
          have e1 : (fs1.DB.saveFileNode { loaded with RefCount := loaded.RefCount + 1 }
              ).dataBlocks = fs.DB.dataBlocks := by
            rw [← i3.dataBlocks]; simp [DB.saveFileNode, hlpos]
          rw [e1, hfindb] at husers ⊢
          refine ⟨srcNode, loaded, dstNode, b0, rfl, by simpa using hkind, hl, rfl, hfindb,
            ?_, ?_, ?_, husers⟩
          · rw [← i3.fileNodes, ← i3.nextFileNodeID]
            simp [DB.saveFileNode, DB.saveDataBlock, DB.createFileNode, hlpos, hb0pos]
          · rw [← i3.dataBlocks]
            simp [DB.saveFileNode, DB.saveDataBlock, DB.createFileNode, hlpos, hb0pos]
          · have hmap : ((((fs1.DB.saveFileNode
                { loaded with RefCount := loaded.RefCount + 1 }).saveDataBlock
                { (some b0).getD DataBlock.zero with
                  RefCount := ((some b0).getD DataBlock.zero).RefCount + 1 }).createFileNode
                { ID := 0, TrieNodeID := dstNode.ID, OriginalName := loaded.OriginalName,
                  Hash := loaded.Hash, Size := loaded.Size, MimeType := loaded.MimeType,
                  ActualMimeType := loaded.ActualMimeType, DataBlockID := loaded.DataBlockID,
                  RefCount := 1, Downloads := 0, Tags := "", IsDeduped := true }).2).dataBlocks
                = fs.DB.dataBlocks.map (fun x => if x.ID = b0.ID then
                    { b0 with RefCount := b0.RefCount + 1 } else x) := by
              rw [← i3.dataBlocks]
              simp [DB.saveFileNode, DB.saveDataBlock, DB.createFileNode, hlpos, hb0pos]
            dsimp only at hmap ⊢
            rw [hmap, ← hb0id,
              find?_map_update DataBlock.ID fs.DB.dataBlocks b0.ID
                { b0 with RefCount := b0.RefCount + 1 } rfl,
              hseq.blocks.find? hb0]
            rfl

/-! ## Segments of a path (claim C11) -/

theorem trimPrefixSlash_cons_slash (body : String) :
    trimPrefixSlash ("/" ++ body) = body := by
  have h : ("/" ++ body).data = '/' :: body.data := by
    simp [String.data_append]
  unfold trimPrefixSlash
  rw [h]
  simp

theorem trimPrefixSlash_no_slash (s : String) (h : s.data.head? ≠ some '/') :
    trimPrefixSlash s = s := by
  unfold trimPrefixSlash
  cases hd : s.data with
  | nil => rfl
  | cons c cs =>
    rw [hd] at h
    have hc : c ≠ '/' := by
      intro h0
      apply h
      simp [h0]
    simp [hc]

theorem stringsSplit_of_join (body : String) (segs : List String) (hne : segs ≠ [])
    (hno : ∀ s ∈ segs, '/' ∉ s.data) (hjoin : body.data = joinSlash (segs.map String.data)) :
    stringsSplit body = segs := by
  unfold stringsSplit
  rw [hjoin, splitSlash_joinSlash _ (by simpa using hne)
    (by intro s hs; obtain ⟨t, ht, rfl⟩ := List.mem_map.1 hs; exact hno t ht)]
  rw [List.map_map]
  have : (String.mk ∘ String.data) = id := by
    funext s
    rfl
  rw [this, List.map_id]

/-- C11: `SplitPath("/")` is the empty sequence; and for a path other than "/" and
the empty string whose remainder after one leading "/" is the "/"-join of the
slash-free pieces `segs`, `SplitPath` is invalid exactly when some piece is "", ".",
".." or " ", and returns exactly `segs` otherwise. -/
theorem SplitPath_segments (filePath body : String) (segs : List String)
    (hroot : filePath ≠ "/") (hempty : filePath ≠ "")
    (hbody : filePath = "/" ++ body ∨ (filePath.data.head? ≠ some '/' ∧ body = filePath))
    (hne : segs ≠ []) (hno : ∀ s ∈ segs, '/' ∉ s.data)
    (hjoin : body.data = joinSlash (segs.map String.data)) :
    SplitPath "/" = some [] ∧
    (SplitPath filePath = none ↔ ∃ s ∈ segs, s = "" ∨ s = "." ∨ s = ".." ∨ s = " ") ∧
    ((∀ s ∈ segs, s ≠ "" ∧ s ≠ "." ∧ s ≠ ".." ∧ s ≠ " ") → SplitPath filePath = some segs) := by
  have htrim : trimPrefixSlash filePath = body := by
    rcases hbody with h | ⟨h1, h2⟩
    · rw [h]; exact trimPrefixSlash_cons_slash body
    · rw [h2]; exact trimPrefixSlash_no_slash filePath h1
  have hbne : body ≠ "" := by
    intro h0
    rcases hbody with h | ⟨_, h2⟩
    · apply hroot
      rw [h, h0]
      rfl
    · exact hempty (h2 ▸ h0)
  have hsplit := stringsSplit_of_join body segs hne hno hjoin
  have hval : SplitPath filePath =
      if segs.any (fun part => part = "." ∨ part = ".." ∨ part = " " ∨ part = "") then none
      else some segs := by
    unfold SplitPath
    rw [if_neg hroot]
    dsimp only
    rw [htrim, if_neg hbne, hsplit]
  refine ⟨by decide, ?_, ?_⟩
  · rw [hval]
    constructor
    · intro h
      split_ifs at h with hany
      rw [List.any_eq_true] at hany
      obtain ⟨s, hs, hb⟩ := hany
      refine ⟨s, hs, ?_⟩
      simp only [decide_eq_true_eq] at hb
      tauto
    · rintro ⟨s, hs, hb⟩
      rw [if_pos]
      rw [List.any_eq_true]
      refine ⟨s, hs, ?_⟩
      simp only [decide_eq_true_eq]
      tauto
  · intro hall
    rw [hval, if_neg]
    rw [List.any_eq_true]
    rintro ⟨s, hs, hb⟩
    simp only [decide_eq_true_eq] at hb
    have := hall s hs
    tauto

/-! ## When `Insert` fails (claim C12) -/

theorem resolveSegs_nil (db : DB) (userID : Nat) (cur : TrieNode) :
    resolveSegs db userID cur [] = some cur := by
  rw [resolveSegs]

theorem resolveSegs_cons_some (db : DB) (userID : Nat) (cur ex : TrieNode) (part : String)
    (rest : List String)
    (h : db.trieNodes.find? (fun n =>
      decide (n.Name = part ∧ n.ParentID = some cur.ID ∧ n.OwnerID = userID)) = some ex) :
    resolveSegs db userID cur (part :: rest) = resolveSegs db userID ex rest := by
  rw [resolveSegs]
  simp only [h]

theorem resolveSegs_cons_none (db : DB) (userID : Nat) (cur : TrieNode) (part : String)
    (rest : List String)
    (h : db.trieNodes.find? (fun n =>
      decide (n.Name = part ∧ n.ParentID = some cur.ID ∧ n.OwnerID = userID)) = none) :
    resolveSegs db userID cur (part :: rest) = none := by
  rw [resolveSegs]
  simp only [h]

theorem insertLoop_resolves (isFile : Bool) (userID : Nat) :
    ∀ (parts : List String) (db : DB) (cur : TrieNode) (cp : String) (n : TrieNode),
      (insertLoop isFile userID parts db cur cp).1 = .ok n →
      resolveSegs (insertLoop isFile userID parts db cur cp).2 userID cur parts = some n := by
  intro parts
  induction parts with
  | nil =>
    intro db cur cp n h
    rw [insertLoop_nil] at h
    simp only [Except.ok.injEq] at h
    rw [resolveSegs_nil, h]
  | cons part rest ih =>
    intro db cur cp n h
    cases hfind : db.trieNodes.find? (fun n =>
        decide (n.Name = part ∧ n.ParentID = some cur.ID ∧ n.OwnerID = userID)) with
    | none =>
      rw [insertLoop_cons_none _ _ _ _ _ _ _ hfind] at h ⊢
      have hih := ih _ _ _ n h
      obtain ⟨⟨_, _, _, _, _, _, added, hadd, _⟩, _⟩ := insertLoop_frame isFile userID rest
        (db.withNode (newTrieNode db cur (filepathJoin cp part) part userID
          (rest.isEmpty && isFile)))
        (newTrieNode db cur (filepathJoin cp part) part userID (rest.isEmpty && isFile))
        (filepathJoin cp part)
      rw [resolveSegs_cons_some _ _ _ _ _ _ ?_, hih]
      rw [hadd, withNode_trieNodes, List.find?_append, List.find?_append, hfind]
      simp [newTrieNode]
    | some ex =>
      rw [insertLoop_cons_some _ _ _ _ _ _ _ ex hfind] at h ⊢
      split_ifs at h ⊢ with h1 h2
      have hih := ih _ _ _ n h
      obtain ⟨⟨_, _, _, _, _, _, added, hadd, _⟩, _⟩ := insertLoop_frame isFile userID rest
        db ex (filepathJoin cp part)
      rw [resolveSegs_cons_some _ _ _ _ _ _ ?_, hih]
      rw [hadd, List.find?_append, hfind]
      rfl

theorem insertLoop_none_ok (isFile : Bool) (userID : Nat) (part : String) (rest : List String)
    (db : DB) (cur : TrieNode) (cp : String)
    (hfr : ∀ n ∈ db.trieNodes, n.ID < db.nextTrieNodeID ∧
      ∀ pid, n.ParentID = some pid → pid < db.nextTrieNodeID)
    (hcur : cur.ID < db.nextTrieNodeID)
    (hfind : db.trieNodes.find? (fun n =>
      decide (n.Name = part ∧ n.ParentID = some cur.ID ∧ n.OwnerID = userID)) = none) :
    ∃ n, (insertLoop isFile userID (part :: rest) db cur cp).1 = .ok n := by
  rw [insertLoop_cons_none _ _ _ _ _ _ _ hfind]
  apply insertLoop_fresh_ok
  · intro m hm
    rw [withNode_trieNodes, List.mem_append, List.mem_singleton] at hm
    rcases hm with hm | hm
    · intro hp
      have := (hfr m hm).2 _ hp
      simp [newTrieNode] at this
    · subst hm
      simp only [newTrieNode, ne_eq, Option.some.injEq]
      omega
  · intro m hm pid hp
    rw [withNode_trieNodes, List.mem_append, List.mem_singleton] at hm
    rw [withNode_nextTrieNodeID]
    rcases hm with hm | hm
    · have := (hfr m hm).2 pid hp; omega
    · subst hm
      simp only [newTrieNode, Option.some.injEq] at hp
      omega
  · rw [withNode_nextTrieNodeID]
    simp [newTrieNode]

theorem SegsReject_nil (db : DB) (userID : Nat) (cur : TrieNode) (asFile : Bool) :
    ¬ SegsReject db userID cur asFile [] := by
  rintro (⟨pre, suf, n, h, hp, _, _⟩ | ⟨_, h, _⟩)
  · cases pre with
    | nil => exact hp rfl
    | cons a l => simp at h
  · exact h rfl

theorem SegsReject_cons_none (db : DB) (userID : Nat) (cur : TrieNode) (asFile : Bool)
    (part : String) (rest : List String)
    (hfind : db.trieNodes.find? (fun n =>
      decide (n.Name = part ∧ n.ParentID = some cur.ID ∧ n.OwnerID = userID)) = none) :
    ¬ SegsReject db userID cur asFile (part :: rest) := by
  rintro (⟨pre, suf, n, h, hp, _, hr, _⟩ | ⟨_, _, n, hr, _⟩)
  · cases pre with
    | nil => exact hp rfl
    | cons a l =>
      simp only [List.cons_append, List.cons.injEq] at h
      obtain ⟨rfl, _⟩ := h
      rw [resolveSegs_cons_none _ _ _ _ _ hfind] at hr
      simp at hr
  · rw [resolveSegs_cons_none _ _ _ _ _ hfind] at hr
    simp at hr

theorem SegsReject_cons_some (db : DB) (userID : Nat) (cur ex : TrieNode) (asFile : Bool)
    (part : String) (rest : List String)
    (hfind : db.trieNodes.find? (fun n =>
      decide (n.Name = part ∧ n.ParentID = some cur.ID ∧ n.OwnerID = userID)) = some ex) :
    SegsReject db userID cur asFile (part :: rest) ↔
      ((rest = [] ∧ asFile = true ∧ ex.NodeType = "file") ∨
       (rest ≠ [] ∧ ex.NodeType = "file") ∨ SegsReject db userID ex asFile rest) := by
  constructor
  · rintro (⟨pre, suf, n, h, hp, hs, hr, hk⟩ | ⟨ha, _, n, hr, hk⟩)
    · cases pre with
      | nil => exact absurd rfl hp
      | cons a l =>
        simp only [List.cons_append, List.cons.injEq] at h
        obtain ⟨rfl, h⟩ := h
        rw [resolveSegs_cons_some _ _ _ _ _ _ hfind] at hr
        cases l with
        | nil =>
          rw [resolveSegs_nil] at hr
          simp only [Option.some.injEq] at hr
          subst hr
          simp only [List.nil_append] at h
          subst h
          exact Or.inr (Or.inl ⟨hs, hk⟩)
        | cons b l1 =>
          exact Or.inr (Or.inr (Or.inl ⟨b :: l1, suf, n, h, by simp, hs, hr, hk⟩))
    · rw [resolveSegs_cons_some _ _ _ _ _ _ hfind] at hr
      cases rest with
      | nil =>
        rw [resolveSegs_nil] at hr
        simp only [Option.some.injEq] at hr
        subst hr
        exact Or.inl ⟨rfl, ha, hk⟩
      | cons b l1 =>
        exact Or.inr (Or.inr (Or.inr ⟨ha, by simp, n, hr, hk⟩))
  · rintro (⟨h1, ha, hk⟩ | ⟨h1, hk⟩ | (⟨pre, suf, n, h, hp, hs, hr, hk⟩ | ⟨ha, hne, n, hr, hk⟩))
    · subst h1
      refine Or.inr ⟨ha, by simp, ex, ?_, hk⟩
      rw [resolveSegs_cons_some _ _ _ _ _ _ hfind, resolveSegs_nil]
    · refine Or.inl ⟨[part], rest, ex, rfl, by simp, h1, ?_, hk⟩
      rw [resolveSegs_cons_some _ _ _ _ _ _ hfind, resolveSegs_nil]
    · refine Or.inl ⟨part :: pre, suf, n, by simp [h], by simp, hs, ?_, hk⟩
      rw [resolveSegs_cons_some _ _ _ _ _ _ hfind, hr]
    · refine Or.inr ⟨ha, by simp, n, ?_, hk⟩
      rw [resolveSegs_cons_some _ _ _ _ _ _ hfind, hr]

theorem insertLoop_error_iff (isFile : Bool) (userID : Nat) :
    ∀ (parts : List String) (db : DB) (cur : TrieNode) (cp : String),
      (∀ n ∈ db.trieNodes, n.ID < db.nextTrieNodeID ∧
        ∀ pid, n.ParentID = some pid → pid < db.nextTrieNodeID) →
      cur.ID < db.nextTrieNodeID →
      ((∃ e, (insertLoop isFile userID parts db cur cp).1 = .error e) ↔
        SegsReject db userID cur isFile parts) := by
  intro parts
  induction parts with
  | nil =>
    intro db cur cp _ _
    rw [insertLoop_nil]
    constructor
    · rintro ⟨e, he⟩
      simp at he
    · intro h
      exact absurd h (SegsReject_nil _ _ _ _)
  | cons part rest ih =>
    intro db cur cp hfr hcur
    cases hfind : db.trieNodes.find? (fun n =>
        decide (n.Name = part ∧ n.ParentID = some cur.ID ∧ n.OwnerID = userID)) with
    | none =>
      obtain ⟨n, hn⟩ := insertLoop_none_ok isFile userID part rest db cur cp hfr hcur hfind
      constructor
      · rintro ⟨e, he⟩
        rw [hn] at he
        simp at he
      · intro h
        exact absurd h (SegsReject_cons_none _ _ _ _ _ _ hfind)
    | some ex =>
      rw [SegsReject_cons_some _ _ _ _ _ _ _ hfind, insertLoop_cons_some _ _ _ _ _ _ _ ex hfind]
      have hre : rest.isEmpty = true ↔ rest = [] := List.isEmpty_iff
      split_ifs with h1 h2
      · constructor
        · intro _
          exact Or.inl ⟨hre.1 h1.1, h1.2.1, h1.2.2⟩
        · intro _
          exact ⟨_, rfl⟩
      · constructor
        · intro _
          exact Or.inr (Or.inl ⟨fun h => h2.1 (hre.2 h), h2.2⟩)
        · intro _
          exact ⟨_, rfl⟩
      · rw [ih db ex _ hfr (hfr ex (List.mem_of_find?_eq_some hfind)).1]
        constructor
        · intro h
          exact Or.inr (Or.inr h)
        · rintro (⟨h3, h4, h5⟩ | ⟨h3, h4⟩ | h)
          · exact absurd ⟨hre.2 h3, h4, h5⟩ h1
          · exact absurd ⟨fun h => h3 (hre.1 h), h4⟩ h2
          · exact h

theorem insertLoop_error_case (isFile : Bool) (userID : Nat) :
    ∀ (parts : List String) (db : DB) (cur : TrieNode) (cp : String) (e : Error),
      (∀ n ∈ db.trieNodes, n.ID < db.nextTrieNodeID ∧
        ∀ pid, n.ParentID = some pid → pid < db.nextTrieNodeID) →
      cur.ID < db.nextTrieNodeID →
      (insertLoop isFile userID parts db cur cp).1 = .error e →
      (e = .fileInsideFile ∧ ∃ pre suf n, parts = pre ++ suf ∧ pre ≠ [] ∧ suf ≠ [] ∧
        resolveSegs db userID cur pre = some n ∧ n.NodeType = "file") ∨
      (e = .fileAlreadyExists ∧ isFile = true ∧ parts ≠ [] ∧
        ∃ n, resolveSegs db userID cur parts = some n ∧ n.NodeType = "file") := by
  intro parts
  induction parts with
  | nil =>
    intro db cur cp e _ _ h
    rw [insertLoop_nil] at h
    simp at h
  | cons part rest ih =>
    intro db cur cp e hfr hcur h
    cases hfind : db.trieNodes.find? (fun n =>
        decide (n.Name = part ∧ n.ParentID = some cur.ID ∧ n.OwnerID = userID)) with
    | none =>
      obtain ⟨n, hn⟩ := insertLoop_none_ok isFile userID part rest db cur cp hfr hcur hfind
      rw [hn] at h
      simp at h
    | some ex =>
      have hre : rest.isEmpty = true ↔ rest = [] := List.isEmpty_iff
      rw [insertLoop_cons_some _ _ _ _ _ _ _ ex hfind] at h
      by_cases h1 : rest.isEmpty = true ∧ isFile = true ∧ ex.NodeType = "file"
      · rw [if_pos h1] at h
        simp only [Except.error.injEq] at h
        refine Or.inr ⟨h.symm, h1.2.1, by simp, ex, ?_, h1.2.2⟩
        rw [resolveSegs_cons_some _ _ _ _ _ _ hfind, hre.1 h1.1, resolveSegs_nil]
      · rw [if_neg h1] at h
        by_cases h2 : ¬ rest.isEmpty = true ∧ ex.NodeType = "file"
        · rw [if_pos h2] at h
          simp only [Except.error.injEq] at h
          refine Or.inl ⟨h.symm, [part], rest, ex, rfl, by simp,
            fun h0 => h2.1 (hre.2 h0), ?_, h2.2⟩
          rw [resolveSegs_cons_some _ _ _ _ _ _ hfind, resolveSegs_nil]
        · rw [if_neg h2] at h
          rcases ih db ex _ e hfr (hfr ex (List.mem_of_find?_eq_some hfind)).1 h with
            ⟨he, pre, suf, n, hp, hpre, hsuf, hr, hk⟩ | ⟨he, ha, _, n, hr, hk⟩
          · refine Or.inl ⟨he, part :: pre, suf, n, by simp [hp], by simp, hsuf, ?_, hk⟩
            rw [resolveSegs_cons_some _ _ _ _ _ _ hfind, hr]
          · refine Or.inr ⟨he, ha, by simp, n, ?_, hk⟩
            rw [resolveSegs_cons_some _ _ _ _ _ _ hfind, hr]

/-- C12: with node keys ahead of the sequence, `Insert` returns an error exactly
when (a) `SplitPath` is invalid, or (b) some non-terminal segment resolves to an
existing file node, or (c) a file is asked for and the terminal segment resolves to
an existing file node; the error reports the case ("invalid path: reserved
characters not allowed", "cannot create file inside another file", "file already
exists"); in every other case `Insert` returns a node, and that node is the one
the terminal segment resolves to afterwards. -/
theorem Insert_fails_iff (fs : FileSystem) (filePath : String) (asFile : Bool) (userID : Nat)
    (hfresh : FreshNodeKeys fs) :
    ((∃ e, (Insert fs filePath asFile userID).1 = .error e) ↔
      InsertRejects fs filePath asFile userID) ∧
    (∀ e, (Insert fs filePath asFile userID).1 = .error e →
      (e = .invalidPathReserved ∧ SplitPath filePath = none) ∨
      (∃ parts, SplitPath filePath = some parts ∧
        ((e = .fileInsideFile ∧ ∃ pre suf n, parts = pre ++ suf ∧ pre ≠ [] ∧ suf ≠ [] ∧
            resolveSegs fs.DB userID fs.Root pre = some n ∧ n.NodeType = "file") ∨
         (e = .fileAlreadyExists ∧ asFile = true ∧ parts ≠ [] ∧
            ∃ n, resolveSegs fs.DB userID fs.Root parts = some n ∧ n.NodeType = "file")))) ∧
    (¬ InsertRejects fs filePath asFile userID →
      ∃ n parts, (Insert fs filePath asFile userID).1 = .ok n ∧
        SplitPath filePath = some parts ∧
        resolveSegs (Insert fs filePath asFile userID).2.DB userID fs.Root parts = some n) := by
  unfold Insert InsertRejects
  cases hsp : SplitPath filePath with
  | none =>
    dsimp only
    refine ⟨⟨fun _ => trivial, fun _ => ⟨_, rfl⟩⟩, ?_, fun h => absurd trivial h⟩
    intro e he
    simp only [Except.error.injEq] at he
    exact Or.inl ⟨he.symm, rfl⟩
  | some parts =>
    dsimp only
    have hiff := insertLoop_error_iff asFile userID parts fs.DB fs.Root "" hfresh.2 hfresh.1
    refine ⟨hiff, ?_, ?_⟩
    · intro e he
      exact Or.inr ⟨parts, rfl,
        insertLoop_error_case asFile userID parts fs.DB fs.Root "" e hfresh.2 hfresh.1 he⟩
    · intro hno
      cases hr : (insertLoop asFile userID parts fs.DB fs.Root "").1 with
      | error e => exact absurd (hiff.1 ⟨e, hr⟩) hno
      | ok n =>
        exact ⟨n, parts, rfl, rfl,
          insertLoop_resolves asFile userID parts fs.DB fs.Root "" n hr⟩

/-! ## Directory insertion twice (claim C13) -/

theorem insertLoop_again (userID : Nat) :
    ∀ (parts : List String) (db : DB) (cur : TrieNode) (cp : String) (n : TrieNode),
      (insertLoop false userID parts db cur cp).1 = .ok n →
      ∀ (db2 : DB) (cp2 : String),
        (∃ more, db2.trieNodes = (insertLoop false userID parts db cur cp).2.trieNodes ++ more) →
        insertLoop false userID parts db2 cur cp2 = (.ok n, db2) := by
  intro parts
  induction parts with
  | nil =>
    intro db cur cp n h db2 cp2 _
    rw [insertLoop_nil] at h
    simp only [Except.ok.injEq] at h
    rw [insertLoop_nil, h]
  | cons part rest ih =>
    intro db cur cp n h db2 cp2 hext
    cases hfind : db.trieNodes.find? (fun n =>
        decide (n.Name = part ∧ n.ParentID = some cur.ID ∧ n.OwnerID = userID)) with
    | none =>
      rw [insertLoop_cons_none _ _ _ _ _ _ _ hfind] at h hext
      obtain ⟨more, hmore⟩ := hext
      obtain ⟨⟨_, _, _, _, _, _, added, hadd, _⟩, _⟩ := insertLoop_frame false userID rest
        (db.withNode (newTrieNode db cur (filepathJoin cp part) part userID
          (rest.isEmpty && false)))
        (newTrieNode db cur (filepathJoin cp part) part userID (rest.isEmpty && false))
        (filepathJoin cp part)
      have hfind2 : db2.trieNodes.find? (fun n =>
          decide (n.Name = part ∧ n.ParentID = some cur.ID ∧ n.OwnerID = userID))
          = some (newTrieNode db cur (filepathJoin cp part) part userID
              (rest.isEmpty && false)) := by
        rw [hmore, hadd, withNode_trieNodes, List.find?_append, List.find?_append,
          List.find?_append, hfind]
        simp [newTrieNode]
      rw [insertLoop_cons_some _ _ _ _ _ _ _ _ hfind2]
      have hkind : (newTrieNode db cur (filepathJoin cp part) part userID
          (rest.isEmpty && false)).NodeType ≠ "file" := by
        simp [newTrieNode]
      rw [if_neg (by simp), if_neg (fun hc => hkind hc.2)]
      exact ih _ _ _ n h db2 _ ⟨more, hmore⟩
    | some ex =>
      rw [insertLoop_cons_some _ _ _ _ _ _ _ ex hfind] at h hext
      have h1 : ¬ (rest.isEmpty = true ∧ false = true ∧ ex.NodeType = "file") := by simp
      rw [if_neg h1] at h hext
      by_cases h2 : ¬ rest.isEmpty = true ∧ ex.NodeType = "file"
      · rw [if_pos h2] at h
        simp at h
      rw [if_neg h2] at h hext
      obtain ⟨more, hmore⟩ := hext
      obtain ⟨⟨_, _, _, _, _, _, added, hadd, _⟩, _⟩ := insertLoop_frame false userID rest
        db ex (filepathJoin cp part)
      have hfind2 : db2.trieNodes.find? (fun n =>
          decide (n.Name = part ∧ n.ParentID = some cur.ID ∧ n.OwnerID = userID))
          = some ex := by
        rw [hmore, hadd, List.find?_append, List.find?_append, hfind]
        rfl
      rw [insertLoop_cons_some _ _ _ _ _ _ _ _ hfind2, if_neg h1, if_neg h2]
      exact ih _ _ _ n h db2 _ ⟨more, hmore⟩

/-- C13: directory insertion is idempotent: after a successful
`Insert(P, false, owner)` a second `Insert(P, false, owner)` succeeds, returns the
same node and leaves the file system, store included, exactly as it was. -/
theorem Insert_directory_idempotent (fs : FileSystem) (P : String) (userID : Nat)
    (n : TrieNode) (h : (Insert fs P false userID).1 = .ok n) :
    Insert (Insert fs P false userID).2 P false userID
      = (.ok n, (Insert fs P false userID).2) := by
  unfold Insert at h ⊢
  cases hsp : SplitPath P with
  | none =>
    rw [hsp] at h
    simp at h
  | some parts =>
    rw [hsp] at h
    dsimp only at h ⊢
    rw [insertLoop_again userID parts fs.DB fs.Root "" n h _ "" ⟨[], by simp⟩]

/-! ## Owner scoping of `Search` (claim C15) -/

/-- C15 (as the code has it): if `Search(path, owner)` succeeds with node `n` then
`n.OwnerID = owner`, for every path other than "/" on every file system, and for
"/" when the root the file system holds belongs to `owner`. -/
theorem Search_owner_scoped (fs : FileSystem) (filePath : String) (userID : Nat) (n : TrieNode)
    (h : Search fs filePath userID = .ok n)
    (hroot : filePath = "/" → fs.Root.OwnerID = userID) : n.OwnerID = userID := by
  unfold Search at h
  split_ifs at h with h1
  · simp only [Except.ok.injEq] at h
    rw [← h]
    exact hroot h1
  · cases hsp : SplitPath filePath with
    | none =>
      rw [hsp] at h
      simp at h
    | some parts =>
      rw [hsp] at h
      dsimp only at h
      cases hfind : fs.DB.trieNodes.find? (fun n =>
          decide (n.Path = filePath ∧ n.OwnerID = userID)) with
      | none =>
        rw [hfind] at h
        simp at h
      | some node =>
        rw [hfind] at h
        simp only [Except.ok.injEq] at h
        subst h
        have := List.find?_some hfind
        simp only [decide_eq_true_eq] at this
        exact this.2

/-! ## Accounting of `DeleteFile` (claim C16) -/

theorem finite_char : Finite Char := by
  apply Finite.of_injective (fun c : Char => c.val.val)
  intro a b h
  apply Char.ext
  exact UInt32.ext (congrArg Fin.val h)

/-- A digest that always has 64 characters, as `fmt.Sprintf("%x", sha256.Sum256(data))`
has, takes the same value on two payloads of different lengths. -/
theorem digest_collision (hash : List Nat → String) (hlen : ∀ d, (hash d).length = 64) :
    ∃ d1 d2 : List Nat, d1.length ≠ d2.length ∧ hash d1 = hash d2 := by
  haveI := finite_char
  haveI : Finite {l : List Char // l.length = 64} :=
    (List.finite_length_eq Char 64).to_subtype
  obtain ⟨x, y, hxy, hf⟩ := Finite.exists_ne_map_eq_of_infinite
    (fun n : ℕ => (⟨(hash (List.replicate n 0)).data, hlen _⟩ :
      {l : List Char // l.length = 64}))
  refine ⟨List.replicate x 0, List.replicate y 0, by simpa using hxy, ?_⟩
  have := congrArg Subtype.val hf
  exact String.ext this

theorem roundHalfEven_err (q : ℚ) : |(roundHalfEven q : ℚ) - q| ≤ 1 / 2 := by
  unfold roundHalfEven
  have h1 := Int.floor_le q
  have h2 := Int.lt_floor_add_one q
  split_ifs with a b c
  · rw [abs_le]; constructor <;> linarith
  · rw [abs_le]; push_cast; constructor <;> linarith
  · rw [abs_le]; constructor <;> linarith
  · rw [abs_le]; push_cast; constructor <;> linarith

theorem roundHalfEven_intCast (n : ℤ) : roundHalfEven (n : ℚ) = n := by
  unfold roundHalfEven
  simp

theorem float64_err (q : ℚ) : |float64 q - q| ≤ |q| / 2 ^ 53 := by
  unfold float64
  split_ifs with h0
  · simp [h0]
  · have hpos : (0 : ℚ) < |q| := abs_pos.2 h0
    set e : ℤ := Int.log 2 |q| - 52 with he
    have hp : (0 : ℚ) < 2 ^ e := by positivity
    have hlog : (2 : ℚ) ^ (Int.log 2 |q|) ≤ |q| := by
      have := Int.zpow_log_le_self (b := 2) (r := |q|) (by norm_num) hpos
      simpa using this
    have key : (roundHalfEven (q / 2 ^ e) : ℚ) * 2 ^ e - q
        = ((roundHalfEven (q / 2 ^ e) : ℚ) - q / 2 ^ e) * 2 ^ e := by
      field_simp
    rw [key, abs_mul, abs_of_pos hp]
    have hr := roundHalfEven_err (q / 2 ^ e)
    have h53 : (2 : ℚ) ^ e = 2 ^ (Int.log 2 |q|) / 2 ^ 52 := by
      rw [he, zpow_sub₀ (by norm_num)]
      norm_num
    calc |(roundHalfEven (q / 2 ^ e) : ℚ) - q / 2 ^ e| * 2 ^ e
        ≤ 1 / 2 * 2 ^ e := by gcongr
      _ = 2 ^ (Int.log 2 |q|) / 2 ^ 53 := by rw [h53]; ring
      _ ≤ |q| / 2 ^ 53 := by gcongr

theorem float64_bounds (q : ℚ) (h : 0 ≤ q) :
    q * (1 - 1 / 2 ^ 53) ≤ float64 q ∧ float64 q ≤ q * (1 + 1 / 2 ^ 53) := by
  have := float64_err q
  rw [abs_of_nonneg h, abs_le] at this
  constructor <;> linarith [this.1, this.2]

theorem float64_nonneg (q : ℚ) (h : 0 ≤ q) : 0 ≤ float64 q := by
  have := (float64_bounds q h).1
  have h2 : 0 ≤ q * (1 - 1 / 2 ^ 53) := by
    apply mul_nonneg h
    norm_num
  linarith

theorem float64_pos (q : ℚ) (h : 0 < q) : 0 < float64 q := by
  have := (float64_bounds q h.le).1
  have h2 : 0 < q * (1 - 1 / 2 ^ 53) := by
    apply mul_pos h
    norm_num
  linarith

theorem float64_zero : float64 0 = 0 := by
  simp [float64]

/-- A value with at most 53 significant bits is a binary64 value. -/
theorem float64_exact (m k : ℤ) (hm : |m| < 2 ^ 53) :
    float64 ((m : ℚ) * 2 ^ k) = (m : ℚ) * 2 ^ k := by
  by_cases h0 : m = 0
  · subst h0; simp [float64]
  have hq : (m : ℚ) * 2 ^ k ≠ 0 := by
    apply mul_ne_zero
    · exact_mod_cast h0
    · positivity
  unfold float64
  rw [if_neg hq]
  set q : ℚ := (m : ℚ) * 2 ^ k with hqdef
  have hpos : (0 : ℚ) < |q| := abs_pos.2 hq
  have hlt : Int.log 2 |q| < 53 + k := by
    rw [← Int.lt_zpow_iff_log_lt (by norm_num) hpos]
    rw [hqdef, abs_mul, abs_of_pos (by positivity : (0:ℚ) < 2 ^ k)]
    have h1 : |(m : ℚ)| < 2 ^ 53 := by
      have : ((|m| : ℤ) : ℚ) < ((2 ^ 53 : ℤ) : ℚ) := by exact_mod_cast hm
      simpa using this
    have h2 : ((2 : ℕ) : ℚ) ^ (53 + k) = 2 ^ 53 * 2 ^ k := by
      rw [zpow_add₀ (by norm_num)]
      norm_num
    rw [h2]
    have h3 : (0:ℚ) < 2 ^ k := by positivity
    exact mul_lt_mul_of_pos_right h1 h3
  obtain ⟨j, hj⟩ : ∃ j : ℕ, k - (Int.log 2 |q| - 52) = j := by
    exact ⟨(k - (Int.log 2 |q| - 52)).toNat, by omega⟩
  have hdiv : q / 2 ^ (Int.log 2 |q| - 52) = ((m * 2 ^ j : ℤ) : ℚ) := by
    rw [hqdef, mul_div_assoc, ← zpow_sub₀ (by norm_num), hj]
    push_cast
    rw [zpow_natCast]
  rw [hdiv, roundHalfEven_intCast]
  push_cast
  rw [mul_assoc, ← zpow_natCast, ← zpow_add₀ (by norm_num), ← hj]
  congr 2
  ring

theorem float64_intCast (n : ℤ) (hn : |n| < 2 ^ 53) : float64 (n : ℚ) = n := by
  have := float64_exact n 0 hn
  simpa using this

theorem float64_ratio_err (s l : ℚ) (hs : 0 ≤ s) (hl : 0 < l) :
    |float64 (float64 (float64 s / float64 l) * 100) - s / l * 100| ≤ s / l * 100 / 2 ^ 50 := by
  obtain ⟨a1, a2⟩ := float64_bounds s hs
  obtain ⟨b1, b2⟩ := float64_bounds l hl.le
  have bpos := float64_pos l hl
  have apos := float64_nonneg s hs
  have cq : 0 ≤ float64 s / float64 l := div_nonneg apos bpos.le
  obtain ⟨c1, c2⟩ := float64_bounds _ cq
  have cpos := float64_nonneg _ cq
  have dq : 0 ≤ float64 (float64 s / float64 l) * 100 := by positivity
  obtain ⟨d1, d2⟩ := float64_bounds _ dq
  have hx : 0 ≤ s / l := div_nonneg hs hl.le
  -- bounds on the quotient
  have q2 : float64 s / float64 l ≤ s / l * ((1 + 1 / 2 ^ 53) / (1 - 1 / 2 ^ 53)) := by
    rw [div_le_iff₀ bpos]
    have : s / l * ((1 + 1 / 2 ^ 53) / (1 - 1 / 2 ^ 53)) * (l * (1 - 1 / 2 ^ 53))
        = s * (1 + 1 / 2 ^ 53) := by
      field_simp
    have h3 : 0 ≤ s / l * ((1 + 1 / 2 ^ 53) / (1 - 1 / 2 ^ 53)) := by
      apply mul_nonneg hx
      norm_num
    calc float64 s ≤ s * (1 + 1 / 2 ^ 53) := a2
      _ = s / l * ((1 + 1 / 2 ^ 53) / (1 - 1 / 2 ^ 53)) * (l * (1 - 1 / 2 ^ 53)) := this.symm
      _ ≤ s / l * ((1 + 1 / 2 ^ 53) / (1 - 1 / 2 ^ 53)) * float64 l := by gcongr
  have q1 : s / l * ((1 - 1 / 2 ^ 53) / (1 + 1 / 2 ^ 53)) ≤ float64 s / float64 l := by
    rw [le_div_iff₀ bpos]
    have : s / l * ((1 - 1 / 2 ^ 53) / (1 + 1 / 2 ^ 53)) * (l * (1 + 1 / 2 ^ 53))
        = s * (1 - 1 / 2 ^ 53) := by
      field_simp
    have h3 : 0 ≤ s / l * ((1 - 1 / 2 ^ 53) / (1 + 1 / 2 ^ 53)) := by
      apply mul_nonneg hx
      norm_num
    calc s / l * ((1 - 1 / 2 ^ 53) / (1 + 1 / 2 ^ 53)) * float64 l
        ≤ s / l * ((1 - 1 / 2 ^ 53) / (1 + 1 / 2 ^ 53)) * (l * (1 + 1 / 2 ^ 53)) := by gcongr
      _ = s * (1 - 1 / 2 ^ 53) := this
      _ ≤ float64 s := a1
  rw [abs_le]
  constructor
  · have e1 : s / l * ((1 - 1 / 2 ^ 53) / (1 + 1 / 2 ^ 53)) * (1 - 1 / 2 ^ 53) * 100
        * (1 - 1 / 2 ^ 53) ≤ float64 (float64 (float64 s / float64 l) * 100) := by
      calc s / l * ((1 - 1 / 2 ^ 53) / (1 + 1 / 2 ^ 53)) * (1 - 1 / 2 ^ 53) * 100
            * (1 - 1 / 2 ^ 53)
          ≤ float64 s / float64 l * (1 - 1 / 2 ^ 53) * 100 * (1 - 1 / 2 ^ 53) := by
            gcongr
        _ ≤ float64 (float64 s / float64 l) * 100 * (1 - 1 / 2 ^ 53) := by
            gcongr
        _ ≤ _ := d1
    have e2 : s / l * 100 * (1 - 1 / 2 ^ 50) ≤
        s / l * ((1 - 1 / 2 ^ 53) / (1 + 1 / 2 ^ 53)) * (1 - 1 / 2 ^ 53) * 100
        * (1 - 1 / 2 ^ 53) := by
      have : s / l * ((1 - 1 / 2 ^ 53) / (1 + 1 / 2 ^ 53)) * (1 - 1 / 2 ^ 53) * 100
          * (1 - 1 / 2 ^ 53)
          = s / l * 100 * ((1 - 1 / 2 ^ 53) / (1 + 1 / 2 ^ 53) * (1 - 1 / 2 ^ 53)
            * (1 - 1 / 2 ^ 53)) := by ring
      rw [this]
      gcongr
      norm_num
    have : s / l * 100 * (1 - 1 / 2 ^ 50) = s / l * 100 - s / l * 100 / 2 ^ 50 := by ring
    linarith
  · have e1 : float64 (float64 (float64 s / float64 l) * 100) ≤
        s / l * ((1 + 1 / 2 ^ 53) / (1 - 1 / 2 ^ 53)) * (1 + 1 / 2 ^ 53) * 100
        * (1 + 1 / 2 ^ 53) := by
      calc float64 (float64 (float64 s / float64 l) * 100)
          ≤ float64 (float64 s / float64 l) * 100 * (1 + 1 / 2 ^ 53) := d2
        _ ≤ float64 s / float64 l * (1 + 1 / 2 ^ 53) * 100 * (1 + 1 / 2 ^ 53) := by
            gcongr
        _ ≤ s / l * ((1 + 1 / 2 ^ 53) / (1 - 1 / 2 ^ 53)) * (1 + 1 / 2 ^ 53) * 100
              * (1 + 1 / 2 ^ 53) := by
            gcongr
    have e2 : s / l * ((1 + 1 / 2 ^ 53) / (1 - 1 / 2 ^ 53)) * (1 + 1 / 2 ^ 53) * 100
        * (1 + 1 / 2 ^ 53) ≤ s / l * 100 * (1 + 1 / 2 ^ 50) := by
      have : s / l * ((1 + 1 / 2 ^ 53) / (1 - 1 / 2 ^ 53)) * (1 + 1 / 2 ^ 53) * 100
          * (1 + 1 / 2 ^ 53)
          = s / l * 100 * ((1 + 1 / 2 ^ 53) / (1 - 1 / 2 ^ 53) * (1 + 1 / 2 ^ 53)
            * (1 + 1 / 2 ^ 53)) := by ring
      rw [this]
      gcongr
      norm_num
    have : s / l * 100 * (1 + 1 / 2 ^ 50) = s / l * 100 + s / l * 100 / 2 ^ 50 := by ring
    linarith

theorem roundHalfEven_of_lt (q : ℚ) (z : ℤ) (h1 : (z : ℚ) ≤ q) (h2 : q - z < 1 / 2) :
    roundHalfEven q = z := by
  have hf : ⌊q⌋ = z := by
    rw [Int.floor_eq_iff]
    constructor
    · exact h1
    · linarith
  unfold roundHalfEven
  rw [hf, if_pos h2]

theorem float64_of_exponent (q : ℚ) (e z : ℤ) (h0 : q ≠ 0) (h1 : (2 : ℚ) ^ (e + 52) ≤ |q|)
    (h2 : |q| < (2 : ℚ) ^ (e + 53)) (hz : roundHalfEven (q / 2 ^ e) = z) :
    float64 q = (z : ℚ) * 2 ^ e := by
  have hpos : (0 : ℚ) < |q| := abs_pos.2 h0
  have hlog : Int.log 2 |q| = e + 52 := by
    have a1 : e + 52 ≤ Int.log 2 |q| := by
      rw [← Int.zpow_le_iff_le_log (by norm_num) hpos]
      simpa using h1
    have a2 : Int.log 2 |q| < e + 53 := by
      rw [← Int.lt_zpow_iff_log_lt (by norm_num) hpos]
      simpa using h2
    omega
  unfold float64
  rw [if_neg h0, hlog]
  have : e + 52 - 52 = e := by ring
  rw [this, hz]

theorem float64_of_exponent_pos (q : ℚ) (e z : ℤ) (h0 : 0 < q)
    (h1 : (2 : ℚ) ^ (e + 52) ≤ q) (h2 : q < (2 : ℚ) ^ (e + 53))
    (hz : roundHalfEven (q / 2 ^ e) = z) : float64 q = (z : ℚ) * 2 ^ e :=
  float64_of_exponent q e z h0.ne' (by rwa [abs_of_pos h0]) (by rwa [abs_of_pos h0]) hz

theorem GetDeduplicationStats_ratio (sprintf : ℚ → String) (fs : FileSystem) :
    (GetDeduplicationStats sprintf fs).deduplication_ratio =
      if (GetDeduplicationStats sprintf fs).logical_size > 0 then
        float64 (float64 (float64 ((GetDeduplicationStats sprintf fs).space_saved : ℚ) /
          float64 ((GetDeduplicationStats sprintf fs).logical_size : ℚ)) * 100)
      else 0 := by
  unfold GetDeduplicationStats
  dsimp only
  split_ifs
  · rfl
  · exact float64_zero

/-- C18 (as the code has it): the `deduplication_ratio` that `GetDeduplicationStats`
reports is 0 when `logical_size` is not positive, so nothing is divided by zero;
for `logical_size > 0` and `space_saved ≥ 0` it is the percentage
`space_saved / logical_size * 100` as computed in binary64, each conversion and
operation rounded to nearest: it differs from the exact percentage by at most the
fraction `2^-50` of it, and is 0 when `space_saved` is 0. -/
theorem dedup_ratio_percentage (sprintf : ℚ → String) (fs : FileSystem) :
    ((GetDeduplicationStats sprintf fs).logical_size ≤ 0 →
      (GetDeduplicationStats sprintf fs).deduplication_ratio = 0) ∧
    (0 < (GetDeduplicationStats sprintf fs).logical_size →
      0 ≤ (GetDeduplicationStats sprintf fs).space_saved →
      |(GetDeduplicationStats sprintf fs).deduplication_ratio -
          ((GetDeduplicationStats sprintf fs).space_saved : ℚ) /
            ((GetDeduplicationStats sprintf fs).logical_size : ℚ) * 100|
        ≤ ((GetDeduplicationStats sprintf fs).space_saved : ℚ) /
            ((GetDeduplicationStats sprintf fs).logical_size : ℚ) * 100 / 2 ^ 50 ∧
      ((GetDeduplicationStats sprintf fs).space_saved = 0 →
        (GetDeduplicationStats sprintf fs).deduplication_ratio = 0)) := by
  rw [GetDeduplicationStats_ratio]
  constructor
  · intro h
    rw [if_neg (not_lt.2 h)]
  · intro hl hs
    rw [if_pos hl]
    constructor
    · apply float64_ratio_err
      · exact_mod_cast hs
      · exact_mod_cast hl
    · intro h0
      rw [h0]
      simp [float64_zero]

/-! ## The path/parent invariant (claim C19) -/

theorem RootsOnly_inv {db : DB} (h : RootsOnly db) : Inv db := by
  refine ⟨⟨h.users, ?_, h.nodes, ?_⟩, ⟨?_, ?_, ?_, ?_⟩, ⟨?_, ?_, ?_, ?_, ?_⟩⟩
  · rw [h.dataBlocks]; exact ⟨by simp, h.nextDataBlockID, by simp⟩
  · rw [h.fileNodes]; exact ⟨by simp, h.nextFileNodeID, by simp⟩
  · intro n hn _
    obtain ⟨_, h2, h3, h4⟩ := h.roots n hn
    exact ⟨h3, h2, by rw [h4]; decide⟩
  · intro m hm pid hp
    rw [(h.roots m hm).1] at hp
    simp at hp
  · intro n hn
    rw [(h.roots n hn).2.1]
    decide
  · intro a ha b hb hown _
    exact h.unique a ha b hb hown
  · simp [h.fileNodes]
  · simp [h.dataBlocks]
  · simp [h.dataBlocks]
  · simp [h.fileNodes]
  · intro t _ _
    simp [bindingsAt, h.fileNodes]

theorem RootsOnly_names {db : DB} (h : RootsOnly db) : NamesOK db := by
  intro m hm pid hp
  rw [(h.roots m hm).1] at hp
  simp at hp

theorem RootsOnly_of_empty {db : DB} (h : EmptyStore db) : RootsOnly db := by
  refine ⟨h.users, ?_, ?_, ?_, h.dataBlocks, h.fileNodes, h.nextDataBlockID, h.nextFileNodeID⟩
  · rw [h.trieNodes]; exact ⟨by simp, h.nextTrieNodeID, by simp⟩
  · simp [h.trieNodes]
  · simp [h.trieNodes]

theorem NamesOK_sub {db db1 : DB} (hn : NamesOK db)
    (h : ∀ x ∈ db1.trieNodes, ∃ m ∈ db.trieNodes, x.Name = m.Name ∧ x.ParentID = m.ParentID) :
    NamesOK db1 := by
  intro x hx pid hp
  obtain ⟨m, hm, h1, h2⟩ := h x hx
  rw [h1]
  exact hn m hm pid (h2 ▸ hp)

theorem NamesOK_congr {db db1 : DB} (h : db1.trieNodes = db.trieNodes) (hn : NamesOK db) :
    NamesOK db1 := by
  intro x hx
  rw [h] at hx
  exact hn x hx

theorem insertLoop_names (isFile : Bool) (userID : Nat) :
    ∀ (parts : List String) (db : DB) (cur : TrieNode) (cp : String),
      NamesOK db → (∀ p ∈ parts, ValidSeg p.data) →
      NamesOK (insertLoop isFile userID parts db cur cp).2 := by
  intro parts
  induction parts with
  | nil => intro db cur cp hn _; rw [insertLoop_nil]; exact hn
  | cons part rest ih =>
    intro db cur cp hn hv
    cases hfind : db.trieNodes.find? (fun n =>
        decide (n.Name = part ∧ n.ParentID = some cur.ID ∧ n.OwnerID = userID)) with
    | none =>
      rw [insertLoop_cons_none _ _ _ _ _ _ _ hfind]
      apply ih
      · intro m hm pid hp
        rw [withNode_trieNodes, List.mem_append, List.mem_singleton] at hm
        rcases hm with hm | hm
        · exact hn m hm pid hp
        · subst hm
          exact hv part (by simp)
      · intro p hp
        exact hv p (List.mem_cons_of_mem _ hp)
    | some ex =>
      rw [insertLoop_cons_some _ _ _ _ _ _ _ ex hfind]
      split_ifs
      · exact hn
      · exact hn
      · exact ih db ex _ hn (fun p hp => hv p (List.mem_cons_of_mem _ hp))

theorem Insert_names (fs : FileSystem) (filePath : String) (isFile : Bool) (userID : Nat)
    (hn : NamesOK fs.DB) : NamesOK (Insert fs filePath isFile userID).2.DB := by
  unfold Insert
  cases hsp : SplitPath filePath with
  | none => exact hn
  | some parts =>
    exact insertLoop_names isFile userID parts fs.DB fs.Root "" hn
      (SplitPath_valid filePath parts hsp)

theorem NewFileSystem_names (db : DB) (userID : Nat) (hn : NamesOK db) :
    NamesOK (NewFileSystem db userID).DB := by
  cases hfind : db.trieNodes.find? (fun n =>
      decide (n.Name = "root" ∧ n.OwnerID = userID ∧ n.Path = "/")) with
  | some root => rw [NewFileSystem_some db userID root hfind]; exact hn
  | none =>
    rw [NewFileSystem_none db userID hfind]
    intro m hm pid hp
    rw [withNode_trieNodes, List.mem_append, List.mem_singleton] at hm
    rcases hm with hm | hm
    · exact hn m hm pid hp
    · subst hm
      simp [newRoot] at hp

theorem saveDataBlock_trieNodes (db : DB) (b : DataBlock) :
    (db.saveDataBlock b).trieNodes = db.trieNodes := by
  unfold DB.saveDataBlock DB.createDataBlock; split_ifs <;> rfl

theorem saveFileNode_trieNodes (db : DB) (f : FileNode) :
    (db.saveFileNode f).trieNodes = db.trieNodes := by
  unfold DB.saveFileNode DB.createFileNode; split_ifs <;> rfl

theorem deleteDataBlock_trieNodes (db : DB) (b : DataBlock) :
    (db.deleteDataBlock b).trieNodes = db.trieNodes := by
  unfold DB.deleteDataBlock; split_ifs <;> rfl

theorem deleteFileNode_trieNodes (db : DB) (f : FileNode) :
    (db.deleteFileNode f).trieNodes = db.trieNodes := by
  unfold DB.deleteFileNode; split_ifs <;> rfl

theorem deleteTrieNode_sub (db : DB) (n : TrieNode) :
    ∀ x ∈ (db.deleteTrieNode n).trieNodes, x ∈ db.trieNodes := by
  intro x hx
  unfold DB.deleteTrieNode at hx
  split_ifs at hx
  · exact hx
  · exact List.mem_of_mem_filter hx

theorem ProcessFileUpload_names (env : Env) (fs : FileSystem) (userID : Nat)
    (fileHeader : FileHeader) (dirPath : String) (hn : NamesOK fs.DB) :
    NamesOK (ProcessFileUpload env fs userID fileHeader dirPath).2.DB := by
  unfold ProcessFileUpload
  dsimp only
  cases hu : fs.DB.users.find? (fun u => decide (u.ID = userID)) with
  | none => exact hn
  | some user =>
    dsimp only
    split_ifs
    · exact hn
    · have hn1 := Insert_names fs (filepathJoin dirPath fileHeader.Filename) true userID hn
      generalize Insert fs (filepathJoin dirPath fileHeader.Filename) true userID = r at *
      obtain ⟨res, fs1⟩ := r
      cases res with
      | error e => exact hn1
      | ok trieNode =>
        dsimp only
        cases hfind : fs1.DB.dataBlocks.find?
            (fun b => decide (b.Hash = env.calculateHash fileHeader.Data)) with
        | some found =>
          dsimp only
          refine NamesOK_congr ?_ hn1
          simp only [DB.createFileNode, saveUser_trieNodes, saveDataBlock_trieNodes]
        | none =>
          dsimp only
          refine NamesOK_congr ?_ hn1
          simp only [DB.createFileNode, saveUser_trieNodes, DB.createDataBlock]

theorem names_delete_steps (db : DB) (c d : Prop) [Decidable c] [Decidable d]
    (b b2 : DataBlock) (f : FileNode) (n : TrieNode) (u : User) (hn : NamesOK db) :
    NamesOK
      (if d then
        (((if c then db.deleteDataBlock b else db.saveDataBlock b2).deleteFileNode
          f).deleteTrieNode n).saveUser u
       else ((if c then db.deleteDataBlock b else db.saveDataBlock b2).deleteFileNode
          f).deleteTrieNode n) := by
  have h1 : NamesOK (if c then db.deleteDataBlock b else db.saveDataBlock b2) := by
    split_ifs with hc
    · exact NamesOK_congr (deleteDataBlock_trieNodes _ _) hn
    · exact NamesOK_congr (saveDataBlock_trieNodes _ _) hn
  generalize (if c then db.deleteDataBlock b else db.saveDataBlock b2) = X at h1 ⊢
  have h2 : NamesOK ((X.deleteFileNode f).deleteTrieNode n) := by
    apply NamesOK_sub h1
    intro x hx
    have := deleteTrieNode_sub _ _ x hx
    rw [deleteFileNode_trieNodes] at this
    exact ⟨x, this, rfl, rfl⟩
  split_ifs with hd
  · exact NamesOK_congr (saveUser_trieNodes _ _) h2
  · exact h2

theorem DeleteFile_names (fs : FileSystem) (filePath : String) (userID : Nat)
    (hn : NamesOK fs.DB) : NamesOK (DeleteFile fs filePath userID).2.DB := by
  unfold DeleteFile
  cases hs : Search fs filePath userID with
  | error e => exact hn
  | ok t =>
    dsimp only
    by_cases h1 : ¬ t.NodeType = "file"
    · rw [if_pos h1]
      exact hn
    · rw [if_neg h1]
      cases hfn : fs.DB.fileNodes.find? (fun f => decide (f.TrieNodeID = t.ID)) with
      | none => exact hn
      | some fn =>
        dsimp only
        by_cases hz : fn.RefCount - 1 ≤ 0
        · rw [if_pos hz]
          dsimp only
          exact names_delete_steps fs.DB _ _ _ _ _ _ _ hn
        · rw [if_neg hz]
          exact NamesOK_congr (saveFileNode_trieNodes _ _) hn

theorem CreateHardLink_names (fs : FileSystem) (src dst : String) (userID : Nat)
    (hn : NamesOK fs.DB) : NamesOK (CreateHardLink fs src dst userID).2.DB := by
  unfold CreateHardLink
  cases hs : Search fs src userID with
  | error e => exact hn
  | ok srcNode =>
    dsimp only
    by_cases h1 : ¬ srcNode.NodeType = "file"
    · rw [if_pos h1]
      exact hn
    · rw [if_neg h1]
      cases hl : fs.DB.fileNodes.find? (fun f => decide (f.TrieNodeID = srcNode.ID)) with
      | none => exact hn
      | some loaded =>
        dsimp only
        have hn1 := Insert_names fs dst true userID hn
        generalize Insert fs dst true userID = r at *
        obtain ⟨res, fs1⟩ := r
        cases res with
        | error e => exact hn1
        | ok dstNode =>
          dsimp only
          refine NamesOK_congr ?_ hn1
          simp only [DB.createFileNode, saveDataBlock_trieNodes, saveFileNode_trieNodes]

theorem CreateSoftLink_names (fs : FileSystem) (src dst : String) (userID : Nat)
    (hinv : Inv fs.DB) (hroot : RootOK fs userID) (hn : NamesOK fs.DB) :
    NamesOK (CreateSoftLink fs src dst userID).2.DB := by
  unfold CreateSoftLink
  have hn1 := Insert_names fs dst false userID hn
  obtain ⟨_, _, _, _, i5⟩ := Insert_inv fs dst false userID hinv hroot
  generalize Insert fs dst false userID = r at *
  obtain ⟨res, fs1⟩ := r
  cases res with
  | error e => exact hn1
  | ok dstNode =>
    dsimp only
    have hmem : dstNode ∈ fs1.DB.trieNodes := (i5 dstNode rfl).1
    apply NamesOK_sub hn1
    intro x hx
    simp only [DB.createSymLinkNode] at hx
    unfold DB.saveTrieNode DB.createTrieNode at hx
    split_ifs at hx
    · simp only [List.mem_append, List.mem_singleton] at hx
      rcases hx with hx | hx
      · exact ⟨x, hx, rfl, rfl⟩
      · subst hx
        exact ⟨dstNode, hmem, rfl, rfl⟩
    · simp only [List.mem_map] at hx
      obtain ⟨y, hy, rfl⟩ := hx
      split_ifs with hid
      · exact ⟨dstNode, hmem, rfl, rfl⟩
      · exact ⟨y, hy, rfl, rfl⟩

theorem Op.run_names (env : Env) (db : DB) (userID : Nat) (op : Op) (hinv : Inv db)
    (hn : NamesOK db) : NamesOK (op.run env db userID) := by
  obtain ⟨n1, _, n3⟩ := NewFileSystem_inv db userID hinv
  have hn0 := NewFileSystem_names db userID hn
  cases op with
  | upload fileHeader dirPath => exact ProcessFileUpload_names env _ userID _ _ hn0
  | hardLink src dst => exact CreateHardLink_names _ src dst userID hn0
  | softLink src dst => exact CreateSoftLink_names _ src dst userID n1 n3 hn0
  | delete filePath => exact DeleteFile_names _ filePath userID hn0
  | mkdir path => exact Insert_names _ path false userID hn0
  | insert path isFile => exact Insert_names _ path isFile userID hn0

theorem Reachable_names {env : Env} {allowed : Op → Prop} {init db : DB}
    (hinit : Inv init) (hn : NamesOK init) (h : Reachable env allowed init db) :
    NamesOK db := by
  induction h with
  | start => exact hn
  | step userID op hr _ ih =>
    exact Op.run_names env _ userID op (Reachable_inv hinit hr) ih

/-- C19: in every state reachable from a store holding only root nodes through
`Insert`, `ProcessFileUpload`, `CreateHardLink`, `CreateSoftLink` and `DeleteFile`,
a node without parent has path "/", and every node with a parent reference has that
parent stored, has as `Path` the parent's `Path` and its own `Name` with a single
"/" between them (the root's path being that "/" itself), and has a `Name` that is
not "", "." or ".." and contains no "/". -/
theorem path_parent_invariant (env : Env) (init db : DB) (hinit : RootsOnly init)
    (hreach : Reachable env Op.any init db) :
    ∀ m ∈ db.trieNodes,
      (m.ParentID = none → m.Path = "/") ∧
      ∀ pid, m.ParentID = some pid →
        (∃ q ∈ db.trieNodes, q.ID = pid ∧
          m.Path = (if q.Path = "/" then "" else q.Path) ++ "/" ++ m.Name) ∧
        m.Name ≠ "" ∧ m.Name ≠ "." ∧ m.Name ≠ ".." ∧ '/' ∉ m.Name.data := by
  have hinv := Reachable_inv (RootsOnly_inv hinit) hreach
  have hnames := Reachable_names (RootsOnly_inv hinit) (RootsOnly_names hinit) hreach
  intro m hm
  refine ⟨fun h => (hinv.trie.root m hm h).2.1, ?_⟩
  intro pid hp
  obtain ⟨_, _, q, hq, hqid, _, _, hpath⟩ := hinv.trie.child m hm pid hp
  obtain ⟨v1, v2, v3, v4, _⟩ := hnames m hm pid hp
  refine ⟨⟨q, hq, hqid, ?_⟩, ?_, ?_, ?_, v2⟩
  · rw [hpath]
    unfold childPath
    split_ifs <;> simp
  · intro h
    apply v1
    rw [h]
  · intro h
    apply v3
    rw [h]
  · intro h
    apply v4
    rw [h]

/-! ## The scenarios of spec section 8, evaluated -/

set_option maxRecDepth 1000000

theorem demoEmpty_empty : EmptyStore demoEmpty := by
  refine ⟨?_, rfl, rfl, rfl, rfl, rfl, ?_, ?_, ?_⟩
  · unfold IdsOK; decide
  · decide
  · decide
  · decide

theorem demoA1_reachable (allowed : Op → Prop) (h : ∀ op, allowed op) :
    Reachable demoEnv allowed demoEmpty demoA1 :=
  Reachable.step 1 (Op.upload demoFile "/docs") Reachable.start (h _)

theorem demoA_reachable (allowed : Op → Prop) (h : ∀ op, allowed op) :
    Reachable demoEnv allowed demoEmpty demoA :=
  Reachable.step 1 (Op.upload demoFile "/backup") (demoA1_reachable allowed h) (h _)

theorem demoDel_reachable : Reachable demoEnv Op.isBinding demoEmpty demoDel :=
  Reachable.step 1 (Op.delete "/docs/report.pdf")
    (Reachable.step 1 (Op.upload demoFile "/docs") Reachable.start trivial) trivial

/-- C1, evaluated. Owner 1 uploads 100 bytes as `/docs/report.pdf` (block 1 with
`RefCount` 1, one binding) and deletes the file: `DeleteFile` succeeds and removes
the binding, while block 1 is still stored with `RefCount` 1, so a stored block's
`RefCount` is not the number of live bindings that reference it. -/
theorem refcount_drift_after_delete :
    EmptyStore demoEmpty ∧ Reachable demoEnv Op.isBinding demoEmpty demoDel ∧
    demoA1.dataBlocks.map (fun b => (b.ID, b.RefCount)) = [(1, 1)] ∧
    demoA1.fileNodes.map (fun f => (f.ID, f.DataBlockID, f.RefCount)) = [(1, 1, 1)] ∧
    (DeleteFile (NewFileSystem demoA1 1) "/docs/report.pdf" 1).1 = .ok () ∧
    demoDel.dataBlocks.map (fun b => (b.ID, b.RefCount)) = [(1, 1)] ∧
    demoDel.fileNodes = [] ∧
    refsByID demoDel 1 = 0 ∧
    ¬ (∀ b ∈ demoDel.dataBlocks, b.RefCount = (refsByID demoDel b.ID : Int)) := by
  refine ⟨demoEmpty_empty, demoDel_reachable, by decide, by decide, rfl, by decide,
    by decide, by decide, by decide⟩

/-- C4, counterexample. The account holds `QuotaUsed = 2^63 - 1` and `QuotaMax = 1000`:
`QuotaUsed + 100 > QuotaMax`, yet the upload of 100 bytes is accepted, the `int64`
sum being negative. -/
theorem upload_quota_overflow_counterexample :
    ¬ (∀ (env : Env) (fs : FileSystem) (userID : Nat) (fileHeader : FileHeader)
        (dirPath : String) (user : User),
        fs.DB.users.find? (fun u => decide (u.ID = userID)) = some user →
        user.QuotaUsed + (fileHeader.Data.length : Int) > user.QuotaMax →
        (ProcessFileUpload env fs userID fileHeader dirPath).1 = .error .quotaExceeded) := by
  intro h
  have h1 := h demoEnv (NewFileSystem demoFull 1) 1 demoFile "/docs"
    { ID := 1, QuotaUsed := 9223372036854775807, QuotaMax := 1000, StorageSaved := 0 }
    (by decide) (by decide)
  have h2 : (ProcessFileUpload demoEnv (NewFileSystem demoFull 1) 1 demoFile "/docs").1.toBool
      = true := by decide
  rw [h1] at h2
  exact absurd h2 (by decide)

/-- Witness for C4: owner 2 has quota 50, the payload has 100 bytes. -/
theorem upload_quota_exceeded_witness :
    ProcessFileUpload demoEnv (NewFileSystem demoEmpty 2) 2 demoFile "/docs"
      = (.error .quotaExceeded, NewFileSystem demoEmpty 2) :=
  (upload_quota_exceeded demoEnv (NewFileSystem demoEmpty 2) 2 demoFile "/docs"
    (by decide) (by decide)).1
    { ID := 2, QuotaUsed := 0, QuotaMax := 50, StorageSaved := 0 } (by decide) (by decide)
    (by decide)

/-- C6, counterexample. Scenario C as claimed fails: after the two uploads and the
hard link, a single `DeleteFile("/docs/report.pdf")` does not bring the block to
`RefCount` 2 with `/docs/report.pdf` unresolvable. -/
theorem scenarioC_single_delete_counterexample :
    ¬ (demoC.dataBlocks.map (fun b => b.RefCount) = [2] ∧
       resolves demoC "/docs/report.pdf" 1 = false ∧
       blockOfPath demoC "/backup/report.pdf" 1 = some 1 ∧
       blockOfPath demoC "/shared/report.pdf" 1 = some 1) := by
  decide

/-- C6 (as the code has it). Scenario C: after the two uploads and the hard link
(block `RefCount` 3, the source binding's own `RefCount` 2), one
`DeleteFile("/docs/report.pdf")` succeeds, leaves the block at `RefCount` 3 and the
path resolvable, and only lowers the binding's own `RefCount` to 1; a second
`DeleteFile("/docs/report.pdf")` leaves the block with `RefCount` 2, makes `Search`
fail, and leaves `/backup/report.pdf` and `/shared/report.pdf` resolvable to
bindings on that same block. -/
theorem scenarioC_two_deletes :
    demoB.dataBlocks.map (fun b => (b.ID, b.RefCount)) = [(1, 3)] ∧
    demoB.fileNodes.map (fun f => (f.TrieNodeID, f.DataBlockID, f.RefCount))
      = [(3, 1, 2), (5, 1, 1), (7, 1, 1)] ∧
    (DeleteFile (NewFileSystem demoB 1) "/docs/report.pdf" 1).1 = .ok () ∧
    demoC.dataBlocks.map (fun b => (b.ID, b.RefCount)) = [(1, 3)] ∧
    resolves demoC "/docs/report.pdf" 1 = true ∧
    demoC.fileNodes.map (fun f => (f.TrieNodeID, f.DataBlockID, f.RefCount))
      = [(3, 1, 1), (5, 1, 1), (7, 1, 1)] ∧
    (DeleteFile (NewFileSystem demoC 1) "/docs/report.pdf" 1).1 = .ok () ∧
    demoC2.dataBlocks.map (fun b => (b.ID, b.RefCount)) = [(1, 2)] ∧
    resolves demoC2 "/docs/report.pdf" 1 = false ∧
    blockOfPath demoC2 "/backup/report.pdf" 1 = some 1 ∧
    blockOfPath demoC2 "/shared/report.pdf" 1 = some 1 := by
  refine ⟨by decide, by decide, rfl, by decide, by decide, by decide, rfl, by decide,
    by decide, by decide, by decide⟩

theorem demoL_reachable (allowed : Op → Prop) (h : ∀ op, allowed op) :
    Reachable demoEnv allowed demoEmpty demoL :=
  Reachable.step 1 (Op.delete "/shared/report.pdf")
    (Reachable.step 1 (Op.hardLink "/docs/report.pdf" "/shared/report.pdf")
      (demoA1_reachable allowed h) (h _)) (h _)

/-- After upload, hard link and deletion of the link, the binding of
`/docs/report.pdf` is the only one on block 1 and has own `RefCount` 2: `DeleteFile`
on it succeeds and only lowers that count to 1. -/
theorem delete_hardlink_source :
    (Search (NewFileSystem demoL 1) "/docs/report.pdf" 1) = .ok demoDocsNode ∧
    demoDocsNode.NodeType = "file" ∧
    demoL.fileNodes.map (fun f => (f.TrieNodeID, f.DataBlockID, f.RefCount)) = [(3, 1, 2)] ∧
    refsByID demoL 1 = 1 ∧
    (DeleteFile (NewFileSystem demoL 1) "/docs/report.pdf" 1).1 = .ok () ∧
    ((Op.delete "/docs/report.pdf").run demoEnv demoL 1).dataBlocks.map
      (fun b => (b.ID, b.RefCount)) = [(1, 1)] ∧
    ((Op.delete "/docs/report.pdf").run demoEnv demoL 1).fileNodes.map
      (fun f => (f.TrieNodeID, f.DataBlockID, f.RefCount)) = [(3, 1, 1)] := by
  refine ⟨rfl, by decide, by decide, by decide, rfl, by decide, by decide⟩

/-- C7, evaluated. After the first upload of Scenario A, `/docs/report.pdf` resolves
to a file whose binding (own `RefCount` 1) is the only one on block 1.
`DeleteFile("/docs/report.pdf")` succeeds and removes the binding and the namespace
node, and the owner is no longer charged; block 1 is still stored, unchanged.  The
same bytes uploaded again are deduplicated against it. -/
theorem delete_keeps_block :
    Search (NewFileSystem demoA1 1) "/docs/report.pdf" 1 = .ok demoDocsNode ∧
    demoDocsNode.NodeType = "file" ∧
    demoA1.fileNodes = [demoFn1] ∧
    refsByID demoA1 demoFn1.DataBlockID = 1 ∧
    (DeleteFile (NewFileSystem demoA1 1) "/docs/report.pdf" 1).1 = .ok () ∧
    demoDel.fileNodes = [] ∧
    resolves demoDel "/docs/report.pdf" 1 = false ∧
    demoDel.users.map (fun u => (u.ID, u.QuotaUsed)) = [(1, 0), (2, 0)] ∧
    demoDel.dataBlocks = demoA1.dataBlocks ∧
    demoDel.dataBlocks.map (fun b => (b.ID, b.Size, b.RefCount)) = [(1, 100, 1)] ∧
    demoReup.dataBlocks.map (fun b => (b.ID, b.Size, b.RefCount)) = [(1, 100, 2)] ∧
    demoReup.fileNodes.map (fun f => (f.DataBlockID, f.IsDeduped)) = [(1, true)] ∧
    demoReup.users.map (fun u => (u.ID, u.QuotaUsed, u.StorageSaved))
      = [(1, 0, 100), (2, 0, 0)] := by
  refine ⟨rfl, by decide, by decide, by decide, rfl, by decide, by decide, by decide,
    by decide, by decide, by decide, by decide, by decide⟩

/-- Witness for C8: Scenario B. -/
theorem hardlink_postcondition_witness :
    (CreateHardLink (NewFileSystem demoA 1) "/docs/report.pdf" "/shared/report.pdf" 1).1
      = .ok () ∧
    demoB.fileNodes.map (fun f => (f.TrieNodeID, f.DataBlockID, f.RefCount, f.IsDeduped))
      = [(3, 1, 2, false), (5, 1, 1, true), (7, 1, 1, true)] ∧
    ∃ srcNode srcFile dstNode blk,
      Search (NewFileSystem demoA 1) "/docs/report.pdf" 1 = .ok srcNode ∧
      srcNode.NodeType = "file" ∧
      (NewFileSystem demoA 1).DB.fileNodes.find?
        (fun f => decide (f.TrieNodeID = srcNode.ID)) = some srcFile ∧
      (Insert (NewFileSystem demoA 1) "/shared/report.pdf" true 1).1 = .ok dstNode ∧
      (NewFileSystem demoA 1).DB.dataBlocks.find?
        (fun b => decide (b.ID = srcFile.DataBlockID)) = some blk ∧
      (CreateHardLink (NewFileSystem demoA 1) "/docs/report.pdf" "/shared/report.pdf"
          1).2.DB.fileNodes
        = (NewFileSystem demoA 1).DB.fileNodes.map (fun x => if x.ID = srcFile.ID then
              { srcFile with RefCount := srcFile.RefCount + 1 } else x) ++
          [{ ID := (NewFileSystem demoA 1).DB.nextFileNodeID, TrieNodeID := dstNode.ID,
             OriginalName := srcFile.OriginalName, Hash := srcFile.Hash, Size := srcFile.Size,
             MimeType := srcFile.MimeType, ActualMimeType := srcFile.ActualMimeType,
             DataBlockID := srcFile.DataBlockID, RefCount := 1, Downloads := 0, Tags := "",
             IsDeduped := true }] ∧
      (CreateHardLink (NewFileSystem demoA 1) "/docs/report.pdf" "/shared/report.pdf"
          1).2.DB.dataBlocks
        = (NewFileSystem demoA 1).DB.dataBlocks.map (fun x => if x.ID = blk.ID then
              { blk with RefCount := blk.RefCount + 1 } else x) ∧
      (CreateHardLink (NewFileSystem demoA 1) "/docs/report.pdf" "/shared/report.pdf"
          1).2.DB.dataBlocks.find? (fun b => decide (b.ID = srcFile.DataBlockID))
        = some { blk with RefCount := blk.RefCount + 1 } ∧
      (CreateHardLink (NewFileSystem demoA 1) "/docs/report.pdf" "/shared/report.pdf"
          1).2.DB.users = (NewFileSystem demoA 1).DB.users :=
  have hinv : Inv (NewFileSystem demoA 1).DB :=
    (NewFileSystem_inv demoA 1
      (Reachable_inv (EmptyStore_inv demoEmpty_empty) (demoA_reachable Op.any (fun _ => trivial)))).1
  ⟨rfl, by decide,
    hardlink_postcondition (NewFileSystem demoA 1) "/docs/report.pdf" "/shared/report.pdf" 1
      hinv.seq
      (fun f hf => (hinv.bind.block f hf).imp (fun _ hb => ⟨hb.1, hb.2.1⟩)) rfl⟩

/-- C9, counterexample. Scenario B: the hard link of the 100-byte file succeeds
and `StorageSaved` of the owner is 100 before and after. -/
theorem hardlink_saved_counterexample :
    (CreateHardLink (NewFileSystem demoA 1) "/docs/report.pdf" "/shared/report.pdf" 1).1
      = .ok () ∧
    demoA.fileNodes.map (fun f => (f.TrieNodeID, f.Size)) = [(3, 100), (5, 100)] ∧
    demoA.users.map (fun u => (u.ID, u.QuotaUsed, u.StorageSaved))
      = [(1, 100, 100), (2, 0, 0)] ∧
    demoB.users.map (fun u => (u.ID, u.QuotaUsed, u.StorageSaved))
      = [(1, 100, 100), (2, 0, 0)] := by
  refine ⟨rfl, by decide, by decide, by decide⟩

/-- Witness for C10: `Insert("/docs/new", false, 1)` after Scenario A. -/
theorem path_round_trip_witness :
    (Insert (NewFileSystem demoA 1) "/docs/new" false 1).1 = .ok demoNewDir ∧
    Search (Insert (NewFileSystem demoA 1) "/docs/new" false 1).2 demoNewDir.Path 1
      = .ok demoNewDir :=
  ⟨rfl, path_round_trip demoEnv demoEmpty demoA "/docs/new" false 1 demoNewDir
    demoEmpty_empty (demoA_reachable Op.any (fun _ => trivial)) rfl⟩

/-! ## Paths, insertion, links and statistics, evaluated -/

/-- Witness for C11: the path `/docs/report.pdf`. -/
theorem SplitPath_segments_witness :
    SplitPath "/" = some [] ∧
    (SplitPath "/docs/report.pdf" = none ↔
      ∃ s ∈ ["docs", "report.pdf"], s = "" ∨ s = "." ∨ s = ".." ∨ s = " ") ∧
    ((∀ s ∈ ["docs", "report.pdf"], s ≠ "" ∧ s ≠ "." ∧ s ≠ ".." ∧ s ≠ " ") →
      SplitPath "/docs/report.pdf" = some ["docs", "report.pdf"]) :=
  SplitPath_segments "/docs/report.pdf" "docs/report.pdf" ["docs", "report.pdf"]
    (by decide) (by decide) (Or.inl (by decide)) (by decide) (by decide) (by decide)

/-- Witness for C12: after the first upload of Scenario A, `Insert` of
`/docs/report.pdf` as a file is rejected by case (c). -/
theorem Insert_fails_iff_witness :
    FreshNodeKeys (NewFileSystem demoA1 1) ∧
    (Insert (NewFileSystem demoA1 1) "/docs/report.pdf" true 1).1 = .error .fileAlreadyExists ∧
    InsertRejects (NewFileSystem demoA1 1) "/docs/report.pdf" true 1 :=
  ⟨by unfold FreshNodeKeys; decide, rfl,
    (Insert_fails_iff (NewFileSystem demoA1 1) "/docs/report.pdf" true 1
      (by unfold FreshNodeKeys; decide)).1.1 ⟨_, rfl⟩⟩

/-- Witness for C13: `Insert("/docs/new", false, 1)` twice after Scenario A. -/
theorem Insert_directory_idempotent_witness :
    (Insert (NewFileSystem demoA 1) "/docs/new" false 1).1 = .ok demoNewDir ∧
    Insert (Insert (NewFileSystem demoA 1) "/docs/new" false 1).2 "/docs/new" false 1
      = (.ok demoNewDir, (Insert (NewFileSystem demoA 1) "/docs/new" false 1).2) :=
  ⟨rfl, Insert_directory_idempotent (NewFileSystem demoA 1) "/docs/new" 1 demoNewDir rfl⟩

/-- C14, evaluated. After the first upload of Scenario A the paths
`/docs/report.pdf`, `/docs` and `/` resolve to a file, a directory and the root of
owner 1; `CreateSoftLink` with each of them as destination returns no error and
the node the path resolves to afterwards is that same node with kind "symlink";
the binding of `/docs/report.pdf` stays attached to it, and `DeleteFile` on that
path is from then on refused with "invalid file path". -/
theorem softlink_onto_existing :
    Search (NewFileSystem demoA1 1) "/docs/report.pdf" 1 = .ok demoDocsNode ∧
    demoDocsNode.NodeType = "file" ∧
    (CreateSoftLink (NewFileSystem demoA1 1) "/target" "/docs/report.pdf" 1).1 = .ok () ∧
    Search (NewFileSystem demoSoftFile 1) "/docs/report.pdf" 1
      = .ok { demoDocsNode with NodeType := "symlink" } ∧
    demoSoftFile.fileNodes.map (fun f => f.TrieNodeID) = [demoDocsNode.ID] ∧
    (DeleteFile (NewFileSystem demoSoftFile 1) "/docs/report.pdf" 1).1
      = .error .invalidFilePath ∧
    (Search (NewFileSystem demoA1 1) "/docs" 1).toOption.map (fun n => (n.ID, n.NodeType))
      = some (2, "directory") ∧
    (CreateSoftLink (NewFileSystem demoA1 1) "/target" "/docs" 1).1 = .ok () ∧
    (Search (NewFileSystem demoSoftDir 1) "/docs" 1).toOption.map (fun n => (n.ID, n.NodeType))
      = some (2, "symlink") ∧
    (Search (NewFileSystem demoA1 1) "/" 1).toOption.map (fun n => (n.ID, n.NodeType))
      = some (1, "directory") ∧
    (CreateSoftLink (NewFileSystem demoA1 1) "/target" "/" 1).1 = .ok () ∧
    (Search (NewFileSystem demoSoftRoot 1) "/" 1).toOption.map (fun n => (n.ID, n.NodeType))
      = some (1, "symlink") := by
  refine ⟨rfl, by decide, rfl, rfl, by decide, rfl, by decide, rfl, by decide, by decide, rfl,
    by decide⟩

/-- C15, counterexample. The file system of owner 1 asked for "/" on behalf of
owner 2 answers with the root of owner 1. -/
theorem Search_owner_counterexample :
    ¬ (∀ (fs : FileSystem) (filePath : String) (userID : Nat) (n : TrieNode),
        Search fs filePath userID = .ok n → n.OwnerID = userID) := by
  intro h
  have h1 := h (NewFileSystem demoEmpty 1) "/" 2 (NewFileSystem demoEmpty 1).Root rfl
  revert h1
  decide

/-- Witness for C15: "/" on the file system of owner 1, asked by owner 1. -/
theorem Search_owner_scoped_witness :
    Search (NewFileSystem demoA1 1) "/" 1 = .ok (NewFileSystem demoA1 1).Root ∧
    (NewFileSystem demoA1 1).Root.OwnerID = 1 :=
  ⟨rfl, Search_owner_scoped (NewFileSystem demoA1 1) "/" 1 (NewFileSystem demoA1 1).Root rfl
    (fun _ => by decide)⟩

/-- C18, counterexample. After Scenario A (logical size 200, space saved 100) the
reported `deduplication_ratio` is 50, not the plain ratio 100/200. -/
theorem dedup_ratio_counterexample :
    ¬ (∀ (sprintf : ℚ → String) (fs : FileSystem),
        0 < (GetDeduplicationStats sprintf fs).logical_size →
        (GetDeduplicationStats sprintf fs).deduplication_ratio =
          ((GetDeduplicationStats sprintf fs).space_saved : ℚ) /
            ((GetDeduplicationStats sprintf fs).logical_size : ℚ)) := by
  intro h
  have hl : (GetDeduplicationStats (fun _ => "") (NewFileSystem demoA 1)).logical_size = 200 := by
    decide
  have hs : (GetDeduplicationStats (fun _ => "") (NewFileSystem demoA 1)).space_saved = 100 := by
    decide
  have h1 := h (fun _ => "") (NewFileSystem demoA 1) (by rw [hl]; decide)
  rw [GetDeduplicationStats_ratio, hl, hs, if_pos (by decide)] at h1
  have e1 : float64 ((100 : ℤ) : ℚ) = ((100 : ℤ) : ℚ) := float64_intCast 100 (by decide)
  have e2 : float64 ((200 : ℤ) : ℚ) = ((200 : ℤ) : ℚ) := float64_intCast 200 (by decide)
  have e3 : float64 (((100 : ℤ) : ℚ) / ((200 : ℤ) : ℚ)) = 1 / 2 := by
    have := float64_exact 1 (-1) (by decide)
    norm_num at this ⊢
    exact this
  have e4 : float64 ((1 : ℚ) / 2 * 100) = 50 := by
    have := float64_intCast 50 (by decide)
    norm_num at this ⊢
    exact this
  rw [e1, e2, e3, e4] at h1
  norm_num at h1

/-- Scenario B (logical size 300, space saved 100): the reported ratio is the
binary64 value 4691249611844266 · 2^-47 (printed 33.33333333333333), not 100/3. -/
theorem dedup_ratio_scenarioB :
    (GetDeduplicationStats (fun _ => "") (NewFileSystem demoB 1)).deduplication_ratio
      = 4691249611844266 / 2 ^ 47 ∧
    (4691249611844266 : ℚ) / 2 ^ 47 ≠ 100 / 3 := by
  have hl : (GetDeduplicationStats (fun _ => "") (NewFileSystem demoB 1)).logical_size = 300 := by
    decide
  have hs : (GetDeduplicationStats (fun _ => "") (NewFileSystem demoB 1)).space_saved = 100 := by
    decide
  refine ⟨?_, by norm_num⟩
  rw [GetDeduplicationStats_ratio, hl, hs, if_pos (by decide)]
  have e1 : float64 ((100 : ℤ) : ℚ) = ((100 : ℤ) : ℚ) := float64_intCast 100 (by decide)
  have e2 : float64 ((300 : ℤ) : ℚ) = ((300 : ℤ) : ℚ) := float64_intCast 300 (by decide)
  have e3 : float64 (((100 : ℤ) : ℚ) / ((300 : ℤ) : ℚ)) = 6004799503160661 / 2 ^ 54 := by
    rw [float64_of_exponent_pos _ (-54) 6004799503160661 (by norm_num) (by norm_num)
      (by norm_num) (roundHalfEven_of_lt _ _ (by norm_num) (by norm_num))]
    norm_num
  have e4 : float64 ((6004799503160661 : ℚ) / 2 ^ 54 * 100) = 4691249611844266 / 2 ^ 47 := by
    rw [float64_of_exponent_pos _ (-47) 4691249611844266 (by norm_num) (by norm_num)
      (by norm_num) (roundHalfEven_of_lt _ _ (by norm_num) (by norm_num))]
    norm_num
  rw [e1, e2, e3, e4]

theorem demoRoots_rootsOnly : RootsOnly demoRoots := by
  refine ⟨?_, ?_, ?_, ?_, ?_, ?_, ?_, ?_⟩
  · unfold IdsOK; decide
  · unfold IdsOK; decide
  · decide
  · decide
  · decide
  · decide
  · decide
  · decide

/-- Witness for C19: `/docs/report.pdf` uploaded on a store holding the root of
owner 1. -/
theorem path_parent_invariant_witness :
    RootsOnly demoRoots ∧
    demoRoots.trieNodes.map (fun n => (n.ID, n.Path)) = [(1, "/")] ∧
    ∀ m ∈ ((Op.upload demoFile "/docs").run demoEnv demoRoots 1).trieNodes,
      (m.ParentID = none → m.Path = "/") ∧
      ∀ pid, m.ParentID = some pid →
        (∃ q ∈ ((Op.upload demoFile "/docs").run demoEnv demoRoots 1).trieNodes, q.ID = pid ∧
          m.Path = (if q.Path = "/" then "" else q.Path) ++ "/" ++ m.Name) ∧
        m.Name ≠ "" ∧ m.Name ≠ "." ∧ m.Name ≠ ".." ∧ '/' ∉ m.Name.data :=
  ⟨demoRoots_rootsOnly, by decide,
    path_parent_invariant demoEnv demoRoots _ demoRoots_rootsOnly
      (Reachable.step 1 (Op.upload demoFile "/docs") Reachable.start trivial)⟩

theorem demoOnDir_reachable : Reachable demoEnv Op.noBareFile demoEmpty demoOnDir :=
  Reachable.step 1 (Op.upload demoDocsFile "/")
    (Reachable.step 1 (Op.mkdir "/docs") Reachable.start trivial) trivial

/-- C20, evaluated. Owner 1 creates the directory `/docs` and then uploads a file
named `docs` into `/`: the upload succeeds and its binding is attached to node 2,
the directory `/docs`, so a binding refers to a node that is not of kind "file";
`DeleteFile("/docs")` is refused with "invalid file path", the 100 bytes stay
charged to the owner. -/
theorem upload_onto_directory :
    Reachable demoEnv Op.noBareFile demoEmpty demoOnDir ∧
    (ProcessFileUpload demoEnv (NewFileSystem demoDir 1) 1 demoDocsFile "/").1.toOption.map
      (fun f => (f.ID, f.TrieNodeID)) = some (1, 2) ∧
    demoOnDir.trieNodes.map (fun t => (t.ID, t.Path, t.NodeType))
      = [(1, "/", "directory"), (2, "/docs", "directory")] ∧
    demoOnDir.fileNodes.map (fun f => (f.ID, f.TrieNodeID)) = [(1, 2)] ∧
    ¬ (∀ f ∈ demoOnDir.fileNodes,
        ∃ t ∈ demoOnDir.trieNodes, t.ID = f.TrieNodeID ∧ t.NodeType = "file") ∧
    DeleteFile (NewFileSystem demoOnDir 1) "/docs" 1
      = (.error .invalidFilePath, NewFileSystem demoOnDir 1) ∧
    demoOnDir.users.map (fun u => (u.ID, u.QuotaUsed)) = [(1, 100), (2, 0)] := by
  refine ⟨demoOnDir_reachable, by decide, by decide, by decide, by decide, rfl, by decide⟩

end FileVault
